import Mathlib

/-!
# GafferImage: `ImagePrimitiveSource` and `Grade`

A shallow embedding of `include/GafferImage/ImagePrimitiveSource.inl` and
`src/GafferImage/Grade.cpp`, with the properties of the image nodes proved
about it.

Modelling conventions

* `int` and `size_t` values are mathematical integers (`Int`); the arithmetic
  of the source is reproduced operation by operation. The methods with loops
  come in two forms. The first runs a loop for its trip count and leaves the
  integers unbounded; it is the form in which the results are computed. The
  second, named `...Loop`, runs a loop by the test of the source and takes
  every `int` expression in the range of `int`: a value outside of it is a
  signed overflow, undefined behaviour. The two forms agree on the inputs of
  `noOverflow`, and the theorems about the tiles that the loops produce are
  stated for those inputs.
* `float` values are `F32`: a finite value is an exact rational, and the IEEE-754
  special values `+inf`, `-inf` and `NaN` are kept, with the IEEE rules for
  them (`x/0`, `inf - inf`, `0 * inf`, comparisons with `NaN`). Rounding and the
  sign of zero are not modelled; a zero divisor counts as `+0`.
* `std::vector<float>` is `List F32`; an access outside `[0, size)` and the
  dereference of a null pointer are undefined behaviour, `Outcome.undefined`.
* A smart pointer that may be null is an `Option`.
* A counting loop is a structural recursion on its remaining trip count.
-/

namespace GafferImage

/-! ## Floats -/

/-- A C++ `float`: an exact finite value or one of the IEEE special values. -/
inductive F32 where
  | fin (q : ℚ)
  | posInf
  | negInf
  | nan
deriving DecidableEq

namespace F32

instance : OfNat F32 0 := ⟨fin 0⟩

instance : OfNat F32 1 := ⟨fin 1⟩

/-- Sign of a value as `-1`, `0` or `1` (`0` for zero and for `NaN`). -/
def sgn : F32 → Int
  | fin q => if 0 < q then 1 else if q < 0 then -1 else 0
  | posInf => 1
  | negInf => -1
  | nan => 0

/-- The infinity of the given sign; an indefinite sign gives `NaN`. -/
def ofSign (s : Int) : F32 :=
  if 0 < s then posInf else if s < 0 then negInf else nan

/-- Unary minus. -/
def neg : F32 → F32
  | fin q => fin (-q)
  | posInf => negInf
  | negInf => posInf
  | nan => nan

/-- Addition: `inf + -inf` is `NaN`. -/
def add : F32 → F32 → F32
  | fin a, fin b => fin (a + b)
  | nan, _ => nan
  | _, nan => nan
  | posInf, negInf => nan
  | negInf, posInf => nan
  | posInf, _ => posInf
  | negInf, _ => negInf
  | fin _, posInf => posInf
  | fin _, negInf => negInf

/-- Subtraction. -/
def sub (a b : F32) : F32 := add a (neg b)

/-- Multiplication: `0 * inf` is `NaN`. -/
def mul : F32 → F32 → F32
  | fin a, fin b => fin (a * b)
  | nan, _ => nan
  | _, nan => nan
  | a, b => ofSign (sgn a * sgn b)

/-- Division: `x / 0` is an infinity of the sign of `x`, `0 / 0` and `inf / inf`
are `NaN`. -/
def div : F32 → F32 → F32
  | nan, _ => nan
  | _, nan => nan
  | fin a, fin b => if b = 0 then ofSign (sgn (fin a)) else fin (a / b)
  | fin _, _ => fin 0
  | a, fin b => ofSign (sgn a * (if b < 0 then -1 else 1))
  | _, _ => nan

/-- Comparison `a < b`, false when either side is `NaN`. -/
def lt : F32 → F32 → Bool
  | nan, _ => false
  | _, nan => false
  | fin a, fin b => decide (a < b)
  | negInf, negInf => false
  | negInf, _ => true
  | _, negInf => false
  | posInf, _ => false
  | fin _, posInf => true

/-- Comparison `a == b`, false when either side is `NaN`. -/
def eq : F32 → F32 → Bool
  | nan, _ => false
  | _, nan => false
  | a, b => decide (a = b)

/-- Comparison `a > b`. -/
def gt (a b : F32) : Bool := lt b a

/-- Comparison `a >= b`, false when either side is `NaN`. -/
def ge (a b : F32) : Bool := lt b a || eq a b

/-- Comparison `a != b`, true when either side is `NaN`. -/
def ne (a b : F32) : Bool := !(eq a b)

end F32

/-! ## Undefined behaviour and vectors -/

/-- Result of running a piece of C++: a value, or undefined behaviour. -/
inductive Outcome (α : Type) where
  | value (a : α)
  | undefined
deriving DecidableEq

/-- A possibly null `FloatVectorDataPtr`. -/
abbrev FloatVectorDataPtr := Option (List F32)

/-- The read `v[i]` of a `std::vector<float>`. -/
def vecGet (v : List F32) (i : Int) : Outcome F32 :=
  if i < 0 then .undefined
  else
    match v[i.toNat]? with
    | some a => .value a
    | none => .undefined

/-- The write `v[i] = a` of a `std::vector<float>`. -/
def vecSet (v : List F32) (i : Int) (a : F32) : Outcome (List F32) :=
  if 0 ≤ i ∧ i < v.length then .value (v.set i.toNat a) else .undefined

/-! ## Imath boxes and IECore box operations (library code) -/

/-- An `Imath::V2i`. -/
structure V2i where
  x : Int
  y : Int
deriving DecidableEq

/-- An `Imath::Box2i`, inclusive on both ends. -/
structure Box2i where
  min : V2i
  max : V2i
deriving DecidableEq

/-- The value `std::numeric_limits<int>::max()`. -/
def intMax : Int := 2147483647

/-- The value `std::numeric_limits<int>::min()`. -/
def intMin : Int := -2147483648

/-- The default-constructed `Imath::Box2i`, which is the empty box. -/
def Box2i.empty : Box2i := ⟨⟨intMax, intMax⟩, ⟨intMin, intMin⟩⟩

/-- The test `Imath::Box2i::isEmpty`. -/
def Box2i.isEmpty (b : Box2i) : Bool :=
  decide (b.max.x < b.min.x) || decide (b.max.y < b.min.y)

/-- The extent `Imath::Box2i::size`: zero for an empty box, else `max - min`. -/
def Box2i.size (b : Box2i) : V2i :=
  if b.isEmpty then ⟨0, 0⟩ else ⟨b.max.x - b.min.x, b.max.y - b.min.y⟩

/-- Membership of a pixel in a box. -/
def Box2i.contains (b : Box2i) (x y : Int) : Prop :=
  b.min.x ≤ x ∧ x ≤ b.max.x ∧ b.min.y ≤ y ∧ y ≤ b.max.y

instance (b : Box2i) (x y : Int) : Decidable (b.contains x y) := by
  unfold Box2i.contains
  exact inferInstance

/-- Number of pixel columns of a non-empty box. -/
def Box2i.width (b : Box2i) : Int := b.max.x - b.min.x + 1

/-- Number of pixel rows of a non-empty box. -/
def Box2i.height (b : Box2i) : Int := b.max.y - b.min.y + 1

/-- The library function `IECore::boxIntersection`: the component-wise
intersection, or the empty box when the two boxes do not intersect. -/
def boxIntersection (a b : Box2i) : Box2i :=
  let mn : V2i := ⟨Max.max a.min.x b.min.x, Max.max a.min.y b.min.y⟩
  let mx : V2i := ⟨Min.min a.max.x b.max.x, Min.min a.max.y b.max.y⟩
  if mx.x < mn.x ∨ mx.y < mn.y then Box2i.empty else ⟨mn, mx⟩

/-! ## Images and objects (IECore library types) -/

/-- The data of one primitive variable of an image. -/
inductive ChannelData where
  | floatVector (v : List F32)
  | other

/-- An `IECore::ImagePrimitive`: two windows and named channels. -/
structure ImagePrimitive where
  displayWindow : Box2i
  dataWindow : Box2i
  channels : List (String × ChannelData)

/-- The call `image->getChannel<float>( name )`: null unless the image has a
float channel of that name. -/
def ImagePrimitive.getChannel (image : ImagePrimitive) (name : String) :
    FloatVectorDataPtr :=
  match image.channels.lookup name with
  | some (.floatVector v) => some v
  | _ => none

/-- The call `image->channelNames( names )`. -/
def ImagePrimitive.channelNames (image : ImagePrimitive) : List String :=
  image.channels.map Prod.fst

/-- The value held by an `ObjectPlug`. -/
inductive Object where
  | nullObject
  | imagePrimitive (image : ImagePrimitive)
  | other

/-- The cast `IECore::runTimeCast<const IECore::ImagePrimitive>`. -/
def Object.asImagePrimitive : Object → Option ImagePrimitive
  | .imagePrimitive image => some image
  | _ => none

/-- The variables of a `Gaffer::Context` that the image nodes use. -/
structure Context where
  channelName : String
  tileOrigin : V2i

/-! ## ImagePrimitiveSource -/

/-- An `ImagePrimitiveSource` node, as seen by its derived outputs: the value
of the internal input `__inputImagePrimitive`. -/
structure ImagePrimitiveSource where
  inputImagePrimitive : Object

namespace ImagePrimitiveSource

/-- The method `ImagePrimitiveSource::computeDisplayWindow`. -/
def computeDisplayWindow (node : ImagePrimitiveSource) : Box2i :=
  let result : Box2i := Box2i.empty
  match node.inputImagePrimitive.asImagePrimitive with
  | some image => image.displayWindow
  | none => result

/-- The method `ImagePrimitiveSource::computeDataWindow`. -/
def computeDataWindow (node : ImagePrimitiveSource) : Box2i :=
  let result : Box2i := Box2i.empty
  match node.inputImagePrimitive.asImagePrimitive with
  | some image => image.dataWindow
  | none => result

/-- The method `ImagePrimitiveSource::computeChannelNames`. -/
def computeChannelNames (node : ImagePrimitiveSource) : List String :=
  let result : List String := []
  match node.inputImagePrimitive.asImagePrimitive with
  | some image => result ++ image.channelNames
  | none => result

/-- The inner loop of `computeChannelData`,
`while( srcIndex <= srcEndIndex ) result[dstIndex++] = channel[srcIndex++];`
with `n` the number of iterations left. -/
def copyRow (channel : List F32) :
    Nat → Int → Int → List F32 → Outcome (List F32)
  | 0, _, _, result => .value result
  | n + 1, srcIndex, dstIndex, result =>
    match vecGet channel srcIndex with
    | .undefined => .undefined
    | .value c =>
      match vecSet result dstIndex c with
      | .undefined => .undefined
      | .value result => copyRow channel n (srcIndex + 1) (dstIndex + 1) result

/-- The outer loop of `computeChannelData`,
`for( int y = bound.min.y; y<=bound.max.y; y++ )`, with `n` the number of
iterations left. The counter and the two indices are integers without a bound
here; `ImagePrimitiveSource.copyRowsLoop` is the loop on values of `int`. -/
def copyRows (tileSize : Nat) (channel : List F32) (dataWindow tileBound bound : Box2i) :
    Nat → Int → List F32 → Outcome (List F32)
  | 0, _, result => .value result
  | n + 1, y, result =>
    let srcIndex : Int :=
      (y - dataWindow.min.y) * (dataWindow.size.x + 1) + bound.min.x - dataWindow.min.x
    let dstIndex : Int := (y - tileBound.min.y) * (tileSize : Int) + bound.min.x - tileBound.min.x
    let srcEndIndex : Int := srcIndex + bound.size.x
    match copyRow channel (srcEndIndex + 1 - srcIndex).toNat srcIndex dstIndex result with
    | .undefined => .undefined
    | .value result => copyRows tileSize channel dataWindow tileBound bound n (y + 1) result

/-- The method `ImagePrimitiveSource::computeChannelData`; `tileSize` is the
constant `ImagePlug::tileSize()`. The integers have no bound here;
`ImagePrimitiveSource.computeChannelDataLoop` is the method on values of
`int`. -/
def computeChannelData (tileSize : Nat) (node : ImagePrimitiveSource)
    (channelName : String) (tileOrigin : V2i) : Outcome FloatVectorDataPtr :=
  match node.inputImagePrimitive.asImagePrimitive with
  | none => .value none
  | some image =>
    match image.getChannel channelName with
    | none => .value none
    | some channel =>
      let result : List F32 := List.replicate (tileSize * tileSize) 0
      let dataWindow := image.dataWindow
      let tileBound : Box2i :=
        ⟨tileOrigin, ⟨tileOrigin.x + ((tileSize : Int) - 1), tileOrigin.y + ((tileSize : Int) - 1)⟩⟩
      let bound := boxIntersection tileBound dataWindow
      match copyRows tileSize channel dataWindow tileBound bound
          (bound.max.y + 1 - bound.min.y).toNat bound.min.y result with
      | .undefined => .undefined
      | .value result => .value (some result)

end ImagePrimitiveSource

/-! ## Plugs of an image processor -/

/-- The children of an `ImagePlug`. -/
inductive ImageChild where
  | displayWindow
  | dataWindow
  | channelNames
  | channelData
deriving DecidableEq

/-- The seven `Color3fPlug` parameters of a `Grade` node. -/
inductive ColourPlug where
  | blackPoint
  | whitePoint
  | lift
  | gain
  | multiply
  | offset
  | gamma
deriving DecidableEq

/-- Identity of a plug of a `Grade` node. -/
inductive PlugId where
  | inImage (child : ImageChild)
  | outImage (child : ImageChild)
  | colour (p : ColourPlug)
  | colourChild (p : ColourPlug) (i : Nat)
  | blackClamp
  | whiteClamp
  | other (name : String)
deriving DecidableEq

/-- An `Imath::V3f`, the value of a `Color3fPlug`. -/
structure V3f where
  x : F32
  y : F32
  z : F32
deriving DecidableEq

/-- The component access `v[i]` of an `Imath::V3f`, for `i` in `0..2`. -/
def V3f.get (v : V3f) (i : Nat) : F32 :=
  match i with
  | 0 => v.x
  | 1 => v.y
  | _ => v.z

/-- The input image of a processor, as its readers see it: the value of the
data window plug, and the value and the fingerprint of the channel data plug
in a context with the given channel name and tile origin. -/
structure ImagePlug where
  dataWindow : Box2i
  channelData : String → V2i → FloatVectorDataPtr
  channelDataHash : String → V2i → Nat

/-! ## Grade -/

/-- The parameter values of a `Grade` node. -/
structure Grade where
  blackPoint : V3f
  whitePoint : V3f
  lift : V3f
  gain : V3f
  multiply : V3f
  offset : V3f
  gamma : V3f
  blackClamp : Bool
  whiteClamp : Bool
deriving DecidableEq

/-- What one `hash( h )` call appends to the accumulator: the fingerprint of
an upstream output, or the value of a parameter plug. -/
inductive HashPart where
  | upstream (fingerprint : Nat)
  | colour (v : V3f)
  | flag (b : Bool)
deriving DecidableEq

namespace Grade

/-- The loop of `Grade::affects` over the children of the compound plugs, with
`n` the number of iterations left; `some` is the early return. -/
def affectsChildren (input : PlugId) (outputs : List PlugId) :
    Nat → Nat → Option (List PlugId)
  | 0, _ => none
  | n + 1, i =>
    if input = .colourChild .blackPoint i ∨
        input = .colourChild .whitePoint i ∨
        input = .colourChild .lift i ∨
        input = .colourChild .gain i ∨
        input = .colourChild .multiply i ∨
        input = .colourChild .offset i ∨
        input = .colourChild .gamma i then
      some (outputs ++ [.outImage .channelData])
    else affectsChildren input outputs n (i + 1)

/-- The method `Grade::affects`; `baseAffects` is what
`ChannelDataProcessor::affects` puts in `outputs`. -/
def affects (baseAffects : PlugId → List PlugId) (input : PlugId) : List PlugId :=
  let outputs := baseAffects input
  match affectsChildren input outputs 3 0 with
  | some outputs => outputs
  | none =>
    if input = .inImage .channelData ∨ input = .blackClamp ∨ input = .whiteClamp then
      outputs ++ [.outImage .channelData]
    else outputs

/-- The method `Grade::hashChannelDataPlug`: the accumulator `h` followed by
what each hashed plug appends, in the order of the calls. The argument
`context` is also the current context, of which `tmpContext` is a copy. -/
def hashChannelDataPlug (node : Grade) (inPlug : ImagePlug) (context : Context)
    (h : List (PlugId × HashPart)) : List (PlugId × HashPart) :=
  let channelName := context.channelName
  let tmpContext : Context := { context with channelName := channelName }
  let h := h ++ [(.inImage .channelData,
    .upstream (inPlug.channelDataHash tmpContext.channelName tmpContext.tileOrigin))]
  let h := h ++ [(.colour .blackPoint, .colour node.blackPoint)]
  let h := h ++ [(.colour .whitePoint, .colour node.whitePoint)]
  let h := h ++ [(.colour .lift, .colour node.lift)]
  let h := h ++ [(.colour .gain, .colour node.gain)]
  let h := h ++ [(.colour .multiply, .colour node.multiply)]
  let h := h ++ [(.colour .offset, .colour node.offset)]
  let h := h ++ [(.colour .gamma, .colour node.gamma)]
  let h := h ++ [(.blackClamp, .flag node.blackClamp)]
  let h := h ++ [(.whiteClamp, .flag node.whiteClamp)]
  h

/-- The index `channelIdx` of `Grade::computeChannelData`. -/
def channelIdx (channelName : String) : Nat :=
  if channelName = "R" then 0 else if channelName = "G" then 1 else 2

/-- The body of the pixel loop of `Grade::computeChannelData` between the read
`*tilePtr++` and the write `*outPtr++`; `pow` is the C library function. -/
def gradePixel (pow : F32 → F32 → F32) (A B invGamma : F32) (blackClamp whiteClamp : Bool)
    (colour : F32) : F32 :=
  let c := F32.add (F32.mul A colour) B
  let colour := if F32.ge c 0 && F32.ne invGamma 1 then pow c invGamma else c
  let colour := if blackClamp && F32.lt colour 0 then 0 else colour
  let colour := if whiteClamp && F32.gt colour 1 then 1 else colour
  colour

/-- The loop `for( int x = tile.min.x; x <= tile.max.x; x++ )` of
`Grade::computeChannelData`, with `n` the number of iterations left;
`tilePtr` and `outPtr` are the offsets of the two pointers in their vectors. -/
def gradeRow (pow : F32 → F32 → F32) (A B invGamma : F32) (blackClamp whiteClamp : Bool)
    (inData : List F32) : Nat → Int → Int → List F32 → Outcome (List F32)
  | 0, _, _, outData => .value outData
  | n + 1, tilePtr, outPtr, outData =>
    match vecGet inData tilePtr with
    | .undefined => .undefined
    | .value colour =>
      match vecSet outData outPtr
          (gradePixel pow A B invGamma blackClamp whiteClamp colour) with
      | .undefined => .undefined
      | .value outData =>
        gradeRow pow A B invGamma blackClamp whiteClamp inData n (tilePtr + 1) (outPtr + 1)
          outData

/-- The loop `for( int y = tile.min.y; y<=tile.max.y; y++ )` of
`Grade::computeChannelData`, with `n` the number of iterations left. The
counter is an integer without a bound here; `Grade.gradeRowsLoop` is the loop
on a counter of type `int`. -/
def gradeRows (pow : F32 → F32 → F32) (A B invGamma : F32) (blackClamp whiteClamp : Bool)
    (tileSize : Nat) (inData : FloatVectorDataPtr) (tileOrigin : V2i) (tile : Box2i) :
    Nat → Int → List F32 → Outcome (List F32)
  | 0, _, outData => .value outData
  | n + 1, y, outData =>
    match inData with
    | none => .undefined
    | some readable =>
      let tilePtr : Int := (y - tileOrigin.y) * (tileSize : Int) + (tile.min.x - tileOrigin.x)
      let outPtr : Int := (y - tileOrigin.y) * (tileSize : Int) + (tile.min.x - tileOrigin.x)
      match gradeRow pow A B invGamma blackClamp whiteClamp readable
          (tile.max.x + 1 - tile.min.x).toNat tilePtr outPtr outData with
      | .undefined => .undefined
      | .value outData =>
        gradeRows pow A B invGamma blackClamp whiteClamp tileSize inData tileOrigin tile
          n (y + 1) outData

/-- The method `Grade::computeChannelData`; `tileSize` is the constant
`ImagePlug::tileSize()`, `pow` the C library function, and `context` the
current context, in which `inPlug()->channelDataPlug()->getValue()` is
evaluated. The integers have no bound here; `Grade.computeChannelDataLoop` is
the method on values of `int`. -/
def computeChannelData (pow : F32 → F32 → F32) (tileSize : Nat) (node : Grade)
    (inPlug : ImagePlug) (channelName : String) (tileOrigin : V2i) (context : Context) :
    Outcome FloatVectorDataPtr :=
  let inData := inPlug.channelData channelName tileOrigin
  let _dataWindow := inPlug.dataWindow
  let tile : Box2i :=
    ⟨tileOrigin, ⟨tileOrigin.x + (tileSize : Int) - 1, tileOrigin.y + (tileSize : Int) - 1⟩⟩
  let outData : List F32 := List.replicate (tileSize * tileSize) 0
  let channelIdx := channelIdx channelName
  let gamma := node.gamma.get channelIdx
  if F32.eq gamma 0 then .value (inPlug.channelData context.channelName context.tileOrigin)
  else
    let invGamma := F32.div 1 gamma
    let multiply := node.multiply.get channelIdx
    let gain := node.gain.get channelIdx
    let lift := node.lift.get channelIdx
    let whitePoint := node.whitePoint.get channelIdx
    let blackPoint := node.blackPoint.get channelIdx
    let offset := node.offset.get channelIdx
    let whiteClamp := node.whiteClamp
    let blackClamp := node.blackClamp
    let A := F32.div (F32.mul multiply (F32.sub gain lift)) (F32.sub whitePoint blackPoint)
    let B := F32.sub (F32.add offset lift) (F32.mul A blackPoint)
    match gradeRows pow A B invGamma blackClamp whiteClamp tileSize inData tileOrigin tile
        (tile.max.y + 1 - tile.min.y).toNat tile.min.y outData with
    | .undefined => .undefined
    | .value outData => .value (some outData)

/-- The plugs whose values `Grade::computeChannelData` reads, in the order of
the reads. -/
def computeChannelDataReads (node : Grade) (channelName : String) : List PlugId :=
  let channelIdx := channelIdx channelName
  let gamma := node.gamma.get channelIdx
  if F32.eq gamma 0 then
    [.inImage .channelData, .inImage .dataWindow, .colour .gamma, .inImage .channelData]
  else
    [.inImage .channelData, .inImage .dataWindow, .colour .gamma, .colour .multiply,
      .colour .gain, .colour .lift, .colour .whitePoint, .colour .blackPoint,
      .colour .offset, .whiteClamp, .blackClamp]

end Grade

/-! ## The grade transform as the specification words it -/

/-- The coefficient `A = multiply*(gain-lift)/(whitePoint-blackPoint)` of the
specification. -/
def specCoeffA (multiply gain lift whitePoint blackPoint : F32) : F32 :=
  F32.div (F32.mul multiply (F32.sub gain lift)) (F32.sub whitePoint blackPoint)

/-- The coefficient `B = offset+lift-A*blackPoint` of the specification. -/
def specCoeffB (offset lift A blackPoint : F32) : F32 :=
  F32.sub (F32.add offset lift) (F32.mul A blackPoint)

/-- The power step of the specification: `c^invGamma` if `c >= 0` and
`invGamma != 1`, else `c`. -/
def specPower (pow : F32 → F32 → F32) (invGamma c : F32) : F32 :=
  if F32.ge c 0 = true ∧ F32.ne invGamma 1 = true then pow c invGamma else c

/-- The black clamp of the specification: a negative value becomes `0` when the
clamp is set. -/
def specClampBlack (blackClamp : Bool) (v : F32) : F32 :=
  if blackClamp = true ∧ F32.lt v 0 = true then 0 else v

/-- The white clamp of the specification: a value above `1` becomes `1` when the
clamp is set. -/
def specClampWhite (whiteClamp : Bool) (v : F32) : F32 :=
  if whiteClamp = true ∧ F32.gt v 1 = true then 1 else v

/-- The transform of one pixel value as the specification states it, for the
parameter components of index `i`. -/
def specGrade (pow : F32 → F32 → F32) (node : Grade) (i : Nat) (x : F32) : F32 :=
  let A := specCoeffA (node.multiply.get i) (node.gain.get i) (node.lift.get i)
    (node.whitePoint.get i) (node.blackPoint.get i)
  let B := specCoeffB (node.offset.get i) (node.lift.get i) A (node.blackPoint.get i)
  specClampWhite node.whiteClamp (specClampBlack node.blackClamp
    (specPower pow (F32.div 1 (node.gamma.get i)) (F32.add (F32.mul A x) B)))

/-- The clamped affine image of one pixel value, for the parameter components
of index `i`. -/
def specGradeAffine (node : Grade) (i : Nat) (x : F32) : F32 :=
  let A := specCoeffA (node.multiply.get i) (node.gain.get i) (node.lift.get i)
    (node.whitePoint.get i) (node.blackPoint.get i)
  let B := specCoeffB (node.offset.get i) (node.lift.get i) A (node.blackPoint.get i)
  specClampWhite node.whiteClamp (specClampBlack node.blackClamp (F32.add (F32.mul A x) B))

/-- The transform of one pixel value as the specification states it, with each
of the seven colour parameters taken at the component that `component`
selects: `V3f.x` for red, `V3f.y` for green, `V3f.z` for blue. -/
def specGradeBy (pow : F32 → F32 → F32) (node : Grade) (component : V3f → F32) (x : F32) :
    F32 :=
  let A := specCoeffA (component node.multiply) (component node.gain) (component node.lift)
    (component node.whitePoint) (component node.blackPoint)
  let B := specCoeffB (component node.offset) (component node.lift) A
    (component node.blackPoint)
  specClampWhite node.whiteClamp (specClampBlack node.blackClamp
    (specPower pow (F32.div 1 (component node.gamma)) (F32.add (F32.mul A x) B)))

/-! ## Inputs of the worked examples -/

/-- The identity parameters of the specification: black point 0, white point 1,
lift 0, gain 1, multiply 1, offset 0, gamma 1, both clamps off. -/
def Grade.identity : Grade :=
  ⟨⟨0, 0, 0⟩, ⟨1, 1, 1⟩, ⟨0, 0, 0⟩, ⟨1, 1, 1⟩, ⟨1, 1, 1⟩, ⟨0, 0, 0⟩, ⟨1, 1, 1⟩, false, false⟩

/-- An input image with the given data window whose channel data is `tile` for
every channel name and tile origin, under one fingerprint. -/
def constantInput (dataWindow : Box2i) (tile : List F32) : ImagePlug :=
  ⟨dataWindow, fun _ _ => some tile, fun _ _ => 0⟩

/-- The `pow` argument of the worked examples. They all keep gamma at `1`, for
which the source does not call `pow`. -/
def powUnused : F32 → F32 → F32 := fun c _ => c

/-! ## ImagePrimitiveSource: whole object, fingerprint and affected outputs -/

/-- Identity of a plug of an `ImagePrimitiveSource` node: the two internal
object plugs, the image output `outPlug()` and its children, and any other
plug of the base class. -/
inductive SourcePlug where
  | imagePrimitive
  | inputImagePrimitive
  | out
  | outChild (child : ImageChild)
  | other (name : String)
deriving DecidableEq

/-- The call `output->parent<ImagePlug>()`: the image plug a plug is a child
of, if any. -/
def SourcePlug.parentImagePlug : SourcePlug → Option SourcePlug
  | .outChild _ => some .out
  | _ => none

/-- The default value that the constructor gives the plug `__imagePrimitive`,
`IECore::NullObject::defaultNullObject()`. -/
def ImagePrimitiveSource.imagePrimitiveDefault : Object := .nullObject

/-- The method `ImagePrimitiveSource::affects`; `baseAffects` is what
`BaseType::affects` puts in `outputs`. -/
def ImagePrimitiveSource.affects (baseAffects : SourcePlug → List SourcePlug)
    (input : SourcePlug) : List SourcePlug :=
  let outputs := baseAffects input
  if input = .inputImagePrimitive then outputs ++ [.out] else outputs

/-- The method `ImagePrimitiveSource::hash`. `baseHash` is `BaseType::hash`,
`hashImagePrimitive` the virtual method of the concrete node, and
`inputImagePrimitiveHash` the fingerprint of the plug `__inputImagePrimitive`,
which the constructor wires to `__imagePrimitive`, in the current context. -/
def ImagePrimitiveSource.hash
    (baseHash : SourcePlug → Context → List HashPart → List HashPart)
    (hashImagePrimitive : Context → List HashPart → List HashPart)
    (inputImagePrimitiveHash : Context → Nat)
    (output : SourcePlug) (context : Context) (h : List HashPart) : List HashPart :=
  let h := baseHash output context h
  if output = .imagePrimitive then hashImagePrimitive context h
  else if output.parentImagePlug = some .out then
    h ++ [.upstream (inputImagePrimitiveHash context)]
  else h

/-- The method `ImagePrimitiveSource::compute`: the value it stores on the plug
`__imagePrimitive`, or `none` when it passes the call on to
`BaseType::compute`. `computeImagePrimitive` is the virtual method of the
concrete node, which may return a null pointer. -/
def ImagePrimitiveSource.compute (computeImagePrimitive : Context → Option ImagePrimitive)
    (output : SourcePlug) (context : Context) : Option Object :=
  if output = .imagePrimitive then
    let image := computeImagePrimitive context
    some (match image with
      | some image => .imagePrimitive image
      | none => ImagePrimitiveSource.imagePrimitiveDefault)
  else none

/-! ## The range of `int` -/

/-- A value that an `int` of the source can hold. -/
def isInt (v : Int) : Prop := intMin ≤ v ∧ v ≤ intMax

instance (v : Int) : Decidable (isInt v) := by
  unfold isInt
  exact inferInstance

/-- Every value of the list is one that an `int` can hold. -/
def allInt (vs : List Int) : Prop := ∀ v ∈ vs, isInt v

instance (vs : List Int) : Decidable (allInt vs) := by
  unfold allInt
  exact inferInstance

/-- Inputs of `ImagePrimitiveSource::computeChannelData` for which no `int`
expression of the method overflows: the coordinates of the tile origin and of
the data window are values of `int`; `tileSize * tileSize`, the tile bound
`tileOrigin + (tileSize - 1)` and the row counter after its last increment, at
most `tileOrigin.y + tileSize`, fit; the sum
`(y - tileBound.min.y) * tileSize + bound.min.x`, at most
`tileOrigin.x + tileSize * tileSize`, fits; and for a data window that is not
empty the number of its pixels fits, as does the sum
`(y - dataWindow.min.y) * width + bound.min.x`, at most
`width * height + dataWindow.max.x`. -/
def ImagePrimitiveSource.noOverflow (tileSize : Nat) (dataWindow : Box2i)
    (tileOrigin : V2i) : Prop :=
  0 < tileSize ∧ (tileSize : Int) * (tileSize : Int) ≤ intMax ∧
  intMin ≤ tileOrigin.x ∧ tileOrigin.x + (tileSize : Int) * (tileSize : Int) ≤ intMax ∧
  intMin ≤ tileOrigin.y ∧ tileOrigin.y + (tileSize : Int) ≤ intMax ∧
  intMin ≤ dataWindow.min.x ∧ dataWindow.max.x ≤ intMax ∧
  intMin ≤ dataWindow.min.y ∧ dataWindow.max.y ≤ intMax ∧
  (dataWindow.isEmpty = false →
    dataWindow.width * dataWindow.height ≤ intMax ∧
    dataWindow.width * dataWindow.height + dataWindow.max.x ≤ intMax)

instance (tileSize : Nat) (dataWindow : Box2i) (tileOrigin : V2i) :
    Decidable (ImagePrimitiveSource.noOverflow tileSize dataWindow tileOrigin) := by
  unfold ImagePrimitiveSource.noOverflow
  exact inferInstance

/-- Inputs of `Grade::computeChannelData` for which no `int` expression of the
method overflows: the coordinates of the tile origin are values of `int`, and
`tileSize * tileSize` and `tileOrigin + tileSize`, which is the first step of
`tileOrigin + tileSize - 1` and the value of the counters `x` and `y` after
their last increment, fit. -/
def Grade.noOverflow (tileSize : Nat) (tileOrigin : V2i) : Prop :=
  0 < tileSize ∧ (tileSize : Int) * (tileSize : Int) ≤ intMax ∧
  intMin ≤ tileOrigin.x ∧ tileOrigin.x + (tileSize : Int) ≤ intMax ∧
  intMin ≤ tileOrigin.y ∧ tileOrigin.y + (tileSize : Int) ≤ intMax

instance (tileSize : Nat) (tileOrigin : V2i) :
    Decidable (Grade.noOverflow tileSize tileOrigin) := by
  unfold Grade.noOverflow
  exact inferInstance

/-! ## ImagePrimitiveSource: the copy loops with their own tests

The loops of `computeChannelData` once more, now run by the tests of the
source, `srcIndex <= srcEndIndex` and `y<=bound.max.y`, under a bound on the
number of iterations: `none` means that the bound was reached before the test
failed. The `int` expressions are taken in the range of `int`: when the value
of one is outside of it the behaviour is undefined. The inner loop counts in
`size_t`. -/

/-- The values of the `int` expressions that one iteration of the outer loop of
`computeChannelData` evaluates for the row `y`: the two calls of `size()`, the
steps of `srcIndex` and of `dstIndex`, and `y++`. -/
def ImagePrimitiveSource.rowInts (tileSize : Nat) (dataWindow tileBound bound : Box2i)
    (y : Int) : List Int :=
  [dataWindow.size.x, dataWindow.size.y, bound.size.x, bound.size.y,
    y - dataWindow.min.y,
    dataWindow.size.x + 1,
    (y - dataWindow.min.y) * (dataWindow.size.x + 1),
    (y - dataWindow.min.y) * (dataWindow.size.x + 1) + bound.min.x,
    (y - dataWindow.min.y) * (dataWindow.size.x + 1) + bound.min.x - dataWindow.min.x,
    y - tileBound.min.y,
    (y - tileBound.min.y) * (tileSize : Int),
    (y - tileBound.min.y) * (tileSize : Int) + bound.min.x,
    (y - tileBound.min.y) * (tileSize : Int) + bound.min.x - tileBound.min.x,
    y + 1]

/-- The loop `while( srcIndex <= srcEndIndex )` of `computeChannelData`. -/
def ImagePrimitiveSource.copyRowLoop (channel : List F32) (srcEndIndex : Int) :
    Nat → Int → Int → List F32 → Option (Outcome (List F32))
  | 0, _, _, _ => none
  | fuel + 1, srcIndex, dstIndex, result =>
    if srcIndex ≤ srcEndIndex then
      match vecGet channel srcIndex with
      | .undefined => some .undefined
      | .value c =>
        match vecSet result dstIndex c with
        | .undefined => some .undefined
        | .value result =>
          ImagePrimitiveSource.copyRowLoop channel srcEndIndex fuel (srcIndex + 1)
            (dstIndex + 1) result
    else some (.value result)

/-- The loop `for( int y = bound.min.y; y<=bound.max.y; y++ )` of
`computeChannelData`; every inner loop gets `rowFuel` iterations. -/
def ImagePrimitiveSource.copyRowsLoop (tileSize : Nat) (channel : List F32)
    (dataWindow tileBound bound : Box2i) (rowFuel : Nat) :
    Nat → Int → List F32 → Option (Outcome (List F32))
  | 0, _, _ => none
  | fuel + 1, y, result =>
    if y ≤ bound.max.y then
      if allInt (ImagePrimitiveSource.rowInts tileSize dataWindow tileBound bound y) then
        let srcIndex : Int :=
          (y - dataWindow.min.y) * (dataWindow.size.x + 1) + bound.min.x - dataWindow.min.x
        let dstIndex : Int :=
          (y - tileBound.min.y) * (tileSize : Int) + bound.min.x - tileBound.min.x
        let srcEndIndex : Int := srcIndex + bound.size.x
        match ImagePrimitiveSource.copyRowLoop channel srcEndIndex rowFuel srcIndex dstIndex
            result with
        | none => none
        | some .undefined => some .undefined
        | some (.value result) =>
          ImagePrimitiveSource.copyRowsLoop tileSize channel dataWindow tileBound bound rowFuel
            fuel (y + 1) result
      else some .undefined
    else some (.value result)

/-- The pairs `(srcIndex, dstIndex)` at which the inner loop of
`computeChannelData` reads `channel` and writes `result`, with `n` the number
of iterations left. -/
def ImagePrimitiveSource.copyRowAccesses : Nat → Int → Int → List (Int × Int)
  | 0, _, _ => []
  | n + 1, srcIndex, dstIndex =>
    (srcIndex, dstIndex) :: ImagePrimitiveSource.copyRowAccesses n (srcIndex + 1) (dstIndex + 1)

/-- The accesses of the outer loop of `computeChannelData`, one list for each
row, with `n` the number of iterations left. -/
def ImagePrimitiveSource.copyRowsAccesses (tileSize : Nat)
    (dataWindow tileBound bound : Box2i) : Nat → Int → List (List (Int × Int))
  | 0, _ => []
  | n + 1, y =>
    let srcIndex : Int :=
      (y - dataWindow.min.y) * (dataWindow.size.x + 1) + bound.min.x - dataWindow.min.x
    let dstIndex : Int := (y - tileBound.min.y) * (tileSize : Int) + bound.min.x - tileBound.min.x
    let srcEndIndex : Int := srcIndex + bound.size.x
    ImagePrimitiveSource.copyRowAccesses (srcEndIndex + 1 - srcIndex).toNat srcIndex dstIndex ::
      ImagePrimitiveSource.copyRowsAccesses tileSize dataWindow tileBound bound n (y + 1)

/-- The method `ImagePrimitiveSource::computeChannelData` with its loops run by
their own tests and its `int` expressions taken in the range of `int`, under
the bounds `rowFuel` and `fuel` on the iterations of the inner and of the outer
loop. -/
def ImagePrimitiveSource.computeChannelDataLoop (tileSize rowFuel fuel : Nat)
    (node : ImagePrimitiveSource) (channelName : String) (tileOrigin : V2i) :
    Option (Outcome FloatVectorDataPtr) :=
  match node.inputImagePrimitive.asImagePrimitive with
  | none => some (.value none)
  | some image =>
    match image.getChannel channelName with
    | none => some (.value none)
    | some channel =>
      if allInt [(tileSize : Int) * (tileSize : Int), (tileSize : Int) - 1,
          tileOrigin.x + ((tileSize : Int) - 1), tileOrigin.y + ((tileSize : Int) - 1)] then
        let result : List F32 := List.replicate (tileSize * tileSize) 0
        let dataWindow := image.dataWindow
        let tileBound : Box2i :=
          ⟨tileOrigin,
            ⟨tileOrigin.x + ((tileSize : Int) - 1), tileOrigin.y + ((tileSize : Int) - 1)⟩⟩
        let bound := boxIntersection tileBound dataWindow
        match ImagePrimitiveSource.copyRowsLoop tileSize channel dataWindow tileBound bound
            rowFuel fuel bound.min.y result with
        | none => none
        | some .undefined => some .undefined
        | some (.value result) => some (.value (some result))
      else some .undefined

/-- The accesses of `ImagePrimitiveSource::computeChannelData` to the channel
buffer and to the result, as pairs `(srcIndex, dstIndex)`, one list for each
row of the copy. The loops run without a fault exactly when every one of these
accesses is in range (`copyRows_value_iff`). -/
def ImagePrimitiveSource.computeChannelDataAccesses (tileSize : Nat)
    (node : ImagePrimitiveSource) (channelName : String) (tileOrigin : V2i) :
    List (List (Int × Int)) :=
  match node.inputImagePrimitive.asImagePrimitive with
  | none => []
  | some image =>
    match image.getChannel channelName with
    | none => []
    | some _ =>
      let dataWindow := image.dataWindow
      let tileBound : Box2i :=
        ⟨tileOrigin, ⟨tileOrigin.x + ((tileSize : Int) - 1), tileOrigin.y + ((tileSize : Int) - 1)⟩⟩
      let bound := boxIntersection tileBound dataWindow
      ImagePrimitiveSource.copyRowsAccesses tileSize dataWindow tileBound bound
        (bound.max.y + 1 - bound.min.y).toNat bound.min.y

/-! ## Grade: the grading loops with their own tests

The loops of `Grade::computeChannelData` run by the tests of the source,
`x <= tile.max.x` and `y<=tile.max.y`, on counters that are values of `int`,
under a bound on the number of iterations: `none` means that the bound was
reached before the test failed. -/

/-- The loop `for( int x = tile.min.x; x <= tile.max.x; x++ )` of
`Grade::computeChannelData`, with the counter `x`. -/
def Grade.gradeRowLoop (pow : F32 → F32 → F32) (A B invGamma : F32)
    (blackClamp whiteClamp : Bool) (inData : List F32) (tileMaxX : Int) :
    Nat → Int → Int → Int → List F32 → Option (Outcome (List F32))
  | 0, _, _, _, _ => none
  | fuel + 1, x, tilePtr, outPtr, outData =>
    if x ≤ tileMaxX then
      match vecGet inData tilePtr with
      | .undefined => some .undefined
      | .value colour =>
        match vecSet outData outPtr
            (Grade.gradePixel pow A B invGamma blackClamp whiteClamp colour) with
        | .undefined => some .undefined
        | .value outData =>
          if isInt (x + 1) then
            Grade.gradeRowLoop pow A B invGamma blackClamp whiteClamp inData tileMaxX fuel
              (x + 1) (tilePtr + 1) (outPtr + 1) outData
          else some .undefined
    else some (.value outData)

/-- The values of the `int` expressions that one iteration of the outer loop of
`Grade::computeChannelData` evaluates for the row `y`: the steps of the offset
of the two pointers, and `y++`. -/
def Grade.rowInts (tileSize : Nat) (tileOrigin : V2i) (tile : Box2i) (y : Int) : List Int :=
  [y - tileOrigin.y,
    (y - tileOrigin.y) * (tileSize : Int),
    tile.min.x - tileOrigin.x,
    (y - tileOrigin.y) * (tileSize : Int) + (tile.min.x - tileOrigin.x),
    y + 1]

/-- The loop `for( int y = tile.min.y; y<=tile.max.y; y++ )` of
`Grade::computeChannelData`, with the counter `y`; every inner loop gets
`rowFuel` iterations. -/
def Grade.gradeRowsLoop (pow : F32 → F32 → F32) (A B invGamma : F32)
    (blackClamp whiteClamp : Bool) (tileSize : Nat) (inData : FloatVectorDataPtr)
    (tileOrigin : V2i) (tile : Box2i) (rowFuel : Nat) :
    Nat → Int → List F32 → Option (Outcome (List F32))
  | 0, _, _ => none
  | fuel + 1, y, outData =>
    if y ≤ tile.max.y then
      match inData with
      | none => some .undefined
      | some readable =>
        if allInt (Grade.rowInts tileSize tileOrigin tile y) then
          let tilePtr : Int :=
            (y - tileOrigin.y) * (tileSize : Int) + (tile.min.x - tileOrigin.x)
          let outPtr : Int :=
            (y - tileOrigin.y) * (tileSize : Int) + (tile.min.x - tileOrigin.x)
          match Grade.gradeRowLoop pow A B invGamma blackClamp whiteClamp readable tile.max.x
              rowFuel tile.min.x tilePtr outPtr outData with
          | none => none
          | some .undefined => some .undefined
          | some (.value outData) =>
            Grade.gradeRowsLoop pow A B invGamma blackClamp whiteClamp tileSize inData
              tileOrigin tile rowFuel fuel (y + 1) outData
        else some .undefined
    else some (.value outData)

/-- The method `Grade::computeChannelData` with its loops run by their own
tests and its `int` expressions taken in the range of `int`, under the bounds
`rowFuel` and `fuel` on the iterations of the inner and of the outer loop. The
corner of the tile and the size of the output are computed before the test of
gamma, as in the source. -/
def Grade.computeChannelDataLoop (pow : F32 → F32 → F32) (tileSize rowFuel fuel : Nat)
    (node : Grade) (inPlug : ImagePlug) (channelName : String) (tileOrigin : V2i)
    (context : Context) : Option (Outcome FloatVectorDataPtr) :=
  let inData := inPlug.channelData channelName tileOrigin
  let _dataWindow := inPlug.dataWindow
  if allInt [tileOrigin.x + (tileSize : Int), tileOrigin.x + (tileSize : Int) - 1,
      tileOrigin.y + (tileSize : Int), tileOrigin.y + (tileSize : Int) - 1,
      (tileSize : Int) * (tileSize : Int)] then
    let tile : Box2i :=
      ⟨tileOrigin, ⟨tileOrigin.x + (tileSize : Int) - 1, tileOrigin.y + (tileSize : Int) - 1⟩⟩
    let outData : List F32 := List.replicate (tileSize * tileSize) 0
    let channelIdx := Grade.channelIdx channelName
    let gamma := node.gamma.get channelIdx
    if F32.eq gamma 0 then
      some (.value (inPlug.channelData context.channelName context.tileOrigin))
    else
      let invGamma := F32.div 1 gamma
      let multiply := node.multiply.get channelIdx
      let gain := node.gain.get channelIdx
      let lift := node.lift.get channelIdx
      let whitePoint := node.whitePoint.get channelIdx
      let blackPoint := node.blackPoint.get channelIdx
      let offset := node.offset.get channelIdx
      let whiteClamp := node.whiteClamp
      let blackClamp := node.blackClamp
      let A := F32.div (F32.mul multiply (F32.sub gain lift)) (F32.sub whitePoint blackPoint)
      let B := F32.sub (F32.add offset lift) (F32.mul A blackPoint)
      match Grade.gradeRowsLoop pow A B invGamma blackClamp whiteClamp tileSize inData
          tileOrigin tile rowFuel fuel tile.min.y outData with
      | none => none
      | some .undefined => some .undefined
      | some (.value outData) => some (.value (some outData))
  else some .undefined

/-! ## Grade: the constructor -/

/-- The constructor `Grade::Grade`: the nine plugs are added with the default
value of their class, `colourDefault` for a `Color3fPlug` and `boolDefault` for
a `BoolPlug`, and then `whitePoint`, `gain`, `multiply` and `gamma` are set to
`(1, 1, 1)` and `blackClamp` to `true`. In Gaffer the two class defaults are
`(0, 0, 0)` and `false`. -/
def Grade.new (colourDefault : V3f) (boolDefault : Bool) : Grade :=
  let node : Grade :=
    { blackPoint := colourDefault, whitePoint := colourDefault, lift := colourDefault,
      gain := colourDefault, multiply := colourDefault, offset := colourDefault,
      gamma := colourDefault, blackClamp := boolDefault, whiteClamp := boolDefault }
  let node := { node with whitePoint := ⟨1, 1, 1⟩ }
  let node := { node with gain := ⟨1, 1, 1⟩ }
  let node := { node with multiply := ⟨1, 1, 1⟩ }
  let node := { node with gamma := ⟨1, 1, 1⟩ }
  let node := { node with blackClamp := true }
  node

/-- The function `std::max( a, b )`: `b` when `a < b`, else `a`. -/
def specMax (a b : F32) : F32 :=
  if F32.lt a b = true then b else a

/-! ## The common shape of the row loops

Both `copyRow` and `gradeRow` move `n` consecutive values from one vector to
another, `gradeRow` through the pixel function; both `copyRows` and `gradeRows`
repeat that for consecutive rows. The loops are reasoned about in this form. -/

/-- Moves `n` values of `src` from offset `s` on, each through `g`, to the
offsets of `out` from `d` on. -/
def transferRow (g : F32 → F32) (src : List F32) :
    Nat → Int → Int → List F32 → Outcome (List F32)
  | 0, _, _, out => .value out
  | n + 1, s, d, out =>
    match vecGet src s with
    | .undefined => .undefined
    | .value c =>
      match vecSet out d (g c) with
      | .undefined => .undefined
      | .value out => transferRow g src n (s + 1) (d + 1) out

/-- Runs `transferRow` for `m` consecutive rows from row `y` on, row `y` going
from offset `srcOf y` to offset `dstOf y`. -/
def transferRows (g : F32 → F32) (src : List F32) (n : Nat) (srcOf dstOf : Int → Int) :
    Nat → Int → List F32 → Outcome (List F32)
  | 0, _, out => .value out
  | m + 1, y, out =>
    match transferRow g src n (srcOf y) (dstOf y) out with
    | .undefined => .undefined
    | .value out => transferRows g src n srcOf dstOf m (y + 1) out

/-! ## Lemmas on the loops -/

theorem copyRow_eq_transferRow (channel : List F32) :
    ∀ (n : Nat) (s d : Int) (out : List F32),
      ImagePrimitiveSource.copyRow channel n s d out = transferRow id channel n s d out := by
  intro n
  induction n with
  | zero => intro s d out; rfl
  | succ n ih =>
    intro s d out
    simp only [ImagePrimitiveSource.copyRow, transferRow, id]
    cases vecGet channel s with
    | undefined => rfl
    | value c =>
      dsimp only
      cases vecSet out d c with
      | undefined => rfl
      | value r => exact ih _ _ _

theorem gradeRow_eq_transferRow (pow : F32 → F32 → F32) (A B invGamma : F32)
    (blackClamp whiteClamp : Bool) (inData : List F32) :
    ∀ (n : Nat) (s d : Int) (out : List F32),
      Grade.gradeRow pow A B invGamma blackClamp whiteClamp inData n s d out =
        transferRow (Grade.gradePixel pow A B invGamma blackClamp whiteClamp) inData n s d out := by
  intro n
  induction n with
  | zero => intro s d out; rfl
  | succ n ih =>
    intro s d out
    simp only [Grade.gradeRow, transferRow]
    cases vecGet inData s with
    | undefined => rfl
    | value c =>
      dsimp only
      cases vecSet out d (Grade.gradePixel pow A B invGamma blackClamp whiteClamp c) with
      | undefined => rfl
      | value r => exact ih _ _ _

theorem vecGet_of_lt (v : List F32) (i : Int) (h0 : 0 ≤ i) (h1 : i < v.length) :
    ∃ a, v[i.toNat]? = some a ∧ vecGet v i = .value a := by
  have hlt : i.toNat < v.length := by omega
  refine ⟨v[i.toNat], List.getElem?_eq_getElem hlt, ?_⟩
  simp [vecGet, List.getElem?_eq_getElem hlt, not_lt.mpr h0]

theorem transferRow_spec (g : F32 → F32) (src : List F32) :
    ∀ (n : Nat) (s d : Int) (out : List F32),
      0 ≤ s → s + n ≤ src.length → 0 ≤ d → d + n ≤ out.length →
      ∃ r, transferRow g src n s d out = .value r ∧ r.length = out.length ∧
        ∀ j : Nat, r[j]? =
          if d ≤ (j : Int) ∧ (j : Int) < d + n then (src[(s + (j - d)).toNat]?).map g
          else out[j]? := by
  intro n
  induction n with
  | zero =>
    intro s d out _ _ _ _
    refine ⟨out, rfl, rfl, ?_⟩
    intro j
    have : ¬ (d ≤ (j : Int) ∧ (j : Int) < d + ((0 : Nat) : Int)) := by omega
    rw [if_neg this]
  | succ n ih =>
    intro s d out hs hsn hd hdn
    obtain ⟨a, ha, hget⟩ := vecGet_of_lt src s hs (by omega)
    have hset : vecSet out d (g a) = .value (out.set d.toNat (g a)) := by
      have : 0 ≤ d ∧ d < out.length := by omega
      simp [vecSet, this]
    obtain ⟨r, hr, hlen, hidx⟩ := ih (s + 1) (d + 1) (out.set d.toNat (g a))
      (by omega) (by omega) (by omega) (by simp only [List.length_set]; omega)
    refine ⟨r, ?_, ?_, ?_⟩
    · simp only [transferRow, hget, hset]
      exact hr
    · rw [hlen, List.length_set]
    · intro j
      rw [hidx j]
      by_cases hj : (j : Int) = d
      · have hjn : d.toNat = j := by omega
        have h1 : ¬ (d + 1 ≤ (j : Int) ∧ (j : Int) < d + 1 + (n : Int)) := by omega
        have h2 : d ≤ (j : Int) ∧ (j : Int) < d + ((n + 1 : Nat) : Int) := by omega
        have h3 : d.toNat < out.length := by omega
        rw [if_neg h1, if_pos h2, List.getElem?_set, if_pos hjn, if_pos h3]
        have : (s + ((j : Int) - d)).toNat = s.toNat := by rw [hj]; simp
        rw [this, ha]
        rfl
      · have hjn : ¬ d.toNat = j := by omega
        rw [List.getElem?_set, if_neg hjn]
        by_cases hin : d + 1 ≤ (j : Int) ∧ (j : Int) < d + 1 + (n : Int)
        · have h2 : d ≤ (j : Int) ∧ (j : Int) < d + ((n + 1 : Nat) : Int) := by omega
          rw [if_pos hin, if_pos h2]
          have : s + 1 + ((j : Int) - (d + 1)) = s + ((j : Int) - d) := by ring
          rw [this]
        · have h2 : ¬ (d ≤ (j : Int) ∧ (j : Int) < d + ((n + 1 : Nat) : Int)) := by omega
          rw [if_neg hin, if_neg h2]

theorem row_offset_nonneg (T a c : Int) (hT : 0 ≤ T) (ha : 0 ≤ a) (hc : 0 ≤ c) :
    0 ≤ a * T + c := by
  have := mul_nonneg ha hT
  omega

theorem row_offset_le (T a c : Int) (ha : a < T) (hc : c ≤ T) (hT : 0 ≤ T) :
    a * T + c ≤ T * T := by
  have h := mul_le_mul_of_nonneg_right (show a + 1 ≤ T by omega) hT
  have e : (a + 1) * T = a * T + T := by ring
  omega

theorem row_offset_le_area (W H a c : Int) (ha : a < H) (hc : c ≤ W) (hW : 0 ≤ W) :
    a * W + c ≤ W * H := by
  have h := mul_le_mul_of_nonneg_right (show a + 1 ≤ H by omega) hW
  have e : (a + 1) * W = a * W + W := by ring
  have e2 : H * W = W * H := by ring
  omega

theorem row_offset_mem_iff (T a b c col n : Int) (hT : 0 ≤ T) (hcol0 : 0 ≤ col)
    (hcolT : col < T) (hc : 0 ≤ c) (hcn : c + n ≤ T) :
    (a * T + c ≤ b * T + col ∧ b * T + col < a * T + c + n) ↔
      (b = a ∧ c ≤ col ∧ col < c + n) := by
  constructor
  · rintro ⟨h1, h2⟩
    have hba : b = a := by
      rcases lt_trichotomy b a with h | h | h
      · exfalso
        have h3 := mul_le_mul_of_nonneg_right (show b + 1 ≤ a by omega) hT
        have e : (b + 1) * T = b * T + T := by ring
        omega
      · exact h
      · exfalso
        have h3 := mul_le_mul_of_nonneg_right (show a + 1 ≤ b by omega) hT
        have e : (a + 1) * T = a * T + T := by ring
        omega
    subst hba
    omega
  · rintro ⟨rfl, h1, h2⟩
    omega

theorem transferRows_spec (g : F32 → F32) (src : List F32) (n T : Nat) (ty c : Int)
    (srcOf dstOf : Int → Int) (hdst : ∀ y, dstOf y = (y - ty) * (T : Int) + c)
    (hc : 0 ≤ c) (hcn : c + n ≤ T) :
    ∀ (m : Nat) (y0 : Int) (out : List F32),
      out.length = T * T →
      (∀ y, y0 ≤ y → y < y0 + m →
        0 ≤ y - ty ∧ y - ty < T ∧ 0 ≤ srcOf y ∧ srcOf y + n ≤ src.length) →
      ∃ r, transferRows g src n srcOf dstOf m y0 out = .value r ∧ r.length = out.length ∧
        ∀ row col : Int, 0 ≤ row → 0 ≤ col → col < T →
          r[(row * (T : Int) + col).toNat]? =
            if y0 ≤ ty + row ∧ ty + row < y0 + m ∧ c ≤ col ∧ col < c + n then
              (src[(srcOf (ty + row) + (col - c)).toNat]?).map g
            else out[(row * (T : Int) + col).toNat]? := by
  intro m
  induction m with
  | zero =>
    intro y0 out _ _
    refine ⟨out, rfl, rfl, ?_⟩
    intro row col _ _ _
    have : ¬ (y0 ≤ ty + row ∧ ty + row < y0 + ((0 : Nat) : Int) ∧ c ≤ col ∧ col < c + n) := by
      omega
    rw [if_neg this]
  | succ m ih =>
    intro y0 out hlen hrows
    have hT : (0 : Int) ≤ (T : Int) := Int.ofNat_nonneg T
    obtain ⟨hy0, hy1, hs0, hs1⟩ := hrows y0 (le_refl _) (by omega)
    have hd0 : 0 ≤ dstOf y0 := by
      rw [hdst]
      exact row_offset_nonneg T (y0 - ty) c hT hy0 hc
    have hd1 : dstOf y0 + n ≤ out.length := by
      rw [hdst, hlen]
      have := row_offset_le T (y0 - ty) (c + n) hy1 hcn hT
      push_cast
      omega
    obtain ⟨out1, hrun1, hlen1, hidx1⟩ :=
      transferRow_spec g src n (srcOf y0) (dstOf y0) out hs0 hs1 hd0 hd1
    obtain ⟨r, hrun, hlenr, hidx⟩ := ih (y0 + 1) out1 (by rw [hlen1, hlen])
      (fun y h1 h2 => hrows y (by omega) (by omega))
    refine ⟨r, ?_, by rw [hlenr, hlen1], ?_⟩
    · simp only [transferRows, hrun1]
      exact hrun
    · intro row col hrow hcol0 hcolT
      have hj0 : 0 ≤ row * (T : Int) + col := row_offset_nonneg T row col hT hrow hcol0
      have hj : (((row * (T : Int) + col).toNat : Nat) : Int) = row * (T : Int) + col :=
        Int.toNat_of_nonneg hj0
      have hmem := row_offset_mem_iff T (y0 - ty) row c col n hT hcol0 hcolT hc hcn
      rw [hidx row col hrow hcol0 hcolT, hidx1, hj, hdst]
      by_cases hin : row = y0 - ty ∧ c ≤ col ∧ col < c + n
      · have h1 : ¬ (y0 + 1 ≤ ty + row ∧ ty + row < y0 + 1 + (m : Int) ∧ c ≤ col ∧ col < c + n) := by
          omega
        have h2 : y0 ≤ ty + row ∧ ty + row < y0 + ((m + 1 : Nat) : Int) ∧ c ≤ col ∧
            col < c + n := by
          omega
        rw [if_neg h1, if_pos (hmem.mpr hin), if_pos h2]
        have e1 : ty + row = y0 := by omega
        have e2 : row * (T : Int) + col - ((y0 - ty) * (T : Int) + c) = col - c := by
          rw [hin.1]; ring
        rw [e1, e2]
      · have h3 : ¬ ((y0 - ty) * (T : Int) + c ≤ row * (T : Int) + col ∧
            row * (T : Int) + col < (y0 - ty) * (T : Int) + c + n) := fun h => hin (hmem.mp h)
        rw [if_neg h3]
        by_cases h1 : y0 + 1 ≤ ty + row ∧ ty + row < y0 + 1 + (m : Int) ∧ c ≤ col ∧ col < c + n
        · have h2 : y0 ≤ ty + row ∧ ty + row < y0 + ((m + 1 : Nat) : Int) ∧ c ≤ col ∧
              col < c + n := by
            omega
          rw [if_pos h1, if_pos h2]
        · have h2 : ¬ (y0 ≤ ty + row ∧ ty + row < y0 + ((m + 1 : Nat) : Int) ∧ c ≤ col ∧
              col < c + n) := by
            omega
          rw [if_neg h1, if_neg h2]

theorem copyRows_eq_transferRows (tileSize : Nat) (channel : List F32)
    (dataWindow tileBound bound : Box2i) :
    ∀ (m : Nat) (y : Int) (out : List F32),
      ImagePrimitiveSource.copyRows tileSize channel dataWindow tileBound bound m y out =
        transferRows id channel (bound.size.x + 1).toNat
          (fun y => (y - dataWindow.min.y) * (dataWindow.size.x + 1) + bound.min.x
            - dataWindow.min.x)
          (fun y => (y - tileBound.min.y) * (tileSize : Int) + bound.min.x - tileBound.min.x)
          m y out := by
  intro m
  induction m with
  | zero => intro y out; rfl
  | succ m ih =>
    intro y out
    simp only [ImagePrimitiveSource.copyRows, transferRows]
    have e : ((y - dataWindow.min.y) * (dataWindow.size.x + 1) + bound.min.x - dataWindow.min.x
        + bound.size.x + 1
        - ((y - dataWindow.min.y) * (dataWindow.size.x + 1) + bound.min.x - dataWindow.min.x))
        = bound.size.x + 1 := by ring
    rw [e, copyRow_eq_transferRow]
    cases transferRow id channel (bound.size.x + 1).toNat
        ((y - dataWindow.min.y) * (dataWindow.size.x + 1) + bound.min.x - dataWindow.min.x)
        ((y - tileBound.min.y) * (tileSize : Int) + bound.min.x - tileBound.min.x) out with
    | undefined => rfl
    | value r => exact ih _ _

theorem tile_index_lt (T : Nat) (row col : Int) (hrow0 : 0 ≤ row) (hrowT : row < T)
    (hcol0 : 0 ≤ col) (hcolT : col < T) : (row * (T : Int) + col).toNat < T * T := by
  have hT : (0 : Int) ≤ (T : Int) := Int.ofNat_nonneg T
  have h1 := row_offset_le T row (col + 1) hrowT (by omega) hT
  have h2 := row_offset_nonneg T row col hT hrow0 hcol0
  have h3 : ((T * T : Nat) : Int) = (T : Int) * (T : Int) := by push_cast; ring
  omega

theorem copyRows_tile (tileSize : Nat) (channel : List F32) (dataWindow : Box2i)
    (tileOrigin : V2i)
    (hD : dataWindow.isEmpty = false)
    (hlen : (channel.length : Int) = dataWindow.width * dataWindow.height) :
    let tileBound : Box2i :=
      ⟨tileOrigin, ⟨tileOrigin.x + ((tileSize : Int) - 1), tileOrigin.y + ((tileSize : Int) - 1)⟩⟩
    let bound := boxIntersection tileBound dataWindow
    ∃ result,
      ImagePrimitiveSource.copyRows tileSize channel dataWindow tileBound bound
        (bound.max.y + 1 - bound.min.y).toNat bound.min.y
        (List.replicate (tileSize * tileSize) 0) = .value result ∧
      result.length = tileSize * tileSize ∧
      ∀ x y : Int, tileOrigin.x ≤ x → x < tileOrigin.x + tileSize →
        tileOrigin.y ≤ y → y < tileOrigin.y + tileSize →
        result[((y - tileOrigin.y) * (tileSize : Int) + (x - tileOrigin.x)).toNat]? =
          if dataWindow.contains x y then
            channel[((y - dataWindow.min.y) * dataWindow.width + (x - dataWindow.min.x)).toNat]?
          else some 0 := by
  obtain ⟨⟨dx0, dy0⟩, ⟨dx1, dy1⟩⟩ := dataWindow
  obtain ⟨tx, ty⟩ := tileOrigin
  have hne : dx0 ≤ dx1 ∧ dy0 ≤ dy1 := by
    simpa [Box2i.isEmpty] using hD
  simp only [Box2i.width, Box2i.height] at hlen
  intro tileBound bound
  by_cases hint : min (tx + ((tileSize : Int) - 1)) dx1 < max tx dx0 ∨
      min (ty + ((tileSize : Int) - 1)) dy1 < max ty dy0
  · have hb : bound = Box2i.empty := by
      simp only [bound, boxIntersection, tileBound]
      rw [if_pos hint]
    rw [hb]
    refine ⟨List.replicate (tileSize * tileSize) 0, rfl, List.length_replicate _ _, ?_⟩
    intro x y hx0 hx1 hy0 hy1
    dsimp only at hx0 hx1 hy0 hy1 ⊢
    have hnot : ¬ Box2i.contains ⟨⟨dx0, dy0⟩, ⟨dx1, dy1⟩⟩ x y := by
      simp only [Box2i.contains]
      omega
    rw [if_neg hnot]
    exact List.getElem?_replicate_of_lt
      (tile_index_lt tileSize (y - ty) (x - tx) (by omega) (by omega) (by omega) (by omega))
  · obtain ⟨mnx, hmnx⟩ : ∃ v : Int, v = max tx dx0 := ⟨_, rfl⟩
    obtain ⟨mny, hmny⟩ : ∃ v : Int, v = max ty dy0 := ⟨_, rfl⟩
    obtain ⟨mxx, hmxx⟩ : ∃ v : Int, v = min (tx + ((tileSize : Int) - 1)) dx1 := ⟨_, rfl⟩
    obtain ⟨mxy, hmxy⟩ : ∃ v : Int, v = min (ty + ((tileSize : Int) - 1)) dy1 := ⟨_, rfl⟩
    rw [← hmnx, ← hmny, ← hmxx, ← hmxy] at hint
    have hb : bound = ⟨⟨mnx, mny⟩, ⟨mxx, mxy⟩⟩ := by
      simp only [bound, boxIntersection, tileBound]
      rw [← hmnx, ← hmny, ← hmxx, ← hmxy, if_neg hint]
    have hbs : (Box2i.size ⟨⟨mnx, mny⟩, ⟨mxx, mxy⟩⟩).x = mxx - mnx := by
      have : ¬ (mxx < mnx ∨ mxy < mny) := hint
      simp [Box2i.size, Box2i.isEmpty, this]
    have hds : (Box2i.size ⟨⟨dx0, dy0⟩, ⟨dx1, dy1⟩⟩).x = dx1 - dx0 := by
      have : ¬ (dx1 < dx0 ∨ dy1 < dy0) := by omega
      simp [Box2i.size, Box2i.isEmpty, this]
    rw [hb, copyRows_eq_transferRows]
    simp only [hbs, hds, tileBound]
    have hW : (0 : Int) ≤ dx1 - dx0 + 1 := by omega
    obtain ⟨r, hrun, hlenr, hidx⟩ := transferRows_spec id channel (mxx - mnx + 1).toNat tileSize
      ty (mnx - tx)
      (fun y => (y - dy0) * (dx1 - dx0 + 1) + mnx - dx0)
      (fun y => (y - ty) * (tileSize : Int) + mnx - tx)
      (by intro y; ring) (by omega) (by omega)
      (mxy + 1 - mny).toNat mny (List.replicate (tileSize * tileSize) 0)
      (List.length_replicate _ _)
      (by
        intro y hy0 hy1
        refine ⟨by omega, by omega, ?_, ?_⟩
        · have := row_offset_nonneg (dx1 - dx0 + 1) (y - dy0) (mnx - dx0) hW (by omega) (by omega)
          dsimp only
          omega
        · have h1 := row_offset_le_area (dx1 - dx0 + 1) (dy1 - dy0 + 1) (y - dy0) (mxx - dx0 + 1)
            (by omega) (by omega) hW
          dsimp only
          omega)
    refine ⟨r, hrun, by rw [hlenr, List.length_replicate], ?_⟩
    intro x y hx0 hx1 hy0 hy1
    have h := hidx (y - ty) (x - tx) (by omega) (by omega) (by omega)
    rw [h]
    by_cases hin : Box2i.contains ⟨⟨dx0, dy0⟩, ⟨dx1, dy1⟩⟩ x y
    · have hin2 := hin
      simp only [Box2i.contains] at hin2
      rw [if_pos hin, if_pos (by omega)]
      simp only [Box2i.width, Option.map_id_fun, id]
      congr 2
      ring
    · have hin2 := hin
      simp only [Box2i.contains] at hin2
      rw [if_neg hin, if_neg (by omega)]
      exact List.getElem?_replicate_of_lt
        (tile_index_lt tileSize (y - ty) (x - tx) (by omega) (by omega) (by omega) (by omega))

/-! ## ImagePrimitiveSource: tiles of the channel data -/

/-- C2: for an image that has the requested channel, and a tile origin whose
tile rectangle shares no pixel with the data window of the image (an empty data
window included), `ImagePrimitiveSource::computeChannelData` returns without
fault a tile of exactly `tileSize * tileSize` values, each of them `0`. -/
theorem computeChannelData_no_overlap (tileSize : Nat) (image : ImagePrimitive)
    (channelName : String) (channel : List F32) (tileOrigin : V2i)
    (hch : image.getChannel channelName = some channel)
    (hdis : ∀ x y : Int, tileOrigin.x ≤ x → x ≤ tileOrigin.x + ((tileSize : Int) - 1) →
      tileOrigin.y ≤ y → y ≤ tileOrigin.y + ((tileSize : Int) - 1) →
      ¬ image.dataWindow.contains x y) :
    ∃ result,
      ImagePrimitiveSource.computeChannelData tileSize ⟨.imagePrimitive image⟩ channelName
        tileOrigin = .value (some result) ∧
      result.length = tileSize * tileSize ∧ ∀ v ∈ result, v = 0 := by
  have hint : min (tileOrigin.x + ((tileSize : Int) - 1)) image.dataWindow.max.x
        < max tileOrigin.x image.dataWindow.min.x ∨
      min (tileOrigin.y + ((tileSize : Int) - 1)) image.dataWindow.max.y
        < max tileOrigin.y image.dataWindow.min.y := by
    by_contra hcon
    refine hdis (max tileOrigin.x image.dataWindow.min.x)
      (max tileOrigin.y image.dataWindow.min.y) (by omega) (by omega) (by omega) (by omega) ?_
    simp only [Box2i.contains]
    omega
  have hb : boxIntersection
      ⟨tileOrigin, ⟨tileOrigin.x + ((tileSize : Int) - 1), tileOrigin.y + ((tileSize : Int) - 1)⟩⟩
      image.dataWindow = Box2i.empty := by
    simp only [boxIntersection]
    rw [if_pos hint]
  refine ⟨List.replicate (tileSize * tileSize) 0, ?_, List.length_replicate _ _, ?_⟩
  · simp only [ImagePrimitiveSource.computeChannelData, Object.asImagePrimitive, hch, hb]
    rfl
  · intro v hv
    exact (List.mem_replicate.mp hv).2

/-- Witness of C2: the same image read through the tile at `(4, 4)`. -/
theorem computeChannelData_no_overlap_witness :
    ∃ result,
      ImagePrimitiveSource.computeChannelData 2
        ⟨.imagePrimitive ⟨⟨⟨0, 0⟩, ⟨2, 2⟩⟩, ⟨⟨1, 1⟩, ⟨2, 2⟩⟩,
          [("R", .floatVector [.fin 1, .fin 2, .fin 3, .fin 4])]⟩⟩ "R" ⟨4, 4⟩
        = .value (some result) ∧
      result.length = 2 * 2 ∧ ∀ v ∈ result, v = 0 :=
  computeChannelData_no_overlap 2
    ⟨⟨⟨0, 0⟩, ⟨2, 2⟩⟩, ⟨⟨1, 1⟩, ⟨2, 2⟩⟩, [("R", .floatVector [.fin 1, .fin 2, .fin 3, .fin 4])]⟩
    "R" [.fin 1, .fin 2, .fin 3, .fin 4] ⟨4, 4⟩ (by rfl)
    (by
      intro x y hx _ _ _ hin
      simp only [Box2i.contains] at hin
      dsimp only at hx
      omega)

/-- C3: when the value of `__inputImagePrimitive` is not an image (the null
object default), `computeDisplayWindow` and `computeDataWindow` return the
empty box of the default constructor, `computeChannelNames` returns the empty
list, and `computeChannelData` returns the null pointer, without fault, for
every channel name and tile origin. -/
theorem absent_object_outputs (tileSize : Nat) (node : ImagePrimitiveSource)
    (h : node.inputImagePrimitive.asImagePrimitive = none) :
    node.computeDisplayWindow = Box2i.empty ∧ node.computeDataWindow = Box2i.empty ∧
      Box2i.empty.isEmpty = true ∧ node.computeChannelNames = [] ∧
      ∀ (channelName : String) (tileOrigin : V2i),
        ImagePrimitiveSource.computeChannelData tileSize node channelName tileOrigin
          = .value none := by
  refine ⟨?_, ?_, by decide, ?_, ?_⟩
  · simp only [ImagePrimitiveSource.computeDisplayWindow, h]
  · simp only [ImagePrimitiveSource.computeDataWindow, h]
  · simp only [ImagePrimitiveSource.computeChannelNames, h]
  · intro channelName tileOrigin
    simp only [ImagePrimitiveSource.computeChannelData, h]

/-- Witness of C3: the node whose internal input holds the null object. -/
theorem absent_object_outputs_witness :
    (ImagePrimitiveSource.mk .nullObject).computeDisplayWindow = Box2i.empty ∧
      (ImagePrimitiveSource.mk .nullObject).computeDataWindow = Box2i.empty ∧
      Box2i.empty.isEmpty = true ∧
      (ImagePrimitiveSource.mk .nullObject).computeChannelNames = [] ∧
      ∀ (channelName : String) (tileOrigin : V2i),
        ImagePrimitiveSource.computeChannelData 64 ⟨.nullObject⟩ channelName tileOrigin
          = .value none :=
  absent_object_outputs 64 ⟨.nullObject⟩ rfl

/-! ## Grade: the pixel transform -/

theorem gradeRows_eq_transferRows (pow : F32 → F32 → F32) (A B invGamma : F32)
    (blackClamp whiteClamp : Bool) (tileSize : Nat) (readable : List F32) (tileOrigin : V2i)
    (tile : Box2i) :
    ∀ (m : Nat) (y : Int) (out : List F32),
      Grade.gradeRows pow A B invGamma blackClamp whiteClamp tileSize (some readable)
          tileOrigin tile m y out =
        transferRows (Grade.gradePixel pow A B invGamma blackClamp whiteClamp) readable
          (tile.max.x + 1 - tile.min.x).toNat
          (fun y => (y - tileOrigin.y) * (tileSize : Int) + (tile.min.x - tileOrigin.x))
          (fun y => (y - tileOrigin.y) * (tileSize : Int) + (tile.min.x - tileOrigin.x))
          m y out := by
  intro m
  induction m with
  | zero => intro y out; rfl
  | succ m ih =>
    intro y out
    simp only [Grade.gradeRows, transferRows]
    rw [gradeRow_eq_transferRow]
    cases transferRow (Grade.gradePixel pow A B invGamma blackClamp whiteClamp) readable
        (tile.max.x + 1 - tile.min.x).toNat
        ((y - tileOrigin.y) * (tileSize : Int) + (tile.min.x - tileOrigin.x))
        ((y - tileOrigin.y) * (tileSize : Int) + (tile.min.x - tileOrigin.x)) out with
    | undefined => rfl
    | value r => exact ih _ _

theorem gradeRows_tile (pow : F32 → F32 → F32) (A B invGamma : F32)
    (blackClamp whiteClamp : Bool) (tileSize : Nat) (readable : List F32) (tileOrigin : V2i)
    (hlen : readable.length = tileSize * tileSize) :
    Grade.gradeRows pow A B invGamma blackClamp whiteClamp tileSize (some readable) tileOrigin
        ⟨tileOrigin, ⟨tileOrigin.x + (tileSize : Int) - 1, tileOrigin.y + (tileSize : Int) - 1⟩⟩
        (tileOrigin.y + (tileSize : Int) - 1 + 1 - tileOrigin.y).toNat tileOrigin.y
        (List.replicate (tileSize * tileSize) 0) =
      .value (readable.map (Grade.gradePixel pow A B invGamma blackClamp whiteClamp)) := by
  rw [gradeRows_eq_transferRows]
  dsimp only
  have e1 : (tileOrigin.x + (tileSize : Int) - 1 + 1 - tileOrigin.x).toNat = tileSize := by omega
  have e2 : (tileOrigin.y + (tileSize : Int) - 1 + 1 - tileOrigin.y).toNat = tileSize := by omega
  rw [e1, e2]
  obtain ⟨r, hrun, hlenr, hidx⟩ := transferRows_spec
    (Grade.gradePixel pow A B invGamma blackClamp whiteClamp) readable tileSize tileSize
    tileOrigin.y 0
    (fun y => (y - tileOrigin.y) * (tileSize : Int) + (tileOrigin.x - tileOrigin.x))
    (fun y => (y - tileOrigin.y) * (tileSize : Int) + (tileOrigin.x - tileOrigin.x))
    (by intro y; ring) (le_refl _) (by omega)
    tileSize tileOrigin.y (List.replicate (tileSize * tileSize) 0) (List.length_replicate _ _)
    (by
      intro y hy0 hy1
      have hT : (0 : Int) ≤ (tileSize : Int) := Int.ofNat_nonneg _
      refine ⟨by omega, by omega, ?_, ?_⟩
      · have := row_offset_nonneg tileSize (y - tileOrigin.y) 0 hT (by omega) (le_refl _)
        dsimp only
        omega
      · have h1 := row_offset_le tileSize (y - tileOrigin.y) tileSize (by omega) (le_refl _) hT
        have h3 : ((tileSize * tileSize : Nat) : Int) = (tileSize : Int) * (tileSize : Int) := by
          push_cast; ring
        dsimp only
        omega)
  rw [hrun]
  congr 1
  apply List.ext_getElem?
  intro i
  by_cases hi : i < tileSize * tileSize
  · have hTpos : 0 < tileSize := by
      rcases Nat.eq_zero_or_pos tileSize with h | h
      · subst h; simp at hi
      · exact h
    have hrow : i / tileSize < tileSize := Nat.div_lt_of_lt_mul hi
    have hcol : i % tileSize < tileSize := Nat.mod_lt _ hTpos
    have hsplit : tileSize * (i / tileSize) + i % tileSize = i := Nat.div_add_mod i tileSize
    obtain ⟨row, hrowdef⟩ : ∃ row : Int, row = ((i / tileSize : Nat) : Int) := ⟨_, rfl⟩
    obtain ⟨col, hcoldef⟩ : ∃ col : Int, col = ((i % tileSize : Nat) : Int) := ⟨_, rfl⟩
    have hrow0 : 0 ≤ row := by rw [hrowdef]; exact Int.ofNat_nonneg _
    have hcol0 : 0 ≤ col := by rw [hcoldef]; exact Int.ofNat_nonneg _
    have hrowT : row < tileSize := by rw [hrowdef]; exact_mod_cast hrow
    have hcolT : col < tileSize := by rw [hcoldef]; exact_mod_cast hcol
    have hcast : row * (tileSize : Int) + col = (i : Int) := by
      have : (((tileSize * (i / tileSize) + i % tileSize : Nat)) : Int) = (i : Int) := by
        rw [hsplit]
      rw [Nat.cast_add, Nat.cast_mul] at this
      rw [hrowdef, hcoldef, ← this]
      ring
    have h := hidx row col hrow0 hcol0 hcolT
    rw [hcast] at h
    simp only [Int.toNat_ofNat] at h
    rw [h, if_pos (by omega)]
    have e3 : (tileOrigin.y + row - tileOrigin.y) * (tileSize : Int)
        + (tileOrigin.x - tileOrigin.x) + (col - 0) = (i : Int) := by
      rw [← hcast]; ring
    rw [e3, Int.toNat_ofNat, List.getElem?_map]
  · have h1 : r.length ≤ i := by
      rw [hlenr, List.length_replicate]; omega
    have h2 : (readable.map (Grade.gradePixel pow A B invGamma blackClamp whiteClamp)).length
        ≤ i := by
      rw [List.length_map, hlen]; omega
    rw [List.getElem?_eq_none h1, List.getElem?_eq_none h2]

theorem F32.eq_zero_false_of_ne (g : F32) (h : g ≠ 0) : F32.eq g 0 = false := by
  cases g with
  | fin q =>
    have hq : ¬ (q = 0) := fun hq => h (by rw [hq]; rfl)
    simp [F32.eq, hq]
  | posInf => rfl
  | negInf => rfl
  | nan => rfl

theorem F32.div_one_one : F32.div 1 1 = 1 := by
  show F32.div (F32.fin 1) (F32.fin 1) = F32.fin 1
  simp [F32.div]

theorem F32.ne_one_one : F32.ne 1 1 = false := by
  show F32.ne (F32.fin 1) (F32.fin 1) = false
  simp [F32.ne, F32.eq]

theorem gradePixel_eq_specGrade (pow : F32 → F32 → F32) (node : Grade) (i : Nat) (x : F32) :
    Grade.gradePixel pow
      (F32.div (F32.mul (node.multiply.get i) (F32.sub (node.gain.get i) (node.lift.get i)))
        (F32.sub (node.whitePoint.get i) (node.blackPoint.get i)))
      (F32.sub (F32.add (node.offset.get i) (node.lift.get i))
        (F32.mul (F32.div (F32.mul (node.multiply.get i)
            (F32.sub (node.gain.get i) (node.lift.get i)))
          (F32.sub (node.whitePoint.get i) (node.blackPoint.get i))) (node.blackPoint.get i)))
      (F32.div 1 (node.gamma.get i)) node.blackClamp node.whiteClamp x
      = specGrade pow node i x := by
  simp only [Grade.gradePixel, specGrade, specCoeffA, specCoeffB, specPower, specClampBlack,
    specClampWhite, Bool.and_eq_true]

theorem specGrade_gamma_one (pow : F32 → F32 → F32) (node : Grade) (i : Nat) (x : F32)
    (h : node.gamma.get i = 1) : specGrade pow node i x = specGradeAffine node i x := by
  simp only [specGrade, specGradeAffine, specPower, h, F32.div_one_one, F32.ne_one_one]
  simp

theorem computeChannelData_eq_map (pow : F32 → F32 → F32) (tileSize : Nat) (node : Grade)
    (inPlug : ImagePlug) (channelName : String) (tileOrigin : V2i) (context : Context)
    (inData : List F32)
    (hin : inPlug.channelData channelName tileOrigin = some inData)
    (hlen : inData.length = tileSize * tileSize)
    (hgamma : node.gamma.get (Grade.channelIdx channelName) ≠ 0) :
    Grade.computeChannelData pow tileSize node inPlug channelName tileOrigin context =
      .value (some (inData.map (specGrade pow node (Grade.channelIdx channelName)))) := by
  simp only [Grade.computeChannelData, F32.eq_zero_false_of_ne _ hgamma, hin]
  rw [gradeRows_tile _ _ _ _ _ _ _ _ _ hlen]
  simp only [Bool.false_eq_true, if_false]
  congr 2
  apply List.map_congr_left
  intro x _
  exact gradePixel_eq_specGrade pow node _ x

theorem V3f.get_const (a : F32) (i : Nat) : V3f.get ⟨a, a, a⟩ i = a := by
  unfold V3f.get
  split <;> rfl

theorem specGrade_identity (pow : F32 → F32 → F32) (i : Nat) (x : F32) :
    specGrade pow Grade.identity i x = x := by
  have hA : specCoeffA 1 1 0 1 0 = 1 := by
    show F32.div (F32.mul (.fin 1) (F32.sub (.fin 1) (.fin 0))) (F32.sub (.fin 1) (.fin 0))
      = .fin 1
    simp [F32.div, F32.mul, F32.sub, F32.add, F32.neg]
  have hB : specCoeffB 0 0 1 0 = 0 := by
    show F32.sub (F32.add (.fin 0) (.fin 0)) (F32.mul (.fin 1) (.fin 0)) = .fin 0
    simp [F32.mul, F32.sub, F32.add, F32.neg]
  have hc : F32.add (F32.mul 1 x) 0 = x := by
    show F32.add (F32.mul (.fin 1) x) (.fin 0) = x
    cases x <;> simp [F32.mul, F32.add, F32.sgn, F32.ofSign]
  simp only [specGrade, Grade.identity, V3f.get_const, hA, hB, hc, specPower, F32.div_one_one,
    F32.ne_one_one, specClampBlack, specClampWhite]
  simp

/-! ## Grade: fingerprint and computed value -/

theorem gradeRows_translate (pow : F32 → F32 → F32) (A B invGamma : F32)
    (blackClamp whiteClamp : Bool) (tileSize : Nat) (inData : FloatVectorDataPtr)
    (t1 t2 : V2i) :
    ∀ (m : Nat) (k : Int) (out : List F32),
      Grade.gradeRows pow A B invGamma blackClamp whiteClamp tileSize inData t1
          ⟨t1, ⟨t1.x + (tileSize : Int) - 1, t1.y + (tileSize : Int) - 1⟩⟩ m (t1.y + k) out =
        Grade.gradeRows pow A B invGamma blackClamp whiteClamp tileSize inData t2
          ⟨t2, ⟨t2.x + (tileSize : Int) - 1, t2.y + (tileSize : Int) - 1⟩⟩ m (t2.y + k) out := by
  intro m
  induction m with
  | zero => intro k out; rfl
  | succ m ih =>
    intro k out
    cases inData with
    | none => rfl
    | some readable =>
      simp only [Grade.gradeRows]
      have e1 : (t1.x + (tileSize : Int) - 1 + 1 - t1.x).toNat = tileSize := by omega
      have e2 : (t2.x + (tileSize : Int) - 1 + 1 - t2.x).toNat = tileSize := by omega
      have p1 : (t1.y + k - t1.y) * (tileSize : Int) + (t1.x - t1.x) = k * (tileSize : Int) := by
        ring
      have p2 : (t2.y + k - t2.y) * (tileSize : Int) + (t2.x - t2.x) = k * (tileSize : Int) := by
        ring
      rw [e1, e2, p1, p2]
      cases Grade.gradeRow pow A B invGamma blackClamp whiteClamp readable tileSize
          (k * (tileSize : Int)) (k * (tileSize : Int)) out with
      | undefined => rfl
      | value r =>
        dsimp only
        have q1 : t1.y + k + 1 = t1.y + (k + 1) := by ring
        have q2 : t2.y + k + 1 = t2.y + (k + 1) := by ring
        rw [q1, q2]
        exact ih (k + 1) r

theorem computeChannelData_congr (pow : F32 → F32 → F32) (tileSize : Nat) (node : Grade)
    (in1 in2 : ImagePlug) (ch1 ch2 : String) (t1 t2 : V2i)
    (hval : in1.channelData ch1 t1 = in2.channelData ch2 t2)
    (hidx : Grade.channelIdx ch1 = Grade.channelIdx ch2) :
    Grade.computeChannelData pow tileSize node in1 ch1 t1 ⟨ch1, t1⟩ =
      Grade.computeChannelData pow tileSize node in2 ch2 t2 ⟨ch2, t2⟩ := by
  simp only [Grade.computeChannelData, hval, hidx]
  have e1 : (t1.y + (tileSize : Int) - 1 + 1 - t1.y).toNat = tileSize := by omega
  have e2 : (t2.y + (tileSize : Int) - 1 + 1 - t2.y).toNat = tileSize := by omega
  rw [e1, e2]
  have h := fun A B invGamma => gradeRows_translate pow A B invGamma node.blackClamp
    node.whiteClamp tileSize (in2.channelData ch2 t2) t1 t2 tileSize 0
    (List.replicate (tileSize * tileSize) 0)
  simp only [add_zero] at h
  rw [h]

/-- Counterexample to C6 as stated: with multiply `(1, 2, 1)` and an input whose
tiles for `R` and `G` have the same fingerprint and the same value, the two
requests fold equal contributors into the hash, and the computed tiles differ. -/
theorem cache_correctness_counterexample :
    Grade.hashChannelDataPlug { Grade.identity with multiply := ⟨1, .fin 2, 1⟩ }
        (constantInput ⟨⟨0, 0⟩, ⟨0, 0⟩⟩ [.fin 1]) ⟨"R", ⟨0, 0⟩⟩ [] =
      Grade.hashChannelDataPlug { Grade.identity with multiply := ⟨1, .fin 2, 1⟩ }
        (constantInput ⟨⟨0, 0⟩, ⟨0, 0⟩⟩ [.fin 1]) ⟨"G", ⟨0, 0⟩⟩ [] ∧
    (constantInput ⟨⟨0, 0⟩, ⟨0, 0⟩⟩ [.fin 1]).channelData "R" ⟨0, 0⟩ =
      (constantInput ⟨⟨0, 0⟩, ⟨0, 0⟩⟩ [.fin 1]).channelData "G" ⟨0, 0⟩ ∧
    Grade.computeChannelData powUnused 1 { Grade.identity with multiply := ⟨1, .fin 2, 1⟩ }
        (constantInput ⟨⟨0, 0⟩, ⟨0, 0⟩⟩ [.fin 1]) "R" ⟨0, 0⟩ ⟨"R", ⟨0, 0⟩⟩
      = .value (some [.fin 1]) ∧
    Grade.computeChannelData powUnused 1 { Grade.identity with multiply := ⟨1, .fin 2, 1⟩ }
        (constantInput ⟨⟨0, 0⟩, ⟨0, 0⟩⟩ [.fin 1]) "G" ⟨0, 0⟩ ⟨"G", ⟨0, 0⟩⟩
      = .value (some [.fin 2]) ∧
    Grade.computeChannelData powUnused 1 { Grade.identity with multiply := ⟨1, .fin 2, 1⟩ }
        (constantInput ⟨⟨0, 0⟩, ⟨0, 0⟩⟩ [.fin 1]) "R" ⟨0, 0⟩ ⟨"R", ⟨0, 0⟩⟩
      ≠ Grade.computeChannelData powUnused 1 { Grade.identity with multiply := ⟨1, .fin 2, 1⟩ }
        (constantInput ⟨⟨0, 0⟩, ⟨0, 0⟩⟩ [.fin 1]) "G" ⟨0, 0⟩ ⟨"G", ⟨0, 0⟩⟩ := by
  refine ⟨rfl, rfl, by decide!, by decide!, by decide!⟩

/-- Counterexample to C7 as stated: with gamma `(0, 0, 0)` the method
`computeChannelData` returns at the zero-gamma test and never reads the
`blackPoint` plug, which `hashChannelDataPlug` folds in. -/
theorem hash_mirrors_compute_counterexample :
    PlugId.colour .blackPoint ∈
      (Grade.hashChannelDataPlug { Grade.identity with gamma := ⟨0, 0, 0⟩ }
        (constantInput ⟨⟨0, 0⟩, ⟨0, 0⟩⟩ [.fin 1]) ⟨"R", ⟨0, 0⟩⟩ []).map Prod.fst ∧
    PlugId.colour .blackPoint ∉
      Grade.computeChannelDataReads { Grade.identity with gamma := ⟨0, 0, 0⟩ } "R" := by
  refine ⟨by decide, by decide!⟩

/-- C7, amended: `Grade::hashChannelDataPlug` folds in the fingerprint of the
upstream channel data, under the channel name of the context, and the values of
the nine parameters, in this order. Every plug of the node other than the data
window of the input image that `Grade::computeChannelData` reads is one of
these ten. When the gamma component of the channel is non-zero,
`computeChannelData` reads each of the ten; when it is zero, it reads of them
only the upstream channel data and gamma. -/
theorem hash_mirrors_compute (node : Grade) (inPlug : ImagePlug) (context : Context)
    (channelName : String) :
    Grade.hashChannelDataPlug node inPlug context [] =
      [(.inImage .channelData,
          .upstream (inPlug.channelDataHash context.channelName context.tileOrigin)),
        (.colour .blackPoint, .colour node.blackPoint),
        (.colour .whitePoint, .colour node.whitePoint),
        (.colour .lift, .colour node.lift),
        (.colour .gain, .colour node.gain),
        (.colour .multiply, .colour node.multiply),
        (.colour .offset, .colour node.offset),
        (.colour .gamma, .colour node.gamma),
        (.blackClamp, .flag node.blackClamp),
        (.whiteClamp, .flag node.whiteClamp)] ∧
    (∀ p ∈ Grade.computeChannelDataReads node channelName, p ≠ .inImage .dataWindow →
      p ∈ (Grade.hashChannelDataPlug node inPlug context []).map Prod.fst) ∧
    (node.gamma.get (Grade.channelIdx channelName) ≠ 0 →
      ∀ p ∈ (Grade.hashChannelDataPlug node inPlug context []).map Prod.fst,
        p ∈ Grade.computeChannelDataReads node channelName) ∧
    (F32.eq (node.gamma.get (Grade.channelIdx channelName)) 0 = true →
      ∀ p ∈ Grade.computeChannelDataReads node channelName, p ≠ .inImage .dataWindow →
        p = .inImage .channelData ∨ p = .colour .gamma) := by
  refine ⟨rfl, ?_, ?_, ?_⟩
  · intro p hp hne
    simp only [Grade.computeChannelDataReads] at hp
    simp only [Grade.hashChannelDataPlug, List.nil_append, List.cons_append, List.map_cons,
      List.map_nil]
    split at hp <;>
      simp only [List.mem_cons, List.mem_singleton, List.not_mem_nil, or_false] at hp ⊢
    · rcases hp with h | h | h | h
      · simp [h]
      · exact absurd h hne
      · simp [h]
      · simp [h]
    · rcases hp with h | h | h | h | h | h | h | h | h | h | h
      · simp [h]
      · exact absurd h hne
      all_goals simp [h]
  · intro hgamma p hp
    simp only [Grade.computeChannelDataReads, F32.eq_zero_false_of_ne _ hgamma]
    simp only [Grade.hashChannelDataPlug, List.nil_append, List.cons_append, List.map_cons,
      List.map_nil, List.mem_cons, List.mem_singleton, List.not_mem_nil, or_false] at hp
    rcases hp with h | h | h | h | h | h | h | h | h | h <;> simp [h]
  · intro hgamma p hp hne
    simp only [Grade.computeChannelDataReads, hgamma, if_true, List.mem_cons,
      List.mem_singleton, List.not_mem_nil, or_false] at hp
    rcases hp with h | h | h | h
    · exact Or.inl h
    · exact absurd h hne
    · exact Or.inr h
    · exact Or.inl h

/-- Witness of C7, amended: the identity parameters on channel `R`, whose gamma
component is `1`; the hashed plug `blackPoint` is read. -/
theorem hash_mirrors_compute_witness :
    PlugId.colour .blackPoint ∈ Grade.computeChannelDataReads Grade.identity "R" :=
  (hash_mirrors_compute Grade.identity (constantInput ⟨⟨0, 0⟩, ⟨0, 0⟩⟩ [.fin 1])
    ⟨"R", ⟨0, 0⟩⟩ "R").2.2.1 (by decide!) (.colour .blackPoint) (by decide)

/-! ## Grade: affected outputs -/

/-- C8: for an input that is one of the three scalar components of one of the
seven colour parameters, or `blackClamp`, or `whiteClamp`, or the channel data
of the input image, the outputs that `Grade::affects` produces contain the
channel data of the output image. -/
theorem affects_complete (baseAffects : PlugId → List PlugId) (input : PlugId)
    (h : (∃ p i, i < 3 ∧ input = .colourChild p i) ∨ input = .blackClamp ∨
      input = .whiteClamp ∨ input = .inImage .channelData) :
    PlugId.outImage .channelData ∈ Grade.affects baseAffects input := by
  rcases h with ⟨p, i, hi, rfl⟩ | rfl | rfl | rfl
  · cases p <;> interval_cases i <;> simp [Grade.affects, Grade.affectsChildren]
  · simp [Grade.affects, Grade.affectsChildren]
  · simp [Grade.affects, Grade.affectsChildren]
  · simp [Grade.affects, Grade.affectsChildren]

/-- Witness of C8: the third component of `gamma`, with a base class that
reports nothing. -/
theorem affects_complete_witness :
    PlugId.outImage .channelData ∈ Grade.affects (fun _ => []) (.colourChild .gamma 2) :=
  affects_complete (fun _ => []) (.colourChild .gamma 2) (Or.inl ⟨.gamma, 2, by decide, rfl⟩)

/-! ## Grade: behaviour the specification does not allow -/

/-- C9, the source at a failing input: the data window is the single pixel
`(0,0)`, the tile of size 2 at the origin holds `1` there and `0` elsewhere, and
the offset is `1/2`. The pixels `(1,0)`, `(0,1)` and `(1,1)` lie outside the
data window and come out as `1/2`, not `0`. -/
theorem grade_ignores_data_window :
    ¬ (constantInput ⟨⟨0, 0⟩, ⟨0, 0⟩⟩ [.fin 1, 0, 0, 0]).dataWindow.contains 1 0 ∧
    Grade.computeChannelData powUnused 2
        { Grade.identity with offset := ⟨.fin (1 / 2), .fin (1 / 2), .fin (1 / 2)⟩ }
        (constantInput ⟨⟨0, 0⟩, ⟨0, 0⟩⟩ [.fin 1, 0, 0, 0]) "R" ⟨0, 0⟩ ⟨"R", ⟨0, 0⟩⟩
      = .value (some [.fin (3 / 2), .fin (1 / 2), .fin (1 / 2), .fin (1 / 2)]) := by
  refine ⟨by decide, by decide!⟩

/-- C10, the source at a failing input: with white point and black point both
`0` and the other parameters at identity, the coefficient `A` is the quotient
`1 / 0`, an infinity, and the output pixel is `NaN`, with both clamps set as
well. -/
theorem grade_zero_width_range :
    specCoeffA 1 1 0 0 0 = .posInf ∧
    Grade.computeChannelData powUnused 1 { Grade.identity with whitePoint := ⟨0, 0, 0⟩ }
        (constantInput ⟨⟨0, 0⟩, ⟨0, 0⟩⟩ [.fin 1]) "R" ⟨0, 0⟩ ⟨"R", ⟨0, 0⟩⟩
      = .value (some [.nan]) ∧
    Grade.computeChannelData powUnused 1
        { Grade.identity with whitePoint := ⟨0, 0, 0⟩, blackClamp := true, whiteClamp := true }
        (constantInput ⟨⟨0, 0⟩, ⟨0, 0⟩⟩ [.fin 1]) "R" ⟨0, 0⟩ ⟨"R", ⟨0, 0⟩⟩
      = .value (some [.nan]) := by
  refine ⟨by decide!, by decide!, by decide!⟩

/-! ## Grade: zero gamma and the clamp scenario -/

theorem F32.eq_zero_of_eq (g : F32) (h : g = 0) : F32.eq g 0 = true := by
  subst h
  show F32.eq (F32.fin 0) (F32.fin 0) = true
  simp [F32.eq]

theorem specGrade_clamp_scenario (pow : F32 → F32 → F32) (m2 m3 : F32) (b w : Bool) :
    specGrade pow
        { Grade.identity with multiply := ⟨.fin 2, m2, m3⟩, blackClamp := b, whiteClamp := w }
        0 (.fin (3 / 2))
      = if w = true then 1 else .fin 3 := by
  have hA : specCoeffA (.fin 2) 1 0 1 0 = .fin 2 := by
    show F32.div (F32.mul (.fin 2) (F32.sub (.fin 1) (.fin 0))) (F32.sub (.fin 1) (.fin 0))
      = .fin 2
    simp [F32.div, F32.mul, F32.sub, F32.add, F32.neg]
  have hB : specCoeffB 0 0 (.fin 2) 0 = 0 := by
    show F32.sub (F32.add (.fin 0) (.fin 0)) (F32.mul (.fin 2) (.fin 0)) = .fin 0
    simp [F32.mul, F32.sub, F32.add, F32.neg]
  have hc : F32.add (F32.mul (.fin 2) (.fin (3 / 2))) 0 = .fin 3 := by
    show F32.add (F32.mul (.fin 2) (.fin (3 / 2))) (.fin 0) = .fin 3
    simp [F32.mul, F32.add]
    norm_num
  have hlt : F32.lt (.fin 3) 0 = false := by
    show F32.lt (.fin 3) (.fin 0) = false
    simp [F32.lt]
  have hgt : F32.gt (.fin 3) 1 = true := by
    show F32.lt (.fin 1) (.fin 3) = true
    simp [F32.lt]
  simp only [specGrade, Grade.identity, V3f.get, hA, hB, hc, specPower, F32.div_one_one,
    F32.ne_one_one, specClampBlack, specClampWhite]
  simp [hlt, hgt]

/-! ## ImagePrimitiveSource: missing channel and whole-object compute -/

/-- C14: when the adapted image is present and has no float channel of the
requested name, `ImagePrimitiveSource::computeChannelData` returns the null
pointer, not a tile, for every tile origin. -/
theorem computeChannelData_missing_channel (tileSize : Nat) (image : ImagePrimitive)
    (channelName : String) (tileOrigin : V2i)
    (hch : image.getChannel channelName = none) :
    ImagePrimitiveSource.computeChannelData tileSize ⟨.imagePrimitive image⟩ channelName
      tileOrigin = .value none := by
  simp only [ImagePrimitiveSource.computeChannelData, Object.asImagePrimitive, hch]

/-- Witness of C14: an image with a float channel `R` and a channel `A` of
another type, asked for `A`. -/
theorem computeChannelData_missing_channel_witness :
    ImagePrimitiveSource.computeChannelData 2
      ⟨.imagePrimitive ⟨⟨⟨0, 0⟩, ⟨1, 1⟩⟩, ⟨⟨0, 0⟩, ⟨1, 1⟩⟩,
        [("R", .floatVector [1, 1, 1, 1]), ("A", .other)]⟩⟩ "A" ⟨0, 0⟩ = .value none :=
  computeChannelData_missing_channel 2
    ⟨⟨⟨0, 0⟩, ⟨1, 1⟩⟩, ⟨⟨0, 0⟩, ⟨1, 1⟩⟩, [("R", .floatVector [1, 1, 1, 1]), ("A", .other)]⟩
    "A" ⟨0, 0⟩ rfl

/-- C16: `ImagePrimitiveSource::compute` on the output `__imagePrimitive` stores
the image that `computeImagePrimitive` returns when that is not null, and the
default value of the plug, the null object, when it is null. In the second case
the derived outputs, which read the stored value through
`__inputImagePrimitive`, are the empty box for the display window and the data
window, the empty list of channel names, and the null pointer for the channel
data. -/
theorem compute_never_stores_null (tileSize : Nat)
    (computeImagePrimitive : Context → Option ImagePrimitive) (context : Context) :
    (∀ image, computeImagePrimitive context = some image →
      ImagePrimitiveSource.compute computeImagePrimitive .imagePrimitive context
        = some (.imagePrimitive image)) ∧
    (computeImagePrimitive context = none →
      ImagePrimitiveSource.compute computeImagePrimitive .imagePrimitive context
          = some .nullObject ∧
        ∀ stored,
          ImagePrimitiveSource.compute computeImagePrimitive .imagePrimitive context
            = some stored →
          (ImagePrimitiveSource.mk stored).computeDisplayWindow = Box2i.empty ∧
          (ImagePrimitiveSource.mk stored).computeDataWindow = Box2i.empty ∧
          (ImagePrimitiveSource.mk stored).computeChannelNames = [] ∧
          ∀ (channelName : String) (tileOrigin : V2i),
            ImagePrimitiveSource.computeChannelData tileSize ⟨stored⟩ channelName tileOrigin
              = .value none) := by
  constructor
  · intro image himage
    simp only [ImagePrimitiveSource.compute, himage, if_true]
  · intro hnone
    have hc : ImagePrimitiveSource.compute computeImagePrimitive .imagePrimitive context
        = some .nullObject := by
      simp only [ImagePrimitiveSource.compute, hnone, if_true,
        ImagePrimitiveSource.imagePrimitiveDefault]
    refine ⟨hc, ?_⟩
    intro stored hstored
    rw [hc] at hstored
    cases hstored
    refine ⟨rfl, rfl, rfl, ?_⟩
    intro channelName tileOrigin
    rfl

/-- Witness of C16: a concrete node whose `computeImagePrimitive` returns the
null pointer in every context. -/
theorem compute_never_stores_null_witness :
    ImagePrimitiveSource.compute (fun _ => none) .imagePrimitive ⟨"R", ⟨0, 0⟩⟩
        = some .nullObject ∧
      ∀ stored,
        ImagePrimitiveSource.compute (fun _ => none) .imagePrimitive ⟨"R", ⟨0, 0⟩⟩
          = some stored →
        (ImagePrimitiveSource.mk stored).computeDisplayWindow = Box2i.empty ∧
        (ImagePrimitiveSource.mk stored).computeDataWindow = Box2i.empty ∧
        (ImagePrimitiveSource.mk stored).computeChannelNames = [] ∧
        ∀ (channelName : String) (tileOrigin : V2i),
          ImagePrimitiveSource.computeChannelData 64 ⟨stored⟩ channelName tileOrigin
            = .value none :=
  (compute_never_stores_null 64 (fun _ => none) ⟨"R", ⟨0, 0⟩⟩).2 rfl

/-! ## ImagePrimitiveSource: fingerprint and affected outputs -/

/-- C19: for the input `__inputImagePrimitive` the outputs that
`ImagePrimitiveSource::affects` produces are those of the base class followed
by the image output of the node, and for every other input they are those of
the base class, unchanged. -/
theorem source_affects (baseAffects : SourcePlug → List SourcePlug) :
    SourcePlug.out ∈ ImagePrimitiveSource.affects baseAffects .inputImagePrimitive ∧
    ImagePrimitiveSource.affects baseAffects .inputImagePrimitive
      = baseAffects .inputImagePrimitive ++ [.out] ∧
    ∀ input, input ≠ .inputImagePrimitive →
      ImagePrimitiveSource.affects baseAffects input = baseAffects input := by
  refine ⟨?_, ?_, ?_⟩
  · simp [ImagePrimitiveSource.affects]
  · simp [ImagePrimitiveSource.affects]
  · intro input hne
    simp [ImagePrimitiveSource.affects, hne]

/-- Witness of C19: the plug `__imagePrimitive` as input, over a base class that
reports one plug. -/
theorem source_affects_witness :
    ImagePrimitiveSource.affects (fun _ => [.other "user"]) .imagePrimitive
      = [.other "user"] :=
  (source_affects (fun _ => [.other "user"])).2.2 .imagePrimitive (by decide)

/-! ## Grade: channel to component, clamps, absent input -/

theorem F32.lt_zero_false_cases (v : F32) (h : F32.lt v 0 = false) :
    v = .nan ∨ F32.ge v 0 = true := by
  cases v with
  | fin q =>
    right
    have h1 : F32.lt (.fin q) (.fin 0) = false := h
    show (F32.lt (.fin 0) (.fin q) || F32.eq (.fin q) (.fin 0)) = true
    simp only [F32.lt, decide_eq_false_iff_not, not_lt] at h1
    rcases lt_or_eq_of_le h1 with h2 | h2
    · simp [F32.lt, h2]
    · simp [F32.lt, F32.eq, ← h2]
  | posInf => right; rfl
  | negInf => exact absurd h (by decide)
  | nan => left; rfl

theorem F32.gt_one_false_cases (v : F32) (h : F32.gt v 1 = false) :
    v = .nan ∨ F32.ge 1 v = true := by
  cases v with
  | fin q =>
    right
    have h1 : F32.lt (.fin 1) (.fin q) = false := h
    show (F32.lt (.fin q) (.fin 1) || F32.eq (.fin 1) (.fin q)) = true
    simp only [F32.lt, decide_eq_false_iff_not, not_lt] at h1
    rcases lt_or_eq_of_le h1 with h2 | h2
    · simp [F32.lt, h2]
    · simp [F32.lt, F32.eq, h2]
  | posInf => exact absurd h (by decide)
  | negInf => right; rfl
  | nan => left; rfl

theorem specGrade_clamped (pow : F32 → F32 → F32) (node : Grade) (i : Nat) (x : F32) :
    (node.blackClamp = true → F32.lt (specGrade pow node i x) 0 = false) ∧
    (node.whiteClamp = true → F32.gt (specGrade pow node i x) 1 = false) := by
  have h10 : F32.lt 1 0 = false := by decide!
  have h00 : F32.lt 0 0 = false := by decide!
  have h11 : F32.gt 1 1 = false := by decide!
  simp only [specGrade]
  generalize specPower pow _ _ = p
  constructor
  · intro hb
    have hu : F32.lt (specClampBlack node.blackClamp p) 0 = false := by
      simp only [specClampBlack, hb, true_and]
      split
      · exact h00
      · rename_i hn
        simpa using hn
    simp only [specClampWhite]
    split
    · exact h10
    · exact hu
  · intro hw
    simp only [specClampWhite, hw, true_and]
    split
    · exact h11
    · rename_i hn
      simpa using hn

/-- Counterexample to C15 as stated: with the identity parameters and both
clamps set, a tile that holds a `NaN` comes back with the `NaN`, which is
neither `>= 0` nor `<= 1`. -/
theorem clamp_range_counterexample :
    Grade.computeChannelData powUnused 1
        { Grade.identity with blackClamp := true, whiteClamp := true }
        (constantInput ⟨⟨0, 0⟩, ⟨0, 0⟩⟩ [.nan]) "R" ⟨0, 0⟩ ⟨"R", ⟨0, 0⟩⟩
      = .value (some [.nan]) ∧
    F32.ge .nan 0 = false ∧ F32.ge 1 .nan = false := by
  refine ⟨by decide!, by decide!, by decide!⟩

/-- C17, the source at a failing input: the input image is a source adapter
without object, whose channel data is the null pointer, and the parameters are
the identity, with gamma 1. `Grade::computeChannelData` dereferences the null
pointer at the read of the input tile: the behaviour is undefined. -/
theorem grade_absent_input :
    ImagePrimitiveSource.computeChannelData 1 ⟨.nullObject⟩ "R" ⟨0, 0⟩ = .value none ∧
    Grade.computeChannelData powUnused 1 Grade.identity
        ⟨Box2i.empty, fun _ _ => none, fun _ _ => 0⟩ "R" ⟨0, 0⟩ ⟨"R", ⟨0, 0⟩⟩
      = .undefined := by
  refine ⟨rfl, by decide!⟩

/-! ## ImagePrimitiveSource: the copy loops end and stay in bounds -/

theorem copyRowLoop_eq_copyRow (channel : List F32) (srcEndIndex : Int) :
    ∀ (fuel : Nat) (s d : Int) (r : List F32), (srcEndIndex + 1 - s).toNat < fuel →
      ImagePrimitiveSource.copyRowLoop channel srcEndIndex fuel s d r =
        some (ImagePrimitiveSource.copyRow channel (srcEndIndex + 1 - s).toNat s d r) := by
  intro fuel
  induction fuel with
  | zero => intro s d r h; omega
  | succ fuel ih =>
    intro s d r h
    by_cases hs : s ≤ srcEndIndex
    · have e : (srcEndIndex + 1 - s).toNat = (srcEndIndex + 1 - (s + 1)).toNat + 1 := by omega
      rw [e]
      simp only [ImagePrimitiveSource.copyRowLoop, ImagePrimitiveSource.copyRow, if_pos hs]
      cases vecGet channel s with
      | undefined => rfl
      | value c =>
        dsimp only
        cases vecSet r d c with
        | undefined => rfl
        | value r2 => exact ih (s + 1) (d + 1) r2 (by omega)
    · have e : (srcEndIndex + 1 - s).toNat = 0 := by omega
      rw [e]
      simp only [ImagePrimitiveSource.copyRowLoop, ImagePrimitiveSource.copyRow, if_neg hs]

theorem length_copyRowAccesses :
    ∀ (n : Nat) (s d : Int), (ImagePrimitiveSource.copyRowAccesses n s d).length = n := by
  intro n
  induction n with
  | zero => intro s d; rfl
  | succ n ih =>
    intro s d
    simp only [ImagePrimitiveSource.copyRowAccesses, List.length_cons, ih]

theorem mem_copyRowAccesses :
    ∀ (n : Nat) (s d : Int) (p : Int × Int), p ∈ ImagePrimitiveSource.copyRowAccesses n s d →
      ∃ k : Int, 0 ≤ k ∧ k < n ∧ p = (s + k, d + k) := by
  intro n
  induction n with
  | zero =>
    intro s d p hp
    simp [ImagePrimitiveSource.copyRowAccesses] at hp
  | succ n ih =>
    intro s d p hp
    simp only [ImagePrimitiveSource.copyRowAccesses, List.mem_cons] at hp
    rcases hp with rfl | hp
    · exact ⟨0, le_refl _, by omega, by simp⟩
    · obtain ⟨k, hk0, hk1, rfl⟩ := ih (s + 1) (d + 1) p hp
      refine ⟨k + 1, by omega, by push_cast; omega, ?_⟩
      congr 1 <;> ring

theorem mem_copyRowsAccesses (tileSize : Nat) (dataWindow tileBound bound : Box2i) :
    ∀ (m : Nat) (y0 : Int) (row : List (Int × Int)),
      row ∈ ImagePrimitiveSource.copyRowsAccesses tileSize dataWindow tileBound bound m y0 →
      ∃ y : Int, y0 ≤ y ∧ y < y0 + m ∧
        row = ImagePrimitiveSource.copyRowAccesses (bound.size.x + 1).toNat
          ((y - dataWindow.min.y) * (dataWindow.size.x + 1) + bound.min.x - dataWindow.min.x)
          ((y - tileBound.min.y) * (tileSize : Int) + bound.min.x - tileBound.min.x) := by
  intro m
  induction m with
  | zero =>
    intro y0 row hrow
    simp [ImagePrimitiveSource.copyRowsAccesses] at hrow
  | succ m ih =>
    intro y0 row hrow
    simp only [ImagePrimitiveSource.copyRowsAccesses, List.mem_cons] at hrow
    rcases hrow with rfl | hrow
    · refine ⟨y0, le_refl _, by omega, ?_⟩
      have e2 : ((y0 - dataWindow.min.y) * (dataWindow.size.x + 1) + bound.min.x
          - dataWindow.min.x + bound.size.x + 1
          - ((y0 - dataWindow.min.y) * (dataWindow.size.x + 1) + bound.min.x
            - dataWindow.min.x)) = bound.size.x + 1 := by ring
      rw [e2]
    · obtain ⟨y, hy0, hy1, rfl⟩ := ih (y0 + 1) row hrow
      exact ⟨y, by omega, by push_cast; omega, rfl⟩

theorem boxIntersection_cases (tileSize : Nat) (tileOrigin : V2i) (dataWindow : Box2i) :
    boxIntersection
        ⟨tileOrigin, ⟨tileOrigin.x + ((tileSize : Int) - 1), tileOrigin.y + ((tileSize : Int) - 1)⟩⟩
        dataWindow = Box2i.empty ∨
    ∃ mnx mny mxx mxy : Int,
      boxIntersection
        ⟨tileOrigin, ⟨tileOrigin.x + ((tileSize : Int) - 1), tileOrigin.y + ((tileSize : Int) - 1)⟩⟩
        dataWindow = ⟨⟨mnx, mny⟩, ⟨mxx, mxy⟩⟩ ∧
      tileOrigin.x ≤ mnx ∧ dataWindow.min.x ≤ mnx ∧ mnx ≤ mxx ∧
      mxx ≤ tileOrigin.x + ((tileSize : Int) - 1) ∧ mxx ≤ dataWindow.max.x ∧
      tileOrigin.y ≤ mny ∧ dataWindow.min.y ≤ mny ∧ mny ≤ mxy ∧
      mxy ≤ tileOrigin.y + ((tileSize : Int) - 1) ∧ mxy ≤ dataWindow.max.y := by
  by_cases hint : min (tileOrigin.x + ((tileSize : Int) - 1)) dataWindow.max.x
        < max tileOrigin.x dataWindow.min.x ∨
      min (tileOrigin.y + ((tileSize : Int) - 1)) dataWindow.max.y
        < max tileOrigin.y dataWindow.min.y
  · left
    simp only [boxIntersection]
    rw [if_pos hint]
  · right
    refine ⟨max tileOrigin.x dataWindow.min.x, max tileOrigin.y dataWindow.min.y,
      min (tileOrigin.x + ((tileSize : Int) - 1)) dataWindow.max.x,
      min (tileOrigin.y + ((tileSize : Int) - 1)) dataWindow.max.y, ?_, ?_⟩
    · simp only [boxIntersection]
      rw [if_neg hint]
    · omega

theorem vecGet_value_iff (v : List F32) (i : Int) :
    (∃ a, vecGet v i = .value a) ↔ 0 ≤ i ∧ i < v.length := by
  constructor
  · rintro ⟨a, h⟩
    unfold vecGet at h
    by_cases hi : i < 0
    · rw [if_pos hi] at h
      cases h
    · rw [if_neg hi] at h
      cases hv : v[i.toNat]? with
      | none =>
        rw [hv] at h
        cases h
      | some b =>
        have hlt : i.toNat < v.length := by
          by_contra hge
          rw [List.getElem?_eq_none (by omega)] at hv
          cases hv
        omega
  · rintro ⟨h0, h1⟩
    obtain ⟨a, _, ha⟩ := vecGet_of_lt v i h0 h1
    exact ⟨a, ha⟩

theorem vecSet_value_iff (v : List F32) (i : Int) (a : F32) (w : List F32) :
    vecSet v i a = .value w ↔ (0 ≤ i ∧ i < v.length) ∧ w = v.set i.toNat a := by
  unfold vecSet
  by_cases h : 0 ≤ i ∧ i < v.length
  · rw [if_pos h]
    constructor
    · intro hw
      cases hw
      exact ⟨h, rfl⟩
    · rintro ⟨_, rfl⟩
      rfl
  · rw [if_neg h]
    constructor
    · intro hw
      cases hw
    · rintro ⟨h2, _⟩
      exact absurd h2 h

theorem copyRow_value_iff (channel : List F32) :
    ∀ (n : Nat) (s d : Int) (r : List F32),
      (∃ out, ImagePrimitiveSource.copyRow channel n s d r = .value out ∧
        out.length = r.length) ↔
      ∀ p ∈ ImagePrimitiveSource.copyRowAccesses n s d,
        0 ≤ p.1 ∧ p.1 < channel.length ∧ 0 ≤ p.2 ∧ p.2 < r.length := by
  intro n
  induction n with
  | zero =>
    intro s d r
    simp [ImagePrimitiveSource.copyRow, ImagePrimitiveSource.copyRowAccesses]
  | succ n ih =>
    intro s d r
    simp only [ImagePrimitiveSource.copyRowAccesses, List.mem_cons, forall_eq_or_imp]
    constructor
    · rintro ⟨out, hrun, hlen⟩
      simp only [ImagePrimitiveSource.copyRow] at hrun
      cases hg : vecGet channel s with
      | undefined =>
        rw [hg] at hrun
        cases hrun
      | value c =>
        rw [hg] at hrun
        dsimp only at hrun
        cases hs : vecSet r d c with
        | undefined =>
          rw [hs] at hrun
          cases hrun
        | value r2 =>
          rw [hs] at hrun
          dsimp only at hrun
          obtain ⟨hd, hr2⟩ := (vecSet_value_iff r d c r2).mp hs
          have hsb := (vecGet_value_iff channel s).mp ⟨c, hg⟩
          have hl2 : r2.length = r.length := by rw [hr2, List.length_set]
          have htail := (ih (s + 1) (d + 1) r2).mp ⟨out, hrun, by rw [hlen, hl2]⟩
          refine ⟨⟨hsb.1, hsb.2, hd.1, hd.2⟩, ?_⟩
          intro p hp
          have := htail p hp
          rw [hl2] at this
          exact this
    · rintro ⟨⟨hs0, hs1, hd0, hd1⟩, htail⟩
      obtain ⟨c, hg⟩ := (vecGet_value_iff channel s).mpr ⟨hs0, hs1⟩
      have hs : vecSet r d c = .value (r.set d.toNat c) :=
        (vecSet_value_iff r d c _).mpr ⟨⟨hd0, hd1⟩, rfl⟩
      obtain ⟨out, hrun, hlen⟩ := (ih (s + 1) (d + 1) (r.set d.toNat c)).mpr (by
        intro p hp
        have := htail p hp
        rw [List.length_set]
        exact this)
      refine ⟨out, ?_, by rw [hlen, List.length_set]⟩
      simp only [ImagePrimitiveSource.copyRow, hg, hs]
      exact hrun

theorem copyRow_length (channel : List F32) :
    ∀ (n : Nat) (s d : Int) (r out : List F32),
      ImagePrimitiveSource.copyRow channel n s d r = .value out → out.length = r.length := by
  intro n s d r out h
  have hall := (copyRow_value_iff channel n s d r).mpr
  by_cases hb : ∀ p ∈ ImagePrimitiveSource.copyRowAccesses n s d,
      0 ≤ p.1 ∧ p.1 < channel.length ∧ 0 ≤ p.2 ∧ p.2 < r.length
  · obtain ⟨out2, h2, hl⟩ := hall hb
    rw [h] at h2
    cases h2
    exact hl
  · exfalso
    apply hb
    clear hall hb
    induction n generalizing s d r with
    | zero =>
      intro p hp
      simp [ImagePrimitiveSource.copyRowAccesses] at hp
    | succ n ih =>
      simp only [ImagePrimitiveSource.copyRow] at h
      cases hg : vecGet channel s with
      | undefined =>
        rw [hg] at h
        cases h
      | value c =>
        rw [hg] at h
        dsimp only at h
        cases hs : vecSet r d c with
        | undefined =>
          rw [hs] at h
          cases h
        | value r2 =>
          rw [hs] at h
          dsimp only at h
          obtain ⟨hd, hr2⟩ := (vecSet_value_iff r d c r2).mp hs
          have hsb := (vecGet_value_iff channel s).mp ⟨c, hg⟩
          have hl2 : r2.length = r.length := by rw [hr2, List.length_set]
          have htail := ih (s + 1) (d + 1) r2 h
          simp only [ImagePrimitiveSource.copyRowAccesses, List.mem_cons, forall_eq_or_imp]
          refine ⟨⟨hsb.1, hsb.2, hd.1, hd.2⟩, ?_⟩
          intro p hp
          have := htail p hp
          rw [hl2] at this
          exact this

theorem copyRows_value_iff (tileSize : Nat) (channel : List F32)
    (dataWindow tileBound bound : Box2i) :
    ∀ (m : Nat) (y : Int) (r : List F32),
      (∃ out, ImagePrimitiveSource.copyRows tileSize channel dataWindow tileBound bound m y r
          = .value out ∧ out.length = r.length) ↔
      ∀ row ∈ ImagePrimitiveSource.copyRowsAccesses tileSize dataWindow tileBound bound m y,
        ∀ p ∈ row, 0 ≤ p.1 ∧ p.1 < channel.length ∧ 0 ≤ p.2 ∧ p.2 < r.length := by
  intro m
  induction m with
  | zero =>
    intro y r
    simp [ImagePrimitiveSource.copyRows, ImagePrimitiveSource.copyRowsAccesses]
  | succ m ih =>
    intro y r
    simp only [ImagePrimitiveSource.copyRowsAccesses, List.mem_cons, forall_eq_or_imp]
    constructor
    · rintro ⟨out, hrun, hlen⟩
      simp only [ImagePrimitiveSource.copyRows] at hrun
      cases hrow : ImagePrimitiveSource.copyRow channel _ _ _ r with
      | undefined =>
        rw [hrow] at hrun
        cases hrun
      | value r2 =>
        rw [hrow] at hrun
        dsimp only at hrun
        have hl2 : r2.length = r.length := copyRow_length channel _ _ _ r r2 hrow
        have hhead := (copyRow_value_iff channel _ _ _ r).mp ⟨r2, hrow, hl2⟩
        have htail := (ih (y + 1) r2).mp ⟨out, hrun, by rw [hlen, hl2]⟩
        refine ⟨hhead, ?_⟩
        intro row hr p hp
        have := htail row hr p hp
        rw [hl2] at this
        exact this
    · rintro ⟨hhead, htail⟩
      obtain ⟨r2, hrow, hl2⟩ := (copyRow_value_iff channel _ _ _ r).mpr hhead
      obtain ⟨out, hrun, hlen⟩ := (ih (y + 1) r2).mpr (by
        intro row hr p hp
        have := htail row hr p hp
        rw [hl2]
        exact this)
      refine ⟨out, ?_, by rw [hlen, hl2]⟩
      simp only [ImagePrimitiveSource.copyRows, hrow]
      exact hrun

theorem computeChannelData_value (tileSize : Nat) (image : ImagePrimitive)
    (channelName : String) (channel : List F32) (tileOrigin : V2i)
    (hch : image.getChannel channelName = some channel)
    (hlen : image.dataWindow.isEmpty = false →
      (channel.length : Int) = image.dataWindow.width * image.dataWindow.height) :
    ∃ result,
      ImagePrimitiveSource.computeChannelData tileSize ⟨.imagePrimitive image⟩ channelName
        tileOrigin = .value (some result) ∧ result.length = tileSize * tileSize := by
  rcases boxIntersection_cases tileSize tileOrigin image.dataWindow with hb | hb
  · refine ⟨List.replicate (tileSize * tileSize) 0, ?_, List.length_replicate _ _⟩
    simp only [ImagePrimitiveSource.computeChannelData, Object.asImagePrimitive, hch, hb]
    rfl
  · obtain ⟨mnx, mny, mxx, mxy, _, h1, h2, h3, h4, h5, h6, h7, h8, h9, h10⟩ := hb
    have hD : image.dataWindow.isEmpty = false := by
      simp only [Box2i.isEmpty, Bool.or_eq_false_iff, decide_eq_false_iff_not, not_lt]
      omega
    obtain ⟨result, hrun, hlenr, _⟩ :=
      copyRows_tile tileSize channel image.dataWindow tileOrigin hD (hlen hD)
    refine ⟨result, ?_, hlenr⟩
    simp only [ImagePrimitiveSource.computeChannelData, Object.asImagePrimitive, hch]
    rw [hrun]

/-! ## Grade: the freshly constructed node -/

theorem specGrade_new (pow : F32 → F32 → F32) (i : Nat) (x : F32) :
    specGrade pow (Grade.new ⟨0, 0, 0⟩ false) i x = specMax x 0 := by
  have hA : specCoeffA 1 1 0 1 0 = 1 := by
    show F32.div (F32.mul (.fin 1) (F32.sub (.fin 1) (.fin 0))) (F32.sub (.fin 1) (.fin 0))
      = .fin 1
    simp [F32.div, F32.mul, F32.sub, F32.add, F32.neg]
  have hB : specCoeffB 0 0 1 0 = 0 := by
    show F32.sub (F32.add (.fin 0) (.fin 0)) (F32.mul (.fin 1) (.fin 0)) = .fin 0
    simp [F32.mul, F32.sub, F32.add, F32.neg]
  have hc : F32.add (F32.mul 1 x) 0 = x := by
    show F32.add (F32.mul (.fin 1) x) (.fin 0) = x
    cases x <;> simp [F32.mul, F32.add, F32.sgn, F32.ofSign]
  simp only [specGrade, Grade.new, V3f.get_const, hA, hB, hc, specPower, F32.div_one_one,
    F32.ne_one_one, specClampBlack, specClampWhite, specMax]
  simp

theorem F32.lt_zero_of_ge_zero (x : F32) (h : F32.ge x 0 = true) : F32.lt x 0 = false := by
  cases x with
  | fin q =>
    have h1 : (F32.lt (.fin 0) (.fin q) || F32.eq (.fin q) (.fin 0)) = true := h
    show F32.lt (.fin q) (.fin 0) = false
    simp only [F32.lt, F32.eq, Bool.or_eq_true, decide_eq_true_eq, F32.fin.injEq] at h1
    simp only [F32.lt, decide_eq_false_iff_not, not_lt]
    rcases h1 with h1 | h1
    · exact le_of_lt h1
    · exact le_of_eq h1.symm
  | posInf => rfl
  | negInf => exact absurd h (by decide)
  | nan => rfl


/-! ## ImagePrimitiveSource: the loops on `int` agree with the loops on integers -/

theorem le_mul_self_of_pos (T : Int) (h : 1 ≤ T) : T ≤ T * T := by
  have := mul_le_mul_of_nonneg_left h (show (0 : Int) ≤ T by omega)
  omega

theorem le_mul_of_one_le (W H : Int) (hW : 0 ≤ W) (hH : 1 ≤ H) : W ≤ W * H := by
  have := mul_le_mul_of_nonneg_left hH hW
  omega

theorem le_mul_of_one_le_left (W H : Int) (hW : 1 ≤ W) (hH : 0 ≤ H) : H ≤ W * H := by
  have := mul_le_mul_of_nonneg_right hW hH
  omega

theorem copyRowsLoop_eq_copyRows (tileSize : Nat) (channel : List F32)
    (dataWindow tileBound bound : Box2i) (rowFuel : Nat)
    (hrow : (bound.size.x + 1).toNat < rowFuel) :
    ∀ (fuel : Nat) (y : Int) (r : List F32), (bound.max.y + 1 - y).toNat < fuel →
      (∀ y2, y ≤ y2 → y2 ≤ bound.max.y →
        allInt (ImagePrimitiveSource.rowInts tileSize dataWindow tileBound bound y2)) →
      ImagePrimitiveSource.copyRowsLoop tileSize channel dataWindow tileBound bound rowFuel
          fuel y r =
        some (ImagePrimitiveSource.copyRows tileSize channel dataWindow tileBound bound
          (bound.max.y + 1 - y).toNat y r) := by
  intro fuel
  induction fuel with
  | zero => intro y r h; omega
  | succ fuel ih =>
    intro y r h hints
    by_cases hy : y ≤ bound.max.y
    · have e : (bound.max.y + 1 - y).toNat = (bound.max.y + 1 - (y + 1)).toNat + 1 := by omega
      rw [e]
      simp only [ImagePrimitiveSource.copyRowsLoop, ImagePrimitiveSource.copyRows, if_pos hy,
        if_pos (hints y (le_refl _) hy)]
      rw [copyRowLoop_eq_copyRow]
      · cases ImagePrimitiveSource.copyRow channel _ _ _ r with
        | undefined => rfl
        | value r2 =>
          exact ih (y + 1) r2 (by omega) (fun y2 h1 h2 => hints y2 (by omega) h2)
      · have e2 : ((y - dataWindow.min.y) * (dataWindow.size.x + 1) + bound.min.x
            - dataWindow.min.x + bound.size.x + 1
            - ((y - dataWindow.min.y) * (dataWindow.size.x + 1) + bound.min.x
              - dataWindow.min.x)) = bound.size.x + 1 := by ring
        rw [e2]
        exact hrow
    · have e : (bound.max.y + 1 - y).toNat = 0 := by omega
      rw [e]
      simp only [ImagePrimitiveSource.copyRowsLoop, ImagePrimitiveSource.copyRows, if_neg hy]

theorem rowInts_allInt (tileSize : Nat) (dataWindow : Box2i) (tileOrigin : V2i)
    (hrange : ImagePrimitiveSource.noOverflow tileSize dataWindow tileOrigin)
    (mnx mny mxx mxy : Int)
    (h1 : tileOrigin.x ≤ mnx) (h2 : dataWindow.min.x ≤ mnx) (h3 : mnx ≤ mxx)
    (h4 : mxx ≤ tileOrigin.x + ((tileSize : Int) - 1)) (h5 : mxx ≤ dataWindow.max.x)
    (h6 : tileOrigin.y ≤ mny) (h7 : dataWindow.min.y ≤ mny) (h8 : mny ≤ mxy)
    (h9 : mxy ≤ tileOrigin.y + ((tileSize : Int) - 1)) (h10 : mxy ≤ dataWindow.max.y)
    (y : Int) (hy0 : mny ≤ y) (hy1 : y ≤ mxy) :
    allInt (ImagePrimitiveSource.rowInts tileSize dataWindow
      ⟨tileOrigin, ⟨tileOrigin.x + ((tileSize : Int) - 1), tileOrigin.y + ((tileSize : Int) - 1)⟩⟩
      ⟨⟨mnx, mny⟩, ⟨mxx, mxy⟩⟩ y) := by
  obtain ⟨⟨dx0, dy0⟩, ⟨dx1, dy1⟩⟩ := dataWindow
  obtain ⟨tx, ty⟩ := tileOrigin
  dsimp only at h1 h2 h3 h4 h5 h6 h7 h8 h9 h10
  have hD : Box2i.isEmpty ⟨⟨dx0, dy0⟩, ⟨dx1, dy1⟩⟩ = false := by
    simp only [Box2i.isEmpty, Bool.or_eq_false_iff, decide_eq_false_iff_not, not_lt]
    omega
  obtain ⟨hT0, hTT, hx0, hx1, hy2, hy3, hd0, hd1, hd2, hd3, hdw⟩ := hrange
  obtain ⟨harea, hsum⟩ := hdw hD
  simp only [Box2i.width, Box2i.height, intMin, intMax] at *
  have hbs : Box2i.size ⟨⟨mnx, mny⟩, ⟨mxx, mxy⟩⟩ = ⟨mxx - mnx, mxy - mny⟩ := by
    have : ¬ (mxx < mnx ∨ mxy < mny) := by omega
    simp [Box2i.size, Box2i.isEmpty, this]
  have hds : Box2i.size ⟨⟨dx0, dy0⟩, ⟨dx1, dy1⟩⟩ = ⟨dx1 - dx0, dy1 - dy0⟩ := by
    have : ¬ (dx1 < dx0 ∨ dy1 < dy0) := by omega
    simp [Box2i.size, Box2i.isEmpty, this]
  have hT : (1 : Int) ≤ (tileSize : Int) := by exact_mod_cast hT0
  have hW : (0 : Int) ≤ dx1 - dx0 + 1 := by omega
  have hWle := le_mul_of_one_le (dx1 - dx0 + 1) (dy1 - dy0 + 1) hW (by omega)
  have hHle := le_mul_of_one_le_left (dx1 - dx0 + 1) (dy1 - dy0 + 1) (by omega) (by omega)
  have s0 := row_offset_nonneg (dx1 - dx0 + 1) (y - dy0) 0 hW (by omega) (le_refl _)
  have s1 := row_offset_le_area (dx1 - dx0 + 1) (dy1 - dy0 + 1) (y - dy0) (dx1 - dx0 + 1)
    (by omega) (le_refl _) hW
  have d0 := row_offset_nonneg tileSize (y - ty) 0 (by omega) (by omega) (le_refl _)
  have d1 := row_offset_le tileSize (y - ty) tileSize (by omega) (le_refl _) (by omega)
  intro v hv
  simp only [ImagePrimitiveSource.rowInts, hbs, hds, List.mem_cons, List.mem_singleton,
    List.not_mem_nil, or_false] at hv
  simp only [isInt, intMin, intMax]
  rcases hv with rfl | rfl | rfl | rfl | rfl | rfl | rfl | rfl | rfl | rfl | rfl | rfl | rfl | rfl
    <;> omega

theorem prologue_allInt (tileSize : Nat) (dataWindow : Box2i) (tileOrigin : V2i)
    (hrange : ImagePrimitiveSource.noOverflow tileSize dataWindow tileOrigin) :
    allInt [(tileSize : Int) * (tileSize : Int), (tileSize : Int) - 1,
      tileOrigin.x + ((tileSize : Int) - 1), tileOrigin.y + ((tileSize : Int) - 1)] := by
  obtain ⟨hT0, hTT, hx0, hx1, hy2, hy3, _⟩ := hrange
  have hT : (1 : Int) ≤ (tileSize : Int) := by exact_mod_cast hT0
  have hle := le_mul_self_of_pos tileSize hT
  simp only [intMin, intMax] at *
  intro v hv
  simp only [List.mem_cons, List.mem_singleton, List.not_mem_nil, or_false] at hv
  simp only [isInt, intMin, intMax]
  rcases hv with rfl | rfl | rfl | rfl <;> omega

theorem computeChannelDataLoop_eq (tileSize : Nat) (image : ImagePrimitive)
    (channelName : String) (channel : List F32) (tileOrigin : V2i)
    (hch : image.getChannel channelName = some channel)
    (hrange : ImagePrimitiveSource.noOverflow tileSize image.dataWindow tileOrigin) :
    ∃ rowFuel0 fuel0 : Nat, ∀ rowFuel fuel : Nat, rowFuel0 ≤ rowFuel → fuel0 ≤ fuel →
      ImagePrimitiveSource.computeChannelDataLoop tileSize rowFuel fuel
          ⟨.imagePrimitive image⟩ channelName tileOrigin =
        some (ImagePrimitiveSource.computeChannelData tileSize ⟨.imagePrimitive image⟩
          channelName tileOrigin) := by
  obtain ⟨bound, hbound⟩ : ∃ b, b = boxIntersection
      ⟨tileOrigin, ⟨tileOrigin.x + ((tileSize : Int) - 1),
        tileOrigin.y + ((tileSize : Int) - 1)⟩⟩ image.dataWindow := ⟨_, rfl⟩
  have hints : ∀ y2, bound.min.y ≤ y2 → y2 ≤ bound.max.y →
      allInt (ImagePrimitiveSource.rowInts tileSize image.dataWindow
        ⟨tileOrigin, ⟨tileOrigin.x + ((tileSize : Int) - 1),
          tileOrigin.y + ((tileSize : Int) - 1)⟩⟩ bound y2) := by
    intro y2 h1 h2
    rcases boxIntersection_cases tileSize tileOrigin image.dataWindow with hb | hb
    · rw [← hbound] at hb
      rw [hb] at h1 h2
      simp only [Box2i.empty, intMin, intMax] at h1 h2
      omega
    · obtain ⟨mnx, mny, mxx, mxy, hb, g1, g2, g3, g4, g5, g6, g7, g8, g9, g10⟩ := hb
      rw [← hbound] at hb
      rw [hb] at h1 h2 ⊢
      exact rowInts_allInt tileSize image.dataWindow tileOrigin hrange mnx mny mxx mxy
        g1 g2 g3 g4 g5 g6 g7 g8 g9 g10 y2 h1 h2
  refine ⟨(bound.size.x + 1).toNat + 1, (bound.max.y + 1 - bound.min.y).toNat + 1, ?_⟩
  intro rowFuel fuel h1 h2
  simp only [ImagePrimitiveSource.computeChannelDataLoop,
    ImagePrimitiveSource.computeChannelData, Object.asImagePrimitive, hch, ← hbound,
    if_pos (prologue_allInt tileSize image.dataWindow tileOrigin hrange)]
  rw [copyRowsLoop_eq_copyRows tileSize channel image.dataWindow _ bound rowFuel (by omega)
    fuel bound.min.y _ (by omega) hints]
  cases ImagePrimitiveSource.copyRows tileSize channel image.dataWindow _ bound
      (bound.max.y + 1 - bound.min.y).toNat bound.min.y
      (List.replicate (tileSize * tileSize) 0) with
  | undefined => rfl
  | value r => rfl

/-! ## Grade: the loops on `int` agree with the loops on integers -/

theorem gradeRowLoop_eq_gradeRow (pow : F32 → F32 → F32) (A B invGamma : F32)
    (blackClamp whiteClamp : Bool) (inData : List F32) (tileMaxX : Int)
    (hmax : tileMaxX + 1 ≤ intMax) :
    ∀ (fuel : Nat) (x tilePtr outPtr : Int) (outData : List F32),
      (tileMaxX + 1 - x).toNat < fuel → intMin ≤ x →
      Grade.gradeRowLoop pow A B invGamma blackClamp whiteClamp inData tileMaxX fuel x
          tilePtr outPtr outData =
        some (Grade.gradeRow pow A B invGamma blackClamp whiteClamp inData
          (tileMaxX + 1 - x).toNat tilePtr outPtr outData) := by
  intro fuel
  induction fuel with
  | zero => intro x tp op out h; omega
  | succ fuel ih =>
    intro x tp op out h hx
    by_cases hs : x ≤ tileMaxX
    · have e : (tileMaxX + 1 - x).toNat = (tileMaxX + 1 - (x + 1)).toNat + 1 := by omega
      have hint : isInt (x + 1) := by
        simp only [isInt, intMin, intMax] at *
        omega
      rw [e]
      simp only [Grade.gradeRowLoop, Grade.gradeRow, if_pos hs, if_pos hint]
      cases vecGet inData tp with
      | undefined => rfl
      | value c =>
        dsimp only
        cases vecSet out op (Grade.gradePixel pow A B invGamma blackClamp whiteClamp c) with
        | undefined => rfl
        | value r2 => exact ih (x + 1) (tp + 1) (op + 1) r2 (by omega) (by omega)
    · have e : (tileMaxX + 1 - x).toNat = 0 := by omega
      rw [e]
      simp only [Grade.gradeRowLoop, Grade.gradeRow, if_neg hs]

theorem gradeRowsLoop_eq_gradeRows (pow : F32 → F32 → F32) (A B invGamma : F32)
    (blackClamp whiteClamp : Bool) (tileSize : Nat) (inData : FloatVectorDataPtr)
    (tileOrigin : V2i) (tile : Box2i) (rowFuel : Nat)
    (hmin : intMin ≤ tile.min.x) (hmax : tile.max.x + 1 ≤ intMax)
    (hrow : (tile.max.x + 1 - tile.min.x).toNat < rowFuel) :
    ∀ (fuel : Nat) (y : Int) (outData : List F32), (tile.max.y + 1 - y).toNat < fuel →
      (∀ y2, y ≤ y2 → y2 ≤ tile.max.y → allInt (Grade.rowInts tileSize tileOrigin tile y2)) →
      Grade.gradeRowsLoop pow A B invGamma blackClamp whiteClamp tileSize inData tileOrigin
          tile rowFuel fuel y outData =
        some (Grade.gradeRows pow A B invGamma blackClamp whiteClamp tileSize inData
          tileOrigin tile (tile.max.y + 1 - y).toNat y outData) := by
  intro fuel
  induction fuel with
  | zero => intro y out h; omega
  | succ fuel ih =>
    intro y out h hints
    by_cases hy : y ≤ tile.max.y
    · have e : (tile.max.y + 1 - y).toNat = (tile.max.y + 1 - (y + 1)).toNat + 1 := by omega
      rw [e]
      cases inData with
      | none => simp only [Grade.gradeRowsLoop, Grade.gradeRows, if_pos hy]
      | some readable =>
        simp only [Grade.gradeRowsLoop, Grade.gradeRows, if_pos hy,
          if_pos (hints y (le_refl _) hy)]
        rw [gradeRowLoop_eq_gradeRow pow A B invGamma blackClamp whiteClamp readable
          tile.max.x hmax rowFuel tile.min.x _ _ out hrow hmin]
        cases Grade.gradeRow pow A B invGamma blackClamp whiteClamp readable
            (tile.max.x + 1 - tile.min.x).toNat _ _ out with
        | undefined => rfl
        | value r2 =>
          exact ih (y + 1) r2 (by omega) (fun y2 h1 h2 => hints y2 (by omega) h2)
    · have e : (tile.max.y + 1 - y).toNat = 0 := by omega
      rw [e]
      simp only [Grade.gradeRowsLoop, Grade.gradeRows, if_neg hy]

theorem grade_rowInts_allInt (tileSize : Nat) (tileOrigin : V2i)
    (hrange : Grade.noOverflow tileSize tileOrigin) (y : Int)
    (hy0 : tileOrigin.y ≤ y) (hy1 : y ≤ tileOrigin.y + (tileSize : Int) - 1) :
    allInt (Grade.rowInts tileSize tileOrigin
      ⟨tileOrigin, ⟨tileOrigin.x + (tileSize : Int) - 1, tileOrigin.y + (tileSize : Int) - 1⟩⟩
      y) := by
  obtain ⟨hT0, hTT, hx0, hx1, hy2, hy3⟩ := hrange
  have hT : (1 : Int) ≤ (tileSize : Int) := by exact_mod_cast hT0
  have d0 := row_offset_nonneg tileSize (y - tileOrigin.y) 0 (by omega) (by omega) (le_refl _)
  have d1 := row_offset_le tileSize (y - tileOrigin.y) tileSize (by omega) (le_refl _)
    (by omega)
  simp only [intMin, intMax] at *
  intro v hv
  simp only [Grade.rowInts, List.mem_cons, List.mem_singleton, List.not_mem_nil, or_false]
    at hv
  simp only [isInt, intMin, intMax]
  rcases hv with rfl | rfl | rfl | rfl | rfl <;> omega

theorem grade_prologue_allInt (tileSize : Nat) (tileOrigin : V2i)
    (hrange : Grade.noOverflow tileSize tileOrigin) :
    allInt [tileOrigin.x + (tileSize : Int), tileOrigin.x + (tileSize : Int) - 1,
      tileOrigin.y + (tileSize : Int), tileOrigin.y + (tileSize : Int) - 1,
      (tileSize : Int) * (tileSize : Int)] := by
  obtain ⟨hT0, hTT, hx0, hx1, hy2, hy3⟩ := hrange
  have hT : (1 : Int) ≤ (tileSize : Int) := by exact_mod_cast hT0
  have hle := le_mul_self_of_pos tileSize hT
  simp only [intMin, intMax] at *
  intro v hv
  simp only [List.mem_cons, List.mem_singleton, List.not_mem_nil, or_false] at hv
  simp only [isInt, intMin, intMax]
  rcases hv with rfl | rfl | rfl | rfl | rfl <;> omega

theorem grade_computeChannelDataLoop_eq (pow : F32 → F32 → F32) (tileSize : Nat)
    (node : Grade) (inPlug : ImagePlug) (channelName : String) (tileOrigin : V2i)
    (context : Context) (hrange : Grade.noOverflow tileSize tileOrigin) :
    ∀ rowFuel fuel : Nat, tileSize < rowFuel → tileSize < fuel →
      Grade.computeChannelDataLoop pow tileSize rowFuel fuel node inPlug channelName
          tileOrigin context =
        some (Grade.computeChannelData pow tileSize node inPlug channelName tileOrigin
          context) := by
  intro rowFuel fuel h1 h2
  have hr := hrange
  obtain ⟨hT0, hTT, hx0, hx1, hy2, hy3⟩ := hr
  simp only [Grade.computeChannelDataLoop, Grade.computeChannelData,
    if_pos (grade_prologue_allInt tileSize tileOrigin hrange)]
  by_cases hg : F32.eq (node.gamma.get (Grade.channelIdx channelName)) 0 = true
  · simp only [hg, if_true]
  · simp only [hg, Bool.false_eq_true, if_false]
    rw [gradeRowsLoop_eq_gradeRows pow _ _ _ _ _ tileSize _ tileOrigin
      ⟨tileOrigin, ⟨tileOrigin.x + (tileSize : Int) - 1, tileOrigin.y + (tileSize : Int) - 1⟩⟩
      rowFuel hx0 (by dsimp only; omega) (by dsimp only; omega) fuel tileOrigin.y _
      (by dsimp only; omega)
      (fun y2 g1 g2 => grade_rowInts_allInt tileSize tileOrigin hrange y2 g1 g2)]
    cases Grade.gradeRows pow _ _ _ _ _ tileSize (inPlug.channelData channelName tileOrigin)
        tileOrigin
        ⟨tileOrigin, ⟨tileOrigin.x + (tileSize : Int) - 1, tileOrigin.y + (tileSize : Int) - 1⟩⟩
        (tileOrigin.y + (tileSize : Int) - 1 + 1 - tileOrigin.y).toNat tileOrigin.y
        (List.replicate (tileSize * tileSize) 0) with
    | undefined => rfl
    | value r => rfl

theorem length_copyRowsAccesses (tileSize : Nat) (dataWindow tileBound bound : Box2i) :
    ∀ (m : Nat) (y : Int),
      (ImagePrimitiveSource.copyRowsAccesses tileSize dataWindow tileBound bound m y).length
        = m := by
  intro m
  induction m with
  | zero => intro y; rfl
  | succ m ih =>
    intro y
    simp only [ImagePrimitiveSource.copyRowsAccesses, List.length_cons, ih]

/-! ## ImagePrimitiveSource: the tile of a partial overlap -/

/-- C1: for an image with a non-empty data window `D` whose requested channel is
a row-major buffer of `width(D) * height(D)` values, and for every tile origin
at which no `int` expression of the method overflows,
`ImagePrimitiveSource::computeChannelData` returns a tile of
`tileSize * tileSize` values in which the pixel `(x, y)` of the tile holds the
value of the channel at `(y - D.min.y) * width(D) + (x - D.min.x)`, which is an
index of the buffer, when `(x, y)` is inside `D`, and `0` when it is outside.
The tile is the one that the loops return when they are run by their own tests
on values of `int`, for every bound on their iterations that is large
enough. -/
theorem computeChannelData_partial_overlap (tileSize : Nat) (image : ImagePrimitive)
    (channelName : String) (channel : List F32) (tileOrigin : V2i)
    (hD : image.dataWindow.isEmpty = false)
    (hch : image.getChannel channelName = some channel)
    (hlen : (channel.length : Int) = image.dataWindow.width * image.dataWindow.height)
    (hrange : ImagePrimitiveSource.noOverflow tileSize image.dataWindow tileOrigin) :
    ∃ result,
      ImagePrimitiveSource.computeChannelData tileSize ⟨.imagePrimitive image⟩ channelName
        tileOrigin = .value (some result) ∧
      (∃ rowFuel0 fuel0 : Nat, ∀ rowFuel fuel : Nat, rowFuel0 ≤ rowFuel → fuel0 ≤ fuel →
        ImagePrimitiveSource.computeChannelDataLoop tileSize rowFuel fuel
          ⟨.imagePrimitive image⟩ channelName tileOrigin = some (.value (some result))) ∧
      result.length = tileSize * tileSize ∧
      ∀ x y : Int, tileOrigin.x ≤ x → x < tileOrigin.x + tileSize →
        tileOrigin.y ≤ y → y < tileOrigin.y + tileSize →
        (image.dataWindow.contains x y →
          ∃ v,
            channel[((y - image.dataWindow.min.y) * image.dataWindow.width
              + (x - image.dataWindow.min.x)).toNat]? = some v ∧
            result[((y - tileOrigin.y) * (tileSize : Int) + (x - tileOrigin.x)).toNat]?
              = some v) ∧
        (¬ image.dataWindow.contains x y →
          result[((y - tileOrigin.y) * (tileSize : Int) + (x - tileOrigin.x)).toNat]?
            = some 0) := by
  obtain ⟨result, hrun, hlenr, hidx⟩ :=
    copyRows_tile tileSize channel image.dataWindow tileOrigin hD hlen
  have hval : ImagePrimitiveSource.computeChannelData tileSize ⟨.imagePrimitive image⟩
      channelName tileOrigin = .value (some result) := by
    simp only [ImagePrimitiveSource.computeChannelData, Object.asImagePrimitive, hch]
    rw [hrun]
  obtain ⟨rowFuel0, fuel0, hloop⟩ :=
    computeChannelDataLoop_eq tileSize image channelName channel tileOrigin hch hrange
  refine ⟨result, hval, ⟨rowFuel0, fuel0, ?_⟩, hlenr, ?_⟩
  · intro rowFuel fuel h1 h2
    rw [hloop rowFuel fuel h1 h2, hval]
  · intro x y hx0 hx1 hy0 hy1
    have h := hidx x y hx0 hx1 hy0 hy1
    constructor
    · intro hin
      rw [if_pos hin] at h
      have hin2 := hin
      simp only [Box2i.contains] at hin2
      have hlt : ((y - image.dataWindow.min.y) * image.dataWindow.width
          + (x - image.dataWindow.min.x)).toNat < channel.length := by
        have h1 := row_offset_le_area image.dataWindow.width image.dataWindow.height
          (y - image.dataWindow.min.y) (x - image.dataWindow.min.x + 1)
          (by simp only [Box2i.height]; omega) (by simp only [Box2i.width]; omega)
          (by simp only [Box2i.width]; omega)
        have h2 := row_offset_nonneg image.dataWindow.width (y - image.dataWindow.min.y)
          (x - image.dataWindow.min.x) (by simp only [Box2i.width]; omega) (by omega) (by omega)
        omega
      exact ⟨channel[_], List.getElem?_eq_getElem hlt, by rw [h, List.getElem?_eq_getElem hlt]⟩
    · intro hout
      rw [if_neg hout] at h
      exact h

/-- Witness of C1: a 2x2 image at `(1,1)..(2,2)` read through the tile at the
origin of size 2. -/
theorem computeChannelData_partial_overlap_witness :
    ∃ result,
      ImagePrimitiveSource.computeChannelData 2
        ⟨.imagePrimitive ⟨⟨⟨0, 0⟩, ⟨2, 2⟩⟩, ⟨⟨1, 1⟩, ⟨2, 2⟩⟩,
          [("R", .floatVector [.fin 1, .fin 2, .fin 3, .fin 4])]⟩⟩ "R" ⟨0, 0⟩
        = .value (some result) ∧
      (∃ rowFuel0 fuel0 : Nat, ∀ rowFuel fuel : Nat, rowFuel0 ≤ rowFuel → fuel0 ≤ fuel →
        ImagePrimitiveSource.computeChannelDataLoop 2 rowFuel fuel
          ⟨.imagePrimitive ⟨⟨⟨0, 0⟩, ⟨2, 2⟩⟩, ⟨⟨1, 1⟩, ⟨2, 2⟩⟩,
            [("R", .floatVector [.fin 1, .fin 2, .fin 3, .fin 4])]⟩⟩ "R" ⟨0, 0⟩
          = some (.value (some result))) ∧
      result.length = 2 * 2 ∧ result[3]? = some (.fin 1) ∧ result[0]? = some 0 := by
  obtain ⟨result, hrun, hloop, hlen, hidx⟩ := computeChannelData_partial_overlap 2
    ⟨⟨⟨0, 0⟩, ⟨2, 2⟩⟩, ⟨⟨1, 1⟩, ⟨2, 2⟩⟩, [("R", .floatVector [.fin 1, .fin 2, .fin 3, .fin 4])]⟩
    "R" [.fin 1, .fin 2, .fin 3, .fin 4] ⟨0, 0⟩ (by decide) (by rfl) (by decide) (by decide)
  refine ⟨result, hrun, hloop, hlen, ?_, ?_⟩
  · obtain ⟨v, hv, hr⟩ := (hidx 1 1 (by decide) (by decide) (by decide) (by decide)).1 (by decide)
    have e : result[3]? = some v := hr
    have e2 : some (F32.fin 1) = some v := hv
    rw [e, e2]
  · exact (hidx 0 0 (by decide) (by decide) (by decide) (by decide)).2 (by decide)

/-! ## ImagePrimitiveSource: the copy loops on `int` end and stay in bounds -/

/-- C18: for an image whose requested channel has `width(D) * height(D)` values
for its data window `D`, and for every tile origin at which no `int` expression
of the method overflows, the two loops of
`ImagePrimitiveSource::computeChannelData`, run by their own tests
`srcIndex <= srcEndIndex` and `y<=bound.max.y` on values of `int`, end for
every bound on their iterations that is large enough and return a tile of
`tileSize * tileSize` values, without an access out of range. The accesses of
the loops are one row for each row of `tile ∩ D`, none when the intersection is
empty; every row makes exactly `width(tile ∩ D)` accesses; every source index
read is in `[0, width(D) * height(D))`, the range of the channel buffer, every
destination index written is in `[0, tileSize * tileSize)`, and the tile holds
at the destination index the value of the channel at the source index. The
accesses are those of the loops: on any two buffers the loops run without a
fault exactly when every access is in the range of the two buffers. -/
theorem copy_loops_in_bounds (tileSize : Nat) (image : ImagePrimitive)
    (channelName : String) (channel : List F32) (tileOrigin : V2i)
    (hch : image.getChannel channelName = some channel)
    (hlen : image.dataWindow.isEmpty = false →
      (channel.length : Int) = image.dataWindow.width * image.dataWindow.height)
    (hrange : ImagePrimitiveSource.noOverflow tileSize image.dataWindow tileOrigin) :
    ∃ result,
      (∃ rowFuel0 fuel0 : Nat, ∀ rowFuel fuel : Nat, rowFuel0 ≤ rowFuel → fuel0 ≤ fuel →
        ImagePrimitiveSource.computeChannelDataLoop tileSize rowFuel fuel
          ⟨.imagePrimitive image⟩ channelName tileOrigin = some (.value (some result))) ∧
      ImagePrimitiveSource.computeChannelData tileSize ⟨.imagePrimitive image⟩ channelName
        tileOrigin = .value (some result) ∧
      result.length = tileSize * tileSize ∧
      ((boxIntersection
          ⟨tileOrigin,
            ⟨tileOrigin.x + ((tileSize : Int) - 1), tileOrigin.y + ((tileSize : Int) - 1)⟩⟩
          image.dataWindow).isEmpty = true →
        ImagePrimitiveSource.computeChannelDataAccesses tileSize ⟨.imagePrimitive image⟩
          channelName tileOrigin = []) ∧
      ((boxIntersection
          ⟨tileOrigin,
            ⟨tileOrigin.x + ((tileSize : Int) - 1), tileOrigin.y + ((tileSize : Int) - 1)⟩⟩
          image.dataWindow).isEmpty = false →
        ((ImagePrimitiveSource.computeChannelDataAccesses tileSize ⟨.imagePrimitive image⟩
          channelName tileOrigin).length : Int) = (boxIntersection
          ⟨tileOrigin,
            ⟨tileOrigin.x + ((tileSize : Int) - 1), tileOrigin.y + ((tileSize : Int) - 1)⟩⟩
          image.dataWindow).height) ∧
      (∀ row ∈ ImagePrimitiveSource.computeChannelDataAccesses tileSize
          ⟨.imagePrimitive image⟩ channelName tileOrigin,
        (row.length : Int) = (boxIntersection
          ⟨tileOrigin,
            ⟨tileOrigin.x + ((tileSize : Int) - 1), tileOrigin.y + ((tileSize : Int) - 1)⟩⟩
          image.dataWindow).width ∧
        0 < row.length ∧
        ∀ p ∈ row, 0 ≤ p.1 ∧ p.1 < image.dataWindow.width * image.dataWindow.height ∧
          p.1 < channel.length ∧ 0 ≤ p.2 ∧ p.2 < ((tileSize * tileSize : Nat) : Int) ∧
          ∃ v, channel[p.1.toNat]? = some v ∧ result[p.2.toNat]? = some v) ∧
      (∀ ch r : List F32,
        (∃ out,
          ImagePrimitiveSource.copyRows tileSize ch image.dataWindow
            ⟨tileOrigin,
              ⟨tileOrigin.x + ((tileSize : Int) - 1), tileOrigin.y + ((tileSize : Int) - 1)⟩⟩
            (boxIntersection
              ⟨tileOrigin,
                ⟨tileOrigin.x + ((tileSize : Int) - 1), tileOrigin.y + ((tileSize : Int) - 1)⟩⟩
              image.dataWindow)
            ((boxIntersection
              ⟨tileOrigin,
                ⟨tileOrigin.x + ((tileSize : Int) - 1), tileOrigin.y + ((tileSize : Int) - 1)⟩⟩
              image.dataWindow).max.y + 1 - (boxIntersection
              ⟨tileOrigin,
                ⟨tileOrigin.x + ((tileSize : Int) - 1), tileOrigin.y + ((tileSize : Int) - 1)⟩⟩
              image.dataWindow).min.y).toNat
            (boxIntersection
              ⟨tileOrigin,
                ⟨tileOrigin.x + ((tileSize : Int) - 1), tileOrigin.y + ((tileSize : Int) - 1)⟩⟩
              image.dataWindow).min.y r = .value out ∧ out.length = r.length) ↔
        ∀ row ∈ ImagePrimitiveSource.computeChannelDataAccesses tileSize
            ⟨.imagePrimitive image⟩ channelName tileOrigin,
          ∀ p ∈ row, 0 ≤ p.1 ∧ p.1 < ch.length ∧ 0 ≤ p.2 ∧ p.2 < r.length) := by
  obtain ⟨result, hrun, hlenr⟩ :=
    computeChannelData_value tileSize image channelName channel tileOrigin hch hlen
  obtain ⟨rowFuel0, fuel0, hloop⟩ :=
    computeChannelDataLoop_eq tileSize image channelName channel tileOrigin hch hrange
  have hacc : ImagePrimitiveSource.computeChannelDataAccesses tileSize ⟨.imagePrimitive image⟩
      channelName tileOrigin =
      ImagePrimitiveSource.copyRowsAccesses tileSize image.dataWindow
        ⟨tileOrigin,
          ⟨tileOrigin.x + ((tileSize : Int) - 1), tileOrigin.y + ((tileSize : Int) - 1)⟩⟩
        (boxIntersection
          ⟨tileOrigin,
            ⟨tileOrigin.x + ((tileSize : Int) - 1), tileOrigin.y + ((tileSize : Int) - 1)⟩⟩
          image.dataWindow)
        ((boxIntersection
          ⟨tileOrigin,
            ⟨tileOrigin.x + ((tileSize : Int) - 1), tileOrigin.y + ((tileSize : Int) - 1)⟩⟩
          image.dataWindow).max.y + 1 - (boxIntersection
          ⟨tileOrigin,
            ⟨tileOrigin.x + ((tileSize : Int) - 1), tileOrigin.y + ((tileSize : Int) - 1)⟩⟩
          image.dataWindow).min.y).toNat
        (boxIntersection
          ⟨tileOrigin,
            ⟨tileOrigin.x + ((tileSize : Int) - 1), tileOrigin.y + ((tileSize : Int) - 1)⟩⟩
          image.dataWindow).min.y := by
    simp only [ImagePrimitiveSource.computeChannelDataAccesses, Object.asImagePrimitive, hch]
  refine ⟨result, ⟨rowFuel0, fuel0, ?_⟩, hrun, hlenr, ?_, ?_, ?_, ?_⟩
  · intro rowFuel fuel h1 h2
    rw [hloop rowFuel fuel h1 h2, hrun]
  · intro hempty
    rw [hacc]
    rcases boxIntersection_cases tileSize tileOrigin image.dataWindow with hb | hb
    · rw [hb]
      rfl
    · obtain ⟨mnx, mny, mxx, mxy, hb, h1, h2, h3, h4, h5, h6, h7, h8, h9, h10⟩ := hb
      rw [hb] at hempty
      simp only [Box2i.isEmpty, Bool.or_eq_true, decide_eq_true_eq] at hempty
      omega
  · intro hne
    rw [hacc, length_copyRowsAccesses]
    rcases boxIntersection_cases tileSize tileOrigin image.dataWindow with hb | hb
    · rw [hb] at hne
      exact absurd hne (by decide)
    · obtain ⟨mnx, mny, mxx, mxy, hb, h1, h2, h3, h4, h5, h6, h7, h8, h9, h10⟩ := hb
      rw [hb]
      simp only [Box2i.height]
      omega
  · intro row hrow
    rw [hacc] at hrow
    rcases boxIntersection_cases tileSize tileOrigin image.dataWindow with hb | hb
    · rw [hb] at hrow
      have e : (Box2i.empty.max.y + 1 - Box2i.empty.min.y).toNat = 0 := by decide
      rw [e] at hrow
      simp [ImagePrimitiveSource.copyRowsAccesses] at hrow
    · obtain ⟨mnx, mny, mxx, mxy, hb, h1, h2, h3, h4, h5, h6, h7, h8, h9, h10⟩ := hb
      have hD : image.dataWindow.isEmpty = false := by
        simp only [Box2i.isEmpty, Bool.or_eq_false_iff, decide_eq_false_iff_not, not_lt]
        omega
      have hl := hlen hD
      obtain ⟨result2, hrun2, _, hidx⟩ :=
        copyRows_tile tileSize channel image.dataWindow tileOrigin hD hl
      have hres : result2 = result := by
        have h2 : ImagePrimitiveSource.computeChannelData tileSize ⟨.imagePrimitive image⟩
            channelName tileOrigin = .value (some result2) := by
          simp only [ImagePrimitiveSource.computeChannelData, Object.asImagePrimitive, hch]
          rw [hrun2]
        rw [hrun] at h2
        cases h2
        rfl
      subst hres
      rw [hb] at hrow ⊢
      obtain ⟨y, hy0, hy1, hrowdef⟩ := mem_copyRowsAccesses tileSize image.dataWindow _ _ _ _
        row hrow
      have hbs : (Box2i.size ⟨⟨mnx, mny⟩, ⟨mxx, mxy⟩⟩).x = mxx - mnx := by
        have : ¬ (mxx < mnx ∨ mxy < mny) := by omega
        simp [Box2i.size, Box2i.isEmpty, this]
      have hds : image.dataWindow.size.x = image.dataWindow.max.x - image.dataWindow.min.x := by
        have : ¬ (image.dataWindow.max.x < image.dataWindow.min.x ∨
            image.dataWindow.max.y < image.dataWindow.min.y) := by omega
        simp [Box2i.size, Box2i.isEmpty, this]
      simp only [hbs, hds] at hrowdef
      dsimp only at hy0 hy1
      simp only [Box2i.width, Box2i.height] at hl hidx ⊢
      have hT : (0 : Int) ≤ (tileSize : Int) := Int.ofNat_nonneg _
      have hW : (0 : Int) ≤ image.dataWindow.max.x - image.dataWindow.min.x + 1 := by omega
      have hrl : row.length = (mxx - mnx + 1).toNat := by
        rw [hrowdef, length_copyRowAccesses]
      refine ⟨by omega, by omega, ?_⟩
      intro p hp
      rw [hrowdef] at hp
      obtain ⟨k, hk0, hk1, rfl⟩ := mem_copyRowAccesses _ _ _ p hp
      dsimp only
      have s0 := row_offset_nonneg (image.dataWindow.max.x - image.dataWindow.min.x + 1)
        (y - image.dataWindow.min.y) (mnx - image.dataWindow.min.x + k) hW (by omega)
        (by omega)
      have s1 := row_offset_le_area (image.dataWindow.max.x - image.dataWindow.min.x + 1)
        (image.dataWindow.max.y - image.dataWindow.min.y + 1) (y - image.dataWindow.min.y)
        (mnx - image.dataWindow.min.x + k + 1) (by omega) (by omega) hW
      have d0 := row_offset_nonneg tileSize (y - tileOrigin.y) (mnx - tileOrigin.x + k) hT
        (by omega) (by omega)
      have d1 := row_offset_le tileSize (y - tileOrigin.y) (mnx - tileOrigin.x + k + 1)
        (by omega) (by omega) hT
      have hTT : ((tileSize * tileSize : Nat) : Int) = (tileSize : Int) * (tileSize : Int) := by
        push_cast; ring
      refine ⟨by omega, by omega, by omega, by omega, by omega, ?_⟩
      have hcell := hidx (mnx + k) y (by omega) (by omega) (by omega) (by omega)
      have hin : image.dataWindow.contains (mnx + k) y := by
        simp only [Box2i.contains]
        omega
      rw [if_pos hin] at hcell
      have es : (y - image.dataWindow.min.y)
            * (image.dataWindow.max.x - image.dataWindow.min.x + 1)
          + mnx - image.dataWindow.min.x + k =
          (y - image.dataWindow.min.y) * (image.dataWindow.max.x - image.dataWindow.min.x + 1)
          + (mnx + k - image.dataWindow.min.x) := by ring
      have ed : (y - tileOrigin.y) * (tileSize : Int) + mnx - tileOrigin.x + k =
          (y - tileOrigin.y) * (tileSize : Int) + (mnx + k - tileOrigin.x) := by ring
      rw [es, ed]
      have hlt : ((y - image.dataWindow.min.y)
            * (image.dataWindow.max.x - image.dataWindow.min.x + 1)
          + (mnx + k - image.dataWindow.min.x)).toNat < channel.length := by omega
      exact ⟨channel[_], List.getElem?_eq_getElem hlt,
        by rw [hcell, List.getElem?_eq_getElem hlt]⟩
  · intro ch r
    rw [hacc]
    exact copyRows_value_iff tileSize ch image.dataWindow _ _ _ _ r

/-- Witness of C18: a 2x2 image at `(1,1)..(2,2)` read through the tile of size
2 at `(2, 2)`, which overlaps it in one pixel: the copy has one row, of the one
access from source index 3 to destination index 0, and the tile holds there the
last value of the channel. -/
theorem copy_loops_in_bounds_witness :
    ImagePrimitiveSource.computeChannelDataAccesses 2
        ⟨.imagePrimitive ⟨⟨⟨0, 0⟩, ⟨2, 2⟩⟩, ⟨⟨1, 1⟩, ⟨2, 2⟩⟩,
          [("R", .floatVector [.fin 1, .fin 2, .fin 3, .fin 4])]⟩⟩ "R" ⟨2, 2⟩ = [[(3, 0)]] ∧
    ∃ result,
      (∃ rowFuel0 fuel0 : Nat, ∀ rowFuel fuel : Nat, rowFuel0 ≤ rowFuel → fuel0 ≤ fuel →
        ImagePrimitiveSource.computeChannelDataLoop 2 rowFuel fuel
          ⟨.imagePrimitive ⟨⟨⟨0, 0⟩, ⟨2, 2⟩⟩, ⟨⟨1, 1⟩, ⟨2, 2⟩⟩,
            [("R", .floatVector [.fin 1, .fin 2, .fin 3, .fin 4])]⟩⟩ "R" ⟨2, 2⟩
          = some (.value (some result))) ∧
      ImagePrimitiveSource.computeChannelData 2
        ⟨.imagePrimitive ⟨⟨⟨0, 0⟩, ⟨2, 2⟩⟩, ⟨⟨1, 1⟩, ⟨2, 2⟩⟩,
          [("R", .floatVector [.fin 1, .fin 2, .fin 3, .fin 4])]⟩⟩ "R" ⟨2, 2⟩
        = .value (some result) ∧
      result.length = 2 * 2 ∧ result[0]? = some (.fin 4) := by
  have htrace : ImagePrimitiveSource.computeChannelDataAccesses 2
      ⟨.imagePrimitive ⟨⟨⟨0, 0⟩, ⟨2, 2⟩⟩, ⟨⟨1, 1⟩, ⟨2, 2⟩⟩,
        [("R", .floatVector [.fin 1, .fin 2, .fin 3, .fin 4])]⟩⟩ "R" ⟨2, 2⟩ = [[(3, 0)]] := by
    decide
  obtain ⟨result, hloop, hrun, hlen, _, _, hrows, _⟩ := copy_loops_in_bounds 2
    ⟨⟨⟨0, 0⟩, ⟨2, 2⟩⟩, ⟨⟨1, 1⟩, ⟨2, 2⟩⟩, [("R", .floatVector [.fin 1, .fin 2, .fin 3, .fin 4])]⟩
    "R" [.fin 1, .fin 2, .fin 3, .fin 4] ⟨2, 2⟩ rfl (fun _ => by decide) (by decide)
  refine ⟨htrace, result, hloop, hrun, hlen, ?_⟩
  rw [htrace] at hrows
  obtain ⟨_, _, hp⟩ := hrows [(3, 0)] (List.mem_singleton.mpr rfl)
  obtain ⟨_, _, _, _, _, v, hv, hr⟩ := hp (3, 0) (List.mem_singleton.mpr rfl)
  have e : result[0]? = some v := hr
  have e2 : some (F32.fin 4) = some v := hv
  rw [e, e2]

/-- At the last tile of a row of the plane, of size 2 at `x = 2147483646`, the
sum `(y - tileBound.min.y) * tileSize + bound.min.x` of `dstIndex` is not a
value of `int` on the second row, and the behaviour is undefined: such a tile
origin is outside `noOverflow`. -/
theorem source_overflow_at_last_tile :
    ImagePrimitiveSource.computeChannelDataLoop 2 8 8
        ⟨.imagePrimitive ⟨⟨⟨0, 0⟩, ⟨0, 0⟩⟩, ⟨⟨2147483646, 0⟩, ⟨2147483647, 1⟩⟩,
          [("R", .floatVector [.fin 1, .fin 2, .fin 3, .fin 4])]⟩⟩ "R" ⟨2147483646, 0⟩
      = some .undefined ∧
    ¬ ImagePrimitiveSource.noOverflow 2 ⟨⟨2147483646, 0⟩, ⟨2147483647, 1⟩⟩
      ⟨2147483646, 0⟩ := by
  decide

/-! ## Grade: the graded tile -/

/-- At the last tile of a row of the plane, of size 2 at `x = 2147483646`, the
sum `tileOrigin.x + tileSize` is not a value of `int`, and the behaviour is
undefined: such a tile origin is outside `noOverflow`. -/
theorem grade_overflow_at_last_tile :
    Grade.computeChannelDataLoop powUnused 2 8 8 Grade.identity
        (constantInput ⟨⟨0, 0⟩, ⟨1, 1⟩⟩ [.fin 1, .fin 2, .fin 3, .fin 4]) "R"
        ⟨2147483646, 0⟩ ⟨"R", ⟨2147483646, 0⟩⟩
      = some .undefined ∧
    ¬ Grade.noOverflow 2 ⟨2147483646, 0⟩ := by
  decide

theorem grade_loop_value (pow : F32 → F32 → F32) (tileSize : Nat) (node : Grade)
    (inPlug : ImagePlug) (channelName : String) (tileOrigin : V2i) (context : Context)
    (r : Outcome FloatVectorDataPtr)
    (hrange : Grade.noOverflow tileSize tileOrigin)
    (hval : Grade.computeChannelData pow tileSize node inPlug channelName tileOrigin context
      = r) :
    ∀ rowFuel fuel : Nat, tileSize < rowFuel → tileSize < fuel →
      Grade.computeChannelDataLoop pow tileSize rowFuel fuel node inPlug channelName
        tileOrigin context = some r := by
  intro rowFuel fuel h1 h2
  rw [grade_computeChannelDataLoop_eq pow tileSize node inPlug channelName tileOrigin context
    hrange rowFuel fuel h1 h2, hval]

/-- C4: for a channel whose gamma component is non-zero, an input tile of
`tileSize * tileSize` values and a tile origin at which no `int` expression of
the method overflows, `Grade::computeChannelData` returns a tile of the same
size in which every index `i` holds `clampW(clampB(f(A*in[i]+B)))`, with `A`,
`B`, `f` and the two clamps as in the specification and taken from the
components of that channel; when the gamma component is `1` this is the clamped
affine image of `in[i]`. The tile is the one that the loops return when they
are run by their own tests on counters of type `int`, for every bound above
`tileSize` on their iterations. The statement needs no hypothesis on
`whitePoint` and `blackPoint`. -/
theorem computeChannelData_formula (pow : F32 → F32 → F32) (tileSize : Nat) (node : Grade)
    (inPlug : ImagePlug) (channelName : String) (tileOrigin : V2i) (context : Context)
    (inData : List F32)
    (hin : inPlug.channelData channelName tileOrigin = some inData)
    (hlen : inData.length = tileSize * tileSize)
    (hgamma : node.gamma.get (Grade.channelIdx channelName) ≠ 0)
    (hrange : Grade.noOverflow tileSize tileOrigin) :
    ∃ out,
      Grade.computeChannelData pow tileSize node inPlug channelName tileOrigin context
        = .value (some out) ∧
      (∀ rowFuel fuel : Nat, tileSize < rowFuel → tileSize < fuel →
        Grade.computeChannelDataLoop pow tileSize rowFuel fuel node inPlug channelName
          tileOrigin context = some (.value (some out))) ∧
      out.length = tileSize * tileSize ∧
      ∀ i, i < tileSize * tileSize →
        ∃ x, inData[i]? = some x ∧
          out[i]? = some (specGrade pow node (Grade.channelIdx channelName) x) ∧
          (node.gamma.get (Grade.channelIdx channelName) = 1 →
            out[i]? = some (specGradeAffine node (Grade.channelIdx channelName) x)) := by
  have hval := computeChannelData_eq_map pow tileSize node inPlug channelName tileOrigin context
    inData hin hlen hgamma
  refine ⟨_, hval, grade_loop_value pow tileSize node inPlug channelName tileOrigin context _
    hrange hval, by rw [List.length_map, hlen], ?_⟩
  intro i hi
  have hlt : i < inData.length := by rw [hlen]; exact hi
  refine ⟨inData[i], List.getElem?_eq_getElem hlt, ?_, ?_⟩
  · rw [List.getElem?_map, List.getElem?_eq_getElem hlt]
    rfl
  · intro h1
    rw [List.getElem?_map, List.getElem?_eq_getElem hlt, ← specGrade_gamma_one pow node _ _ h1]
    rfl

/-- Witness of C4: the identity parameters with multiply 2 on a tile of size 1. -/
theorem computeChannelData_formula_witness :
    ∃ out,
      Grade.computeChannelData powUnused 1 { Grade.identity with multiply := ⟨.fin 2, 1, 1⟩ }
        (constantInput ⟨⟨0, 0⟩, ⟨0, 0⟩⟩ [.fin 3]) "R" ⟨0, 0⟩ ⟨"R", ⟨0, 0⟩⟩ = .value (some out) ∧
      (∀ rowFuel fuel : Nat, 1 < rowFuel → 1 < fuel →
        Grade.computeChannelDataLoop powUnused 1 rowFuel fuel
          { Grade.identity with multiply := ⟨.fin 2, 1, 1⟩ }
          (constantInput ⟨⟨0, 0⟩, ⟨0, 0⟩⟩ [.fin 3]) "R" ⟨0, 0⟩ ⟨"R", ⟨0, 0⟩⟩
          = some (.value (some out))) ∧
      out.length = 1 * 1 ∧
      ∀ i, i < 1 * 1 →
        ∃ x, [F32.fin 3][i]? = some x ∧
          out[i]? = some (specGrade powUnused { Grade.identity with multiply := ⟨.fin 2, 1, 1⟩ }
            (Grade.channelIdx "R") x) ∧
          (V3f.get (⟨1, 1, 1⟩ : V3f) (Grade.channelIdx "R") = 1 →
            out[i]? = some (specGradeAffine { Grade.identity with multiply := ⟨.fin 2, 1, 1⟩ }
              (Grade.channelIdx "R") x)) :=
  computeChannelData_formula powUnused 1 { Grade.identity with multiply := ⟨.fin 2, 1, 1⟩ }
    (constantInput ⟨⟨0, 0⟩, ⟨0, 0⟩⟩ [.fin 3]) "R" ⟨0, 0⟩ ⟨"R", ⟨0, 0⟩⟩ [.fin 3] rfl rfl
    (by decide!) (by decide)

/-- C5: with black point 0, white point 1, lift 0, gain 1, multiply 1, offset 0,
gamma 1 and both clamps off, for every channel name, every input tile of
`tileSize * tileSize` values and every tile origin at which no `int` expression
of the method overflows, `Grade::computeChannelData` returns the input tile,
and so do its loops when they are run by their own tests on counters of type
`int`, for every bound above `tileSize` on their iterations. The values are
compared as numbers: the sign of a zero is not part of `F32`. -/
theorem computeChannelData_identity (pow : F32 → F32 → F32) (tileSize : Nat)
    (inPlug : ImagePlug) (channelName : String) (tileOrigin : V2i) (context : Context)
    (inData : List F32)
    (hin : inPlug.channelData channelName tileOrigin = some inData)
    (hlen : inData.length = tileSize * tileSize)
    (hrange : Grade.noOverflow tileSize tileOrigin) :
    Grade.computeChannelData pow tileSize Grade.identity inPlug channelName tileOrigin context
      = .value (some inData) ∧
    ∀ rowFuel fuel : Nat, tileSize < rowFuel → tileSize < fuel →
      Grade.computeChannelDataLoop pow tileSize rowFuel fuel Grade.identity inPlug channelName
        tileOrigin context = some (.value (some inData)) := by
  have hgamma : Grade.identity.gamma.get (Grade.channelIdx channelName) ≠ 0 := by
    simp only [Grade.identity, V3f.get_const]
    decide!
  have hval : Grade.computeChannelData pow tileSize Grade.identity inPlug channelName
      tileOrigin context = .value (some inData) := by
    rw [computeChannelData_eq_map pow tileSize Grade.identity inPlug channelName tileOrigin
      context inData hin hlen hgamma]
    congr 2
    conv_rhs => rw [← List.map_id inData]
    apply List.map_congr_left
    intro x _
    exact specGrade_identity pow _ x
  exact ⟨hval, grade_loop_value pow tileSize Grade.identity inPlug channelName tileOrigin
    context _ hrange hval⟩

/-- Witness of C5: a tile of size 2 holding a negative value, a value above 1,
an infinity and a `NaN`, on channel `G`. -/
theorem computeChannelData_identity_witness :
    Grade.computeChannelData powUnused 2 Grade.identity
        (constantInput ⟨⟨0, 0⟩, ⟨1, 1⟩⟩ [.fin (-1), .fin 3, .posInf, .nan]) "G" ⟨2, 4⟩
        ⟨"G", ⟨2, 4⟩⟩
      = .value (some [.fin (-1), .fin 3, .posInf, .nan]) ∧
    Grade.computeChannelDataLoop powUnused 2 3 3 Grade.identity
        (constantInput ⟨⟨0, 0⟩, ⟨1, 1⟩⟩ [.fin (-1), .fin 3, .posInf, .nan]) "G" ⟨2, 4⟩
        ⟨"G", ⟨2, 4⟩⟩
      = some (.value (some [.fin (-1), .fin 3, .posInf, .nan])) :=
  ⟨(computeChannelData_identity powUnused 2
      (constantInput ⟨⟨0, 0⟩, ⟨1, 1⟩⟩ [.fin (-1), .fin 3, .posInf, .nan]) "G" ⟨2, 4⟩
      ⟨"G", ⟨2, 4⟩⟩ [.fin (-1), .fin 3, .posInf, .nan] rfl rfl (by decide)).1,
    (computeChannelData_identity powUnused 2
      (constantInput ⟨⟨0, 0⟩, ⟨1, 1⟩⟩ [.fin (-1), .fin 3, .posInf, .nan]) "G" ⟨2, 4⟩
      ⟨"G", ⟨2, 4⟩⟩ [.fin (-1), .fin 3, .posInf, .nan] rfl rfl (by decide)).2 3 3
      (by decide) (by decide)⟩

/-- C6, amended: two requests to the channel data output of a `Grade` node whose
channel names select the same colour component (both `R`, both `G`, or both
neither), at tile origins at which no `int` expression of the method overflows,
and in which every contributor folded in by `hashChannelDataPlug` is equal, the
upstream channel data being equal in value, are computed to equal results,
whatever their channel names and tile origins; the loops run by their own tests
on counters of type `int` return that same result for both requests. -/
theorem cache_correctness_same_component (pow : F32 → F32 → F32) (tileSize : Nat)
    (node1 node2 : Grade) (in1 in2 : ImagePlug) (ch1 ch2 : String) (t1 t2 : V2i)
    (hhash : Grade.hashChannelDataPlug node1 in1 ⟨ch1, t1⟩ [] =
      Grade.hashChannelDataPlug node2 in2 ⟨ch2, t2⟩ [])
    (hval : in1.channelData ch1 t1 = in2.channelData ch2 t2)
    (hidx : Grade.channelIdx ch1 = Grade.channelIdx ch2)
    (hrange1 : Grade.noOverflow tileSize t1) (hrange2 : Grade.noOverflow tileSize t2) :
    Grade.computeChannelData pow tileSize node1 in1 ch1 t1 ⟨ch1, t1⟩ =
      Grade.computeChannelData pow tileSize node2 in2 ch2 t2 ⟨ch2, t2⟩ ∧
    ∀ rowFuel fuel : Nat, tileSize < rowFuel → tileSize < fuel →
      Grade.computeChannelDataLoop pow tileSize rowFuel fuel node1 in1 ch1 t1 ⟨ch1, t1⟩ =
        some (Grade.computeChannelData pow tileSize node1 in1 ch1 t1 ⟨ch1, t1⟩) ∧
      Grade.computeChannelDataLoop pow tileSize rowFuel fuel node2 in2 ch2 t2 ⟨ch2, t2⟩ =
        some (Grade.computeChannelData pow tileSize node1 in1 ch1 t1 ⟨ch1, t1⟩) := by
  have hnode : node1 = node2 := by
    simp only [Grade.hashChannelDataPlug, List.nil_append, List.cons_append, List.cons.injEq,
      Prod.mk.injEq, HashPart.colour.injEq, HashPart.flag.injEq, true_and, and_true] at hhash
    obtain ⟨_, h1, h2, h3, h4, h5, h6, h7, h8, h9⟩ := hhash
    cases node1
    cases node2
    simp only at h1 h2 h3 h4 h5 h6 h7 h8 h9
    subst h1 h2 h3 h4 h5 h6 h7 h8 h9
    rfl
  subst hnode
  have heq := computeChannelData_congr pow tileSize node1 in1 in2 ch1 ch2 t1 t2 hval hidx
  refine ⟨heq, ?_⟩
  intro rowFuel fuel h1 h2
  exact ⟨grade_loop_value pow tileSize node1 in1 ch1 t1 ⟨ch1, t1⟩ _ hrange1 rfl rowFuel fuel
      h1 h2,
    grade_loop_value pow tileSize node1 in2 ch2 t2 ⟨ch2, t2⟩ _ hrange2 heq.symm rowFuel fuel
      h1 h2⟩

/-- Witness of C6, amended: channels `B` and `A` both select component 2. -/
theorem cache_correctness_same_component_witness :
    Grade.computeChannelData powUnused 1 { Grade.identity with multiply := ⟨1, .fin 2, 1⟩ }
        (constantInput ⟨⟨0, 0⟩, ⟨0, 0⟩⟩ [.fin 1]) "B" ⟨0, 0⟩ ⟨"B", ⟨0, 0⟩⟩ =
      Grade.computeChannelData powUnused 1 { Grade.identity with multiply := ⟨1, .fin 2, 1⟩ }
        (constantInput ⟨⟨0, 0⟩, ⟨0, 0⟩⟩ [.fin 1]) "A" ⟨1, 0⟩ ⟨"A", ⟨1, 0⟩⟩ :=
  (cache_correctness_same_component powUnused 1
    { Grade.identity with multiply := ⟨1, .fin 2, 1⟩ }
    { Grade.identity with multiply := ⟨1, .fin 2, 1⟩ }
    (constantInput ⟨⟨0, 0⟩, ⟨0, 0⟩⟩ [.fin 1]) (constantInput ⟨⟨0, 0⟩, ⟨0, 0⟩⟩ [.fin 1])
    "B" "A" ⟨0, 0⟩ ⟨1, 0⟩ rfl rfl (by decide) (by decide) (by decide)).1

/-- C12: on channel `R`, with the `R` component of multiply at 2 and every other
parameter at its identity value, an input pixel of value 1.5 comes out as 1
when `whiteClamp` is set and as 3 when it is not, at every index of every tile
that holds it, whatever `blackClamp` is, at every tile origin at which no `int`
expression of the method overflows; the tile is the one that the loops return
when they are run by their own tests on counters of type `int`. -/
theorem computeChannelData_clamp_scenario (pow : F32 → F32 → F32) (tileSize : Nat)
    (m2 m3 : F32) (b w : Bool) (inPlug : ImagePlug) (tileOrigin : V2i) (context : Context)
    (inData : List F32) (i : Nat)
    (hin : inPlug.channelData "R" tileOrigin = some inData)
    (hlen : inData.length = tileSize * tileSize)
    (hi : inData[i]? = some (.fin (3 / 2)))
    (hrange : Grade.noOverflow tileSize tileOrigin) :
    ∃ out,
      Grade.computeChannelData pow tileSize
        { Grade.identity with multiply := ⟨.fin 2, m2, m3⟩, blackClamp := b, whiteClamp := w }
        inPlug "R" tileOrigin context = .value (some out) ∧
      (∀ rowFuel fuel : Nat, tileSize < rowFuel → tileSize < fuel →
        Grade.computeChannelDataLoop pow tileSize rowFuel fuel
          { Grade.identity with multiply := ⟨.fin 2, m2, m3⟩, blackClamp := b, whiteClamp := w }
          inPlug "R" tileOrigin context = some (.value (some out))) ∧
      out[i]? = some (if w = true then 1 else .fin 3) := by
  have hgamma : ({ Grade.identity with
      multiply := ⟨.fin 2, m2, m3⟩, blackClamp := b, whiteClamp := w } : Grade).gamma.get
      (Grade.channelIdx "R") ≠ 0 := by
    simp only [Grade.identity, V3f.get_const]
    decide!
  have hval := computeChannelData_eq_map pow tileSize _ inPlug "R" tileOrigin context inData hin
    hlen hgamma
  refine ⟨_, hval, grade_loop_value pow tileSize _ inPlug "R" tileOrigin context _ hrange hval,
    ?_⟩
  rw [List.getElem?_map, hi]
  have hidx : Grade.channelIdx "R" = 0 := by decide
  rw [hidx]
  exact congrArg some (specGrade_clamp_scenario pow m2 m3 b w)

/-- Witness of C12: a tile of size 1 holding 1.5, with `whiteClamp` set; the
output pixel is 1. -/
theorem computeChannelData_clamp_scenario_witness :
    ∃ out,
      Grade.computeChannelData powUnused 1
        { Grade.identity with
          multiply := ⟨.fin 2, 1, 1⟩, blackClamp := false, whiteClamp := true }
        (constantInput ⟨⟨0, 0⟩, ⟨0, 0⟩⟩ [.fin (3 / 2)]) "R" ⟨0, 0⟩ ⟨"R", ⟨0, 0⟩⟩
        = .value (some out) ∧
      (∀ rowFuel fuel : Nat, 1 < rowFuel → 1 < fuel →
        Grade.computeChannelDataLoop powUnused 1 rowFuel fuel
          { Grade.identity with
            multiply := ⟨.fin 2, 1, 1⟩, blackClamp := false, whiteClamp := true }
          (constantInput ⟨⟨0, 0⟩, ⟨0, 0⟩⟩ [.fin (3 / 2)]) "R" ⟨0, 0⟩ ⟨"R", ⟨0, 0⟩⟩
          = some (.value (some out))) ∧
      out[0]? = some (if true = true then 1 else .fin 3) :=
  computeChannelData_clamp_scenario powUnused 1 1 1 false true
    (constantInput ⟨⟨0, 0⟩, ⟨0, 0⟩⟩ [.fin (3 / 2)]) ⟨0, 0⟩ ⟨"R", ⟨0, 0⟩⟩ [.fin (3 / 2)] 0
    rfl rfl rfl (by decide)

/-- C15, amended: for a channel with non-zero gamma, an input tile of
`tileSize * tileSize` values and a tile origin at which no `int` expression of
the method overflows, whatever the power step produces, if `blackClamp` is set
then no value of the tile that `Grade::computeChannelData` returns is below
`0`, each being `>= 0` or `NaN`, and if `whiteClamp` is set then no value is
above `1`, each being `<= 1` or `NaN`; the tile is the one that the loops
return when they are run by their own tests on counters of type `int`. -/
theorem clamp_range (pow : F32 → F32 → F32) (tileSize : Nat) (node : Grade)
    (inPlug : ImagePlug) (channelName : String) (tileOrigin : V2i) (context : Context)
    (inData : List F32)
    (hin : inPlug.channelData channelName tileOrigin = some inData)
    (hlen : inData.length = tileSize * tileSize)
    (hgamma : node.gamma.get (Grade.channelIdx channelName) ≠ 0)
    (hrange : Grade.noOverflow tileSize tileOrigin) :
    ∃ out,
      Grade.computeChannelData pow tileSize node inPlug channelName tileOrigin context
        = .value (some out) ∧
      (∀ rowFuel fuel : Nat, tileSize < rowFuel → tileSize < fuel →
        Grade.computeChannelDataLoop pow tileSize rowFuel fuel node inPlug channelName
          tileOrigin context = some (.value (some out))) ∧
      out.length = tileSize * tileSize ∧
      (node.blackClamp = true →
        ∀ v ∈ out, F32.lt v 0 = false ∧ (v = .nan ∨ F32.ge v 0 = true)) ∧
      (node.whiteClamp = true →
        ∀ v ∈ out, F32.gt v 1 = false ∧ (v = .nan ∨ F32.ge 1 v = true)) := by
  have hval := computeChannelData_eq_map pow tileSize node inPlug channelName tileOrigin context
    inData hin hlen hgamma
  refine ⟨_, hval, grade_loop_value pow tileSize node inPlug channelName tileOrigin context _
    hrange hval, by rw [List.length_map, hlen], ?_, ?_⟩
  · intro hb v hv
    obtain ⟨x, _, rfl⟩ := List.mem_map.mp hv
    have h := (specGrade_clamped pow node (Grade.channelIdx channelName) x).1 hb
    exact ⟨h, F32.lt_zero_false_cases _ h⟩
  · intro hw v hv
    obtain ⟨x, _, rfl⟩ := List.mem_map.mp hv
    have h := (specGrade_clamped pow node (Grade.channelIdx channelName) x).2 hw
    exact ⟨h, F32.gt_one_false_cases _ h⟩

/-- Witness of C15, amended: both clamps set on a tile of size 2 that holds a
negative value, a value above 1, an infinity and a `NaN`. -/
theorem clamp_range_witness :
    ∃ out,
      Grade.computeChannelData powUnused 2
        { Grade.identity with blackClamp := true, whiteClamp := true }
        (constantInput ⟨⟨0, 0⟩, ⟨1, 1⟩⟩ [.fin (-1), .fin 3, .posInf, .nan]) "R" ⟨0, 0⟩
        ⟨"R", ⟨0, 0⟩⟩ = .value (some out) ∧
      (∀ rowFuel fuel : Nat, 2 < rowFuel → 2 < fuel →
        Grade.computeChannelDataLoop powUnused 2 rowFuel fuel
          { Grade.identity with blackClamp := true, whiteClamp := true }
          (constantInput ⟨⟨0, 0⟩, ⟨1, 1⟩⟩ [.fin (-1), .fin 3, .posInf, .nan]) "R" ⟨0, 0⟩
          ⟨"R", ⟨0, 0⟩⟩ = some (.value (some out))) ∧
      out.length = 2 * 2 ∧
      (true = true → ∀ v ∈ out, F32.lt v 0 = false ∧ (v = .nan ∨ F32.ge v 0 = true)) ∧
      (true = true → ∀ v ∈ out, F32.gt v 1 = false ∧ (v = .nan ∨ F32.ge 1 v = true)) :=
  clamp_range powUnused 2 { Grade.identity with blackClamp := true, whiteClamp := true }
    (constantInput ⟨⟨0, 0⟩, ⟨1, 1⟩⟩ [.fin (-1), .fin 3, .posInf, .nan]) "R" ⟨0, 0⟩
    ⟨"R", ⟨0, 0⟩⟩ [.fin (-1), .fin 3, .posInf, .nan] rfl rfl (by decide!) (by decide)

/-- C21: the constructor of `Grade` leaves black point 0, white point 1, lift 0,
gain 1, multiply 1, offset 0, gamma 1, `blackClamp` set and `whiteClamp` not
set. With these values, for every channel, every input tile of
`tileSize * tileSize` values and every tile origin at which no `int` expression
of the method overflows, `Grade::computeChannelData` returns at every index
`max(in[i], 0)`, the maximum being that of `std::max`: a pixel that is `>= 0`
comes out unchanged and a pixel that is `< 0` comes out as `0`. The tile is the
one that the loops return when they are run by their own tests on counters of
type `int`. The values are compared as numbers: the sign of a zero is not part
of `F32`. -/
theorem computeChannelData_new_node (pow : F32 → F32 → F32) (tileSize : Nat)
    (inPlug : ImagePlug) (channelName : String) (tileOrigin : V2i) (context : Context)
    (inData : List F32)
    (hin : inPlug.channelData channelName tileOrigin = some inData)
    (hlen : inData.length = tileSize * tileSize)
    (hrange : Grade.noOverflow tileSize tileOrigin) :
    Grade.new ⟨0, 0, 0⟩ false =
      ⟨⟨0, 0, 0⟩, ⟨1, 1, 1⟩, ⟨0, 0, 0⟩, ⟨1, 1, 1⟩, ⟨1, 1, 1⟩, ⟨0, 0, 0⟩, ⟨1, 1, 1⟩, true, false⟩ ∧
    ∃ out,
      Grade.computeChannelData pow tileSize (Grade.new ⟨0, 0, 0⟩ false) inPlug channelName
        tileOrigin context = .value (some out) ∧
      (∀ rowFuel fuel : Nat, tileSize < rowFuel → tileSize < fuel →
        Grade.computeChannelDataLoop pow tileSize rowFuel fuel (Grade.new ⟨0, 0, 0⟩ false)
          inPlug channelName tileOrigin context = some (.value (some out))) ∧
      out.length = tileSize * tileSize ∧
      ∀ i, i < tileSize * tileSize →
        ∃ x, inData[i]? = some x ∧ out[i]? = some (specMax x 0) ∧
          (F32.ge x 0 = true → out[i]? = some x) ∧
          (F32.lt x 0 = true → out[i]? = some 0) := by
  have hgamma : (Grade.new ⟨0, 0, 0⟩ false).gamma.get (Grade.channelIdx channelName) ≠ 0 := by
    simp only [Grade.new, V3f.get_const]
    decide!
  have hval := computeChannelData_eq_map pow tileSize _ inPlug channelName tileOrigin context
    inData hin hlen hgamma
  refine ⟨rfl, _, hval, grade_loop_value pow tileSize _ inPlug channelName tileOrigin context _
    hrange hval, by rw [List.length_map, hlen], ?_⟩
  intro i hi
  have hlt : i < inData.length := by rw [hlen]; exact hi
  have hout : (inData.map (specGrade pow (Grade.new ⟨0, 0, 0⟩ false)
      (Grade.channelIdx channelName)))[i]? = some (specMax inData[i] 0) := by
    rw [List.getElem?_map, List.getElem?_eq_getElem hlt, Option.map_some', specGrade_new]
  refine ⟨inData[i], List.getElem?_eq_getElem hlt, hout, ?_, ?_⟩
  · intro hge
    rw [hout, specMax, if_neg (by rw [F32.lt_zero_of_ge_zero _ hge]; decide)]
  · intro hneg
    rw [hout, specMax, if_pos hneg]

/-- Witness of C21: a tile of size 2 on channel `B` holding a negative value,
zero, a value above 1 and a `NaN`; the negative value becomes `0` and the other
three come out unchanged. -/
theorem computeChannelData_new_node_witness :
    ∃ out,
      Grade.computeChannelData powUnused 2 (Grade.new ⟨0, 0, 0⟩ false)
        (constantInput ⟨⟨0, 0⟩, ⟨1, 1⟩⟩ [.fin (-1), 0, .fin 3, .nan]) "B" ⟨0, 0⟩ ⟨"B", ⟨0, 0⟩⟩
        = .value (some out) ∧
      (∀ rowFuel fuel : Nat, 2 < rowFuel → 2 < fuel →
        Grade.computeChannelDataLoop powUnused 2 rowFuel fuel (Grade.new ⟨0, 0, 0⟩ false)
          (constantInput ⟨⟨0, 0⟩, ⟨1, 1⟩⟩ [.fin (-1), 0, .fin 3, .nan]) "B" ⟨0, 0⟩
          ⟨"B", ⟨0, 0⟩⟩ = some (.value (some out))) ∧
      out.length = 2 * 2 ∧
      ∀ i, i < 2 * 2 →
        ∃ x, [F32.fin (-1), 0, .fin 3, .nan][i]? = some x ∧ out[i]? = some (specMax x 0) ∧
          (F32.ge x 0 = true → out[i]? = some x) ∧
          (F32.lt x 0 = true → out[i]? = some 0) :=
  (computeChannelData_new_node powUnused 2
    (constantInput ⟨⟨0, 0⟩, ⟨1, 1⟩⟩ [.fin (-1), 0, .fin 3, .nan]) "B" ⟨0, 0⟩ ⟨"B", ⟨0, 0⟩⟩
    [.fin (-1), 0, .fin 3, .nan] rfl rfl (by decide)).2

/-! ## Grade: the component of the colour parameters that grades a channel -/

theorem specGrade_zero (pow : F32 → F32 → F32) (node : Grade) :
    specGrade pow node 0 = specGradeBy pow node V3f.x := rfl

theorem specGrade_one (pow : F32 → F32 → F32) (node : Grade) :
    specGrade pow node 1 = specGradeBy pow node V3f.y := rfl

theorem specGrade_two (pow : F32 → F32 → F32) (node : Grade) :
    specGrade pow node 2 = specGradeBy pow node V3f.z := rfl

theorem channelIdx_other (c : String) (h1 : c ≠ "R") (h2 : c ≠ "G") :
    Grade.channelIdx c = 2 := by
  simp [Grade.channelIdx, h1, h2]

theorem computeChannelData_component (pow : F32 → F32 → F32) (tileSize : Nat) (node : Grade)
    (inPlug : ImagePlug) (c : String) (t : V2i) (inData : List F32) (k : Nat)
    (hin : inPlug.channelData c t = some inData)
    (hlen : inData.length = tileSize * tileSize)
    (hk : Grade.channelIdx c = k) :
    (node.gamma.get k ≠ 0 →
      Grade.computeChannelData pow tileSize node inPlug c t ⟨c, t⟩
        = .value (some (inData.map (specGrade pow node k)))) ∧
    (node.gamma.get k = 0 →
      Grade.computeChannelData pow tileSize node inPlug c t ⟨c, t⟩
        = .value (some inData)) := by
  subst hk
  constructor
  · intro hg
    exact computeChannelData_eq_map pow tileSize node inPlug c t ⟨c, t⟩ inData hin hlen hg
  · intro hg
    simp only [Grade.computeChannelData, F32.eq_zero_of_eq _ hg, if_true, hin]

/-- C20: `Grade::computeChannelData` takes component 0 of the colour parameters
for the channel name `R`, component 1 for `G`, and component 2 for every other
name, `B`, `A` and `Z` among them, the components 0, 1 and 2 of a colour being
its red, green and blue. For an input tile of `tileSize * tileSize` values and
a tile origin at which no `int` expression of the method overflows, the tile
returned for `R` is the input graded with the red components of the seven
colour parameters, the one for `G` with the green components, and the one for
any other channel name with the blue components; the zero-gamma test reads the
same component, and passes the input through when that component of gamma is
`0`. The loops run by their own tests on counters of type `int` return the same
result, and a node that differs only in the components that are not selected
gives the same result. -/
theorem channel_component_mapping (pow : F32 → F32 → F32) (tileSize : Nat) (node : Grade)
    (inPlug : ImagePlug) (c : String) (t : V2i) (inData : List F32)
    (hin : inPlug.channelData c t = some inData)
    (hlen : inData.length = tileSize * tileSize)
    (hrange : Grade.noOverflow tileSize t) :
    (Grade.channelIdx "R" = 0 ∧ Grade.channelIdx "G" = 1 ∧ Grade.channelIdx "B" = 2 ∧
      Grade.channelIdx "A" = 2 ∧ Grade.channelIdx "Z" = 2 ∧
      (c ≠ "R" → c ≠ "G" → Grade.channelIdx c = 2)) ∧
    (∀ v : V3f, v.get 0 = v.x ∧ v.get 1 = v.y ∧ v.get 2 = v.z) ∧
    (c = "R" →
      (node.gamma.x ≠ 0 →
        Grade.computeChannelData pow tileSize node inPlug c t ⟨c, t⟩
          = .value (some (inData.map (specGradeBy pow node V3f.x)))) ∧
      (node.gamma.x = 0 →
        Grade.computeChannelData pow tileSize node inPlug c t ⟨c, t⟩
          = .value (some inData))) ∧
    (c = "G" →
      (node.gamma.y ≠ 0 →
        Grade.computeChannelData pow tileSize node inPlug c t ⟨c, t⟩
          = .value (some (inData.map (specGradeBy pow node V3f.y)))) ∧
      (node.gamma.y = 0 →
        Grade.computeChannelData pow tileSize node inPlug c t ⟨c, t⟩
          = .value (some inData))) ∧
    (c ≠ "R" → c ≠ "G" →
      (node.gamma.z ≠ 0 →
        Grade.computeChannelData pow tileSize node inPlug c t ⟨c, t⟩
          = .value (some (inData.map (specGradeBy pow node V3f.z)))) ∧
      (node.gamma.z = 0 →
        Grade.computeChannelData pow tileSize node inPlug c t ⟨c, t⟩
          = .value (some inData))) ∧
    (∀ rowFuel fuel : Nat, tileSize < rowFuel → tileSize < fuel →
      Grade.computeChannelDataLoop pow tileSize rowFuel fuel node inPlug c t ⟨c, t⟩
        = some (Grade.computeChannelData pow tileSize node inPlug c t ⟨c, t⟩)) ∧
    (∀ node2 : Grade,
      node2.blackPoint.get (Grade.channelIdx c) = node.blackPoint.get (Grade.channelIdx c) →
      node2.whitePoint.get (Grade.channelIdx c) = node.whitePoint.get (Grade.channelIdx c) →
      node2.lift.get (Grade.channelIdx c) = node.lift.get (Grade.channelIdx c) →
      node2.gain.get (Grade.channelIdx c) = node.gain.get (Grade.channelIdx c) →
      node2.multiply.get (Grade.channelIdx c) = node.multiply.get (Grade.channelIdx c) →
      node2.offset.get (Grade.channelIdx c) = node.offset.get (Grade.channelIdx c) →
      node2.gamma.get (Grade.channelIdx c) = node.gamma.get (Grade.channelIdx c) →
      node2.blackClamp = node.blackClamp → node2.whiteClamp = node.whiteClamp →
      Grade.computeChannelData pow tileSize node2 inPlug c t ⟨c, t⟩ =
        Grade.computeChannelData pow tileSize node inPlug c t ⟨c, t⟩) := by
  refine ⟨⟨by decide, by decide, by decide, by decide, by decide, channelIdx_other c⟩, ?_, ?_,
    ?_, ?_, ?_, ?_⟩
  · intro v
    exact ⟨rfl, rfl, rfl⟩
  · intro hc
    have hk : Grade.channelIdx c = 0 := by rw [hc]; decide
    have h := computeChannelData_component pow tileSize node inPlug c t inData 0 hin hlen hk
    rw [specGrade_zero] at h
    exact h
  · intro hc
    have hk : Grade.channelIdx c = 1 := by rw [hc]; decide
    have h := computeChannelData_component pow tileSize node inPlug c t inData 1 hin hlen hk
    rw [specGrade_one] at h
    exact h
  · intro h1 h2
    have h := computeChannelData_component pow tileSize node inPlug c t inData 2 hin hlen
      (channelIdx_other c h1 h2)
    rw [specGrade_two] at h
    exact h
  · exact grade_loop_value pow tileSize node inPlug c t ⟨c, t⟩ _ hrange rfl
  · intro node2 h1 h2 h3 h4 h5 h6 h7 h8 h9
    simp only [Grade.computeChannelData, h1, h2, h3, h4, h5, h6, h7, h8, h9]

/-- Witness of C20: with multiply `(2, 3, 4)` and the other parameters at their
identity values, the tile `[1]` comes out as `[2]` on channel `R`, as `[3]` on
channel `G` and as `[4]` on channel `A`. -/
theorem channel_component_mapping_witness :
    Grade.computeChannelData powUnused 1
        { Grade.identity with multiply := ⟨.fin 2, .fin 3, .fin 4⟩ }
        (constantInput ⟨⟨0, 0⟩, ⟨0, 0⟩⟩ [.fin 1]) "R" ⟨0, 0⟩ ⟨"R", ⟨0, 0⟩⟩
      = .value (some [.fin 2]) ∧
    Grade.computeChannelData powUnused 1
        { Grade.identity with multiply := ⟨.fin 2, .fin 3, .fin 4⟩ }
        (constantInput ⟨⟨0, 0⟩, ⟨0, 0⟩⟩ [.fin 1]) "G" ⟨0, 0⟩ ⟨"G", ⟨0, 0⟩⟩
      = .value (some [.fin 3]) ∧
    Grade.computeChannelData powUnused 1
        { Grade.identity with multiply := ⟨.fin 2, .fin 3, .fin 4⟩ }
        (constantInput ⟨⟨0, 0⟩, ⟨0, 0⟩⟩ [.fin 1]) "A" ⟨0, 0⟩ ⟨"A", ⟨0, 0⟩⟩
      = .value (some [.fin 4]) ∧
    Grade.computeChannelData powUnused 1 { Grade.identity with gamma := ⟨1, 1, 0⟩ }
        (constantInput ⟨⟨0, 0⟩, ⟨0, 0⟩⟩ [.fin 5]) "Z" ⟨0, 0⟩ ⟨"Z", ⟨0, 0⟩⟩
      = .value (some [.fin 5]) :=
  ⟨(((channel_component_mapping powUnused 1
        { Grade.identity with multiply := ⟨.fin 2, .fin 3, .fin 4⟩ }
        (constantInput ⟨⟨0, 0⟩, ⟨0, 0⟩⟩ [.fin 1]) "R" ⟨0, 0⟩ [.fin 1] rfl rfl
        (by decide)).2.2.1 rfl).1 (by decide!)).trans
      (congrArg (fun l => Outcome.value (some l)) (by decide!)),
    (((channel_component_mapping powUnused 1
        { Grade.identity with multiply := ⟨.fin 2, .fin 3, .fin 4⟩ }
        (constantInput ⟨⟨0, 0⟩, ⟨0, 0⟩⟩ [.fin 1]) "G" ⟨0, 0⟩ [.fin 1] rfl rfl
        (by decide)).2.2.2.1 rfl).1 (by decide!)).trans
      (congrArg (fun l => Outcome.value (some l)) (by decide!)),
    (((channel_component_mapping powUnused 1
        { Grade.identity with multiply := ⟨.fin 2, .fin 3, .fin 4⟩ }
        (constantInput ⟨⟨0, 0⟩, ⟨0, 0⟩⟩ [.fin 1]) "A" ⟨0, 0⟩ [.fin 1] rfl rfl
        (by decide)).2.2.2.2.1 (by decide) (by decide)).1 (by decide!)).trans
      (congrArg (fun l => Outcome.value (some l)) (by decide!)),
    ((channel_component_mapping powUnused 1 { Grade.identity with gamma := ⟨1, 1, 0⟩ }
        (constantInput ⟨⟨0, 0⟩, ⟨0, 0⟩⟩ [.fin 5]) "Z" ⟨0, 0⟩ [.fin 5] rfl rfl
        (by decide)).2.2.2.2.1 (by decide) (by decide)).2 rfl⟩

/-! ## ImagePrimitiveSource: the fingerprint of the derived outputs -/

/-- Counterexample to C13 as stated. Over a base class whose `hash` folds in a
contribution of its own, the fingerprint of the channel data output is that
contribution followed by the whole-object fingerprint, not the whole-object
fingerprint alone; and with a whole-object plug whose fingerprint depends on
the tile origin of the current context, the fingerprint of the channel data
output varies with the tile origin. -/
theorem source_hash_rule_counterexample :
    ImagePrimitiveSource.hash (fun _ _ a => a ++ [.flag true]) (fun _ a => a) (fun _ => 7)
        (.outChild .channelData) ⟨"R", ⟨0, 0⟩⟩ [] = [.flag true, .upstream 7] ∧
    ImagePrimitiveSource.hash (fun _ _ a => a ++ [.flag true]) (fun _ a => a) (fun _ => 7)
        (.outChild .channelData) ⟨"R", ⟨0, 0⟩⟩ [] ≠ [.upstream 7] ∧
    ImagePrimitiveSource.hash (fun _ _ a => a) (fun _ a => a) (fun c => c.tileOrigin.x.toNat)
        (.outChild .channelData) ⟨"R", ⟨64, 0⟩⟩ [] ≠
      ImagePrimitiveSource.hash (fun _ _ a => a) (fun _ a => a)
        (fun c => c.tileOrigin.x.toNat) (.outChild .channelData) ⟨"R", ⟨0, 0⟩⟩ [] := by
  decide

/-- C13, amended: for each of the four derived outputs of the image output and
every context, the fingerprint that `ImagePrimitiveSource::hash` produces is
what `BaseType::hash` has produced for that output and context, followed by
exactly one contribution, the fingerprint of the whole-object plug
`__inputImagePrimitive` in that context; `hashImagePrimitive` is not called.
The method itself folds in neither the tile origin nor the channel name: the
fingerprints of two contexts are equal exactly when the contribution of the
base class and the whole-object fingerprint are equal in the two contexts. -/
theorem source_hash_rule
    (baseHash : SourcePlug → Context → List HashPart → List HashPart)
    (hashImagePrimitive hashImagePrimitive2 : Context → List HashPart → List HashPart)
    (inputImagePrimitiveHash : Context → Nat)
    (child : ImageChild) (context context2 : Context) (h : List HashPart) :
    ImagePrimitiveSource.hash baseHash hashImagePrimitive inputImagePrimitiveHash
        (.outChild child) context h
      = baseHash (.outChild child) context h ++ [.upstream (inputImagePrimitiveHash context)] ∧
    ImagePrimitiveSource.hash baseHash hashImagePrimitive2 inputImagePrimitiveHash
        (.outChild child) context h
      = ImagePrimitiveSource.hash baseHash hashImagePrimitive inputImagePrimitiveHash
        (.outChild child) context h ∧
    (ImagePrimitiveSource.hash baseHash hashImagePrimitive inputImagePrimitiveHash
          (.outChild child) context2 h
        = ImagePrimitiveSource.hash baseHash hashImagePrimitive inputImagePrimitiveHash
          (.outChild child) context h ↔
      baseHash (.outChild child) context2 h = baseHash (.outChild child) context h ∧
        inputImagePrimitiveHash context2 = inputImagePrimitiveHash context) := by
  have hmain : ∀ (hip : Context → List HashPart → List HashPart) (c : Context)
      (a : List HashPart),
      ImagePrimitiveSource.hash baseHash hip inputImagePrimitiveHash (.outChild child) c a
        = baseHash (.outChild child) c a ++ [.upstream (inputImagePrimitiveHash c)] := by
    intro hip c a
    simp [ImagePrimitiveSource.hash, SourcePlug.parentImagePlug]
  refine ⟨hmain _ context h, by rw [hmain, hmain], ?_⟩
  rw [hmain, hmain]
  constructor
  · intro heq
    have hl := List.append_inj' heq rfl
    refine ⟨hl.1, ?_⟩
    have h2 := hl.2
    simp only [List.cons.injEq, HashPart.upstream.injEq, and_true] at h2
    exact h2
  · rintro ⟨h1, h2⟩
    rw [h1, h2]

/-- Witness of C13, amended: over a base class that folds in a contribution of
its own and a whole-object plug whose fingerprint depends on the channel name,
the channel data output has the same fingerprint in the contexts of the tiles
`(64, 0)` and `(0, 0)` of channel `R`, and another one for channel `RGB`. -/
theorem source_hash_rule_witness :
    ImagePrimitiveSource.hash (fun _ _ a => a ++ [.flag true]) (fun _ a => a)
        (fun c => c.channelName.length) (.outChild .channelData) ⟨"R", ⟨64, 0⟩⟩ []
      = ImagePrimitiveSource.hash (fun _ _ a => a ++ [.flag true]) (fun _ a => a)
        (fun c => c.channelName.length) (.outChild .channelData) ⟨"R", ⟨0, 0⟩⟩ [] ∧
    ImagePrimitiveSource.hash (fun _ _ a => a ++ [.flag true]) (fun _ a => a)
        (fun c => c.channelName.length) (.outChild .channelData) ⟨"RGB", ⟨0, 0⟩⟩ []
      ≠ ImagePrimitiveSource.hash (fun _ _ a => a ++ [.flag true]) (fun _ a => a)
        (fun c => c.channelName.length) (.outChild .channelData) ⟨"R", ⟨0, 0⟩⟩ [] :=
  ⟨(source_hash_rule (fun _ _ a => a ++ [.flag true]) (fun _ a => a) (fun _ a => a)
      (fun c => c.channelName.length) .channelData ⟨"R", ⟨0, 0⟩⟩ ⟨"R", ⟨64, 0⟩⟩ []).2.2.mpr
      ⟨rfl, rfl⟩,
    fun heq => absurd
      ((source_hash_rule (fun _ _ a => a ++ [.flag true]) (fun _ a => a) (fun _ a => a)
        (fun c => c.channelName.length) .channelData ⟨"R", ⟨0, 0⟩⟩ ⟨"RGB", ⟨0, 0⟩⟩ []).2.2.mp
        heq).2 (by decide)⟩

end GafferImage
